import Mathlib

/-!
Shallow embedding of `vyper/ast/folding.py` (constant folding / literal
substitution) and of `AddressPrimitive.from_literal` from
`vyper/semantics/types/value/address.py`, together with theorems settling
the specification claims.

Modelling notes
- Python AST nodes become a mutual inductive family `Expr` / `ExprList` /
  `PairList`; statements become `Stmt` / `StmtList`; the module root is
  `Module`.  Each expression node carries a `NodeMeta` record holding the
  source-position id and the optional `_metadata["type"]` slot.
- In-place mutation with snapshot traversal (`get_descendants(...,
  reverse=True)`) is modelled as a bottom-up functional rewrite: reverse
  document order visits all descendants of a node before the node itself,
  so when the pass reaches a node its children already carry this pass's
  replacements, and replacement subtrees (absent from the snapshot) are
  never revisited — exactly the behaviour of the bottom-up rewriter.
- Parent / ancestor queries (`get_ancestor`) are modelled by a context
  `List Frame`: the path of (parent-kind, child-slot) frames from the node
  up to the module root, innermost first.  Node identity tests
  (`node == parent.func`, `node in parent.keys`,
  `node in assign.target.get_descendants(include_self=True)`) are
  positional, per the spec ("the `f` itself", "used as a dictionary-literal
  key", left-hand side of the assignment).
- Exceptions become `Except FoldErr`: `UnfoldableNode` is `.unfoldable`,
  a `get_type_from_annotation` failure is `.typeResolution`, and the Python
  `IndexError` from `node.get("annotation.args")[0]` on an empty argument
  list is `.indexErr`.
-/

/-- Type descriptors returned by the external type resolver
(`get_type_from_annotation`); `valueType` is the element type of an array
type (`type_.value_type`), `tid` identifies the type. -/
inductive TypeDesc where
  | base (tid : String)
  | arr (tid : String) (elem : TypeDesc)
  deriving DecidableEq

/-- The `type_.value_type` accessor: array types expose their element type,
other types have no `value_type`. -/
def TypeDesc.valueTypeOf : TypeDesc → Option TypeDesc
  | .base _ => none
  | .arr _ v => some v

/-- Source-position and type metadata carried by every expression node:
`pos` stands for the position fields (`lineno`, `col_offset`, ...) and
`typ` for the `_metadata["type"]` slot. -/
structure NodeMeta where
  pos : Nat
  typ : Option TypeDesc
  deriving DecidableEq

/-- Default metadata for a freshly constructed node (as in
`node(value=value)` in `BUILTIN_CONSTANTS`). -/
def NodeMeta.fresh : NodeMeta := ⟨0, none⟩

/-- Binary operators (`vy_ast.BinOp.op`). -/
inductive BinOpK where
  | add | sub | mul | div | mod | pow
  deriving DecidableEq

/-- Unary operators (`vy_ast.UnaryOp.op`). -/
inductive UnOpK where
  | usub | notK
  deriving DecidableEq

/-- Boolean operators (`vy_ast.BoolOp.op`). -/
inductive BoolOpK where
  | andK | orK
  deriving DecidableEq

/-- Comparison operators (`vy_ast.Compare.op`). -/
inductive CmpOpK where
  | lt | le | gt | ge | eq | ne
  deriving DecidableEq

mutual
/-- Expression nodes of the Vyper AST (`vy_ast` node variants used by the
folding pass).  `Constant` subclasses are `intL`, `decimalL`, `hexL`,
`boolL`, `strL`, `bytesL`; `subscript` holds its slice as an `index` node
(`vy_ast.Index`), matching the parsed shape `Subscript(value, Index(v))`. -/
inductive Expr where
  | intL (v : Int) (m : NodeMeta)
  | decimalL (v : Int) (m : NodeMeta)
  | hexL (s : String) (m : NodeMeta)
  | boolL (b : Bool) (m : NodeMeta)
  | strL (s : String) (m : NodeMeta)
  | bytesL (s : String) (m : NodeMeta)
  | name (id : String) (m : NodeMeta)
  | listE (elems : ExprList) (m : NodeMeta)
  | dictE (pairs : PairList) (m : NodeMeta)
  | call (func : Expr) (args : ExprList) (m : NodeMeta)
  | binop (op : BinOpK) (l : Expr) (r : Expr) (m : NodeMeta)
  | unaryop (op : UnOpK) (operand : Expr) (m : NodeMeta)
  | boolop (op : BoolOpK) (values : ExprList) (m : NodeMeta)
  | compare (op : CmpOpK) (l : Expr) (r : Expr) (m : NodeMeta)
  | subscript (value : Expr) (slice : Expr) (m : NodeMeta)
  | index (value : Expr) (m : NodeMeta)
  deriving DecidableEq

/-- A list of expression nodes (`list` fields of the Python AST). -/
inductive ExprList where
  | nil
  | cons (e : Expr) (rest : ExprList)
  deriving DecidableEq

/-- Key/value pairs of a `Dict` literal (`keys`/`values` zipped). -/
inductive PairList where
  | nil
  | cons (key : Expr) (value : Expr) (rest : PairList)
  deriving DecidableEq
end

mutual
/-- Statement nodes relevant to folding.  `annAssign` is `vy_ast.AnnAssign`
(with its optional value), `fndef` a function definition whose body holds
nested statements, `exprStmt` a bare expression statement. -/
inductive Stmt where
  | annAssign (target : Expr) (ann : Expr) (value : Option Expr)
  | assign (target : Expr) (value : Expr)
  | augAssign (target : Expr) (op : BinOpK) (value : Expr)
  | exprStmt (e : Expr)
  | fndef (fname : String) (body : StmtList)
  deriving DecidableEq

/-- A list of statements. -/
inductive StmtList where
  | nil
  | cons (s : Stmt) (rest : StmtList)
  deriving DecidableEq
end

/-- The module root node (`vy_ast.Module`): owns the top-level statements. -/
structure ModuleNode where
  body : StmtList
  deriving DecidableEq

/-- Position accessor of an expression node. -/
def Expr.pos : Expr → Nat
  | .intL _ m | .decimalL _ m | .hexL _ m | .boolL _ m | .strL _ m
  | .bytesL _ m | .name _ m | .listE _ m | .dictE _ m | .call _ _ m
  | .binop _ _ _ m | .unaryop _ _ m | .boolop _ _ m | .compare _ _ _ m
  | .subscript _ _ m | .index _ m => m.pos

/-- Metadata accessor of an expression node. -/
def Expr.meta : Expr → NodeMeta
  | .intL _ m | .decimalL _ m | .hexL _ m | .boolL _ m | .strL _ m
  | .bytesL _ m | .name _ m | .listE _ m | .dictE _ m | .call _ _ m
  | .binop _ _ _ m | .unaryop _ _ m | .boolop _ _ m | .compare _ _ _ m
  | .subscript _ _ m | .index _ m => m

/-- The `isinstance(node, vy_ast.Constant)`. -/
def Expr.isConstant : Expr → Bool
  | .intL _ _ | .decimalL _ _ | .hexL _ _ | .boolL _ _ | .strL _ _
  | .bytesL _ _ => true
  | _ => false

/-- Rebuild a node with new metadata (used to model `from_node`, which
constructs a copy carrying the template's position). -/
def Expr.withMeta (m : NodeMeta) : Expr → Expr
  | .intL v _ => .intL v m
  | .decimalL v _ => .decimalL v m
  | .hexL s _ => .hexL s m
  | .boolL b _ => .boolL b m
  | .strL s _ => .strL s m
  | .bytesL s _ => .bytesL s m
  | .name i _ => .name i m
  | .listE es _ => .listE es m
  | .dictE ps _ => .dictE ps m
  | .call f a _ => .call f a m
  | .binop o l r _ => .binop o l r m
  | .unaryop o e _ => .unaryop o e m
  | .boolop o vs _ => .boolop o vs m
  | .compare o l r _ => .compare o l r m
  | .subscript v s _ => .subscript v s m
  | .index v _ => .index v m

/-- Rebuild a node at a given position, keeping its type slot (used by the
subscript evaluator: the selected element is cloned with the subscript
node's position metadata). -/
def Expr.withPos (p : Nat) (e : Expr) : Expr :=
  e.withMeta ⟨p, e.meta.typ⟩

mutual
/-- The `_replace(old_node, new_node, type_)` on a present replacement node:
a `Constant` is rebuilt via `from_node` with the old node's position and,
when a type was resolved, the type descriptor in its metadata slot; a
`List` maps `_replace` over its elements with `type_.value_type` and sets
the full descriptor on the produced list node; anything else raises
`UnfoldableNode` (here: `none`). -/
def replaceNodeSome (old : Expr) (new : Expr) (t : Option TypeDesc) :
    Option Expr :=
  if new.isConstant then
    some (new.withMeta ⟨old.pos, t⟩)
  else
    match new with
    | .listE elems _ =>
      match replaceNodeList old elems (t.bind TypeDesc.valueTypeOf) with
      | some es => some (.listE es ⟨old.pos, t⟩)
      | none => none
    | _ => none

/-- The `_replace` mapped over the elements of a `List` replacement value. -/
def replaceNodeList (old : Expr) (es : ExprList) (t : Option TypeDesc) :
    Option ExprList :=
  match es with
  | .nil => some .nil
  | .cons e rest =>
    match replaceNodeSome old e t, replaceNodeList old rest t with
    | some e', some rest' => some (.cons e' rest')
    | _, _ => none
end

/-- The `_replace(old_node, new_node, type_)`: the replacement argument is the
(unfolded) constant value, which is `None` for a valueless `AnnAssign`
(then `isinstance` fails immediately and `UnfoldableNode` is raised). -/
def replaceNode (old : Expr) (new : Option Expr) (t : Option TypeDesc) :
    Option Expr :=
  match new with
  | none => none
  | some n => replaceNodeSome old n t

/-- The error channel of the folding stage: `unfoldable` is the
recoverable `UnfoldableNode`, `typeResolution` a failure of the external
`get_type_from_annotation`, and `indexErr` the Python `IndexError` from
indexing an empty `annotation.args` list. -/
inductive FoldErr where
  | unfoldable
  | typeResolution
  | indexErr
  deriving DecidableEq

/-- A context frame: which kind of parent node the current subtree hangs
from and in which child slot.  The list of frames from a node to the
module root replaces the tree's parent back-references for the
`get_ancestor` queries of `replace_constant`. -/
inductive Frame where
  | callFunc | callArg
  | dictKey | dictValue
  | listElem
  | binopL | binopR
  | unaryOperand
  | boolopValue
  | compareL | compareR
  | subscriptValue | subscriptSlice
  | indexValue
  | annTarget | annAnn | annValue
  | assignTarget | assignValue
  | augTarget | augValue
  | exprStmtE
  | fndefBody
  | moduleBody
  deriving DecidableEq

/-- Frames contributed by one of the three assignment statement kinds
(`vy_ast.Assign`, `vy_ast.AnnAssign`, `vy_ast.AugAssign`): the first such
frame on the context path identifies `node.get_ancestor((Assign,
AnnAssign, AugAssign))`. -/
def Frame.isAssignFrame : Frame → Bool
  | .annTarget | .annAnn | .annValue
  | .assignTarget | .assignValue
  | .augTarget | .augValue => true
  | _ => false

/-- Frames placing the node inside the assignment's `target` child, i.e.
`node in assign.target.get_descendants(include_self=True)`. -/
def Frame.isTargetFrame : Frame → Bool
  | .annTarget | .assignTarget | .augTarget => true
  | _ => false

/-- The three `continue` guards of `replace_constant`, evaluated on the
node's ancestor path: (1) the node is the `func` of a `Call`; (2) the node
is a key of a `Dict`; (3) no `Index` ancestor exists and the nearest
assignment ancestor holds the node inside its target. -/
def skipName (ctx : List Frame) : Bool :=
  ctx.head? == some Frame.callFunc ||
  ctx.head? == some Frame.dictKey ||
  (!(ctx.contains Frame.indexValue) &&
    (match ctx.find? Frame.isAssignFrame with
     | some f => f.isTargetFrame
     | none => false))

mutual
/-- Body of `replace_constant`'s loop over
`get_descendants(vy_ast.Name, {"id": id_}, reverse=True)`, written as a
structural traversal: every `Name` node with the requested id is tested
against the guards (`skipName` on its ancestor path); a passing reference
is rewritten via `_replace`, an `UnfoldableNode` from `_replace` is
re-raised when `raise_on_error` and skipped otherwise.  The traversal is in
document order; the Python snapshot traversal is in reverse document
order, which replaces the same set of `Name` leaves (leaf replacements
never detach other snapshot entries), returns the same count, and raises
the same (data-free) exception when one occurs. -/
def rcExpr (id_ : String) (repl : Option Expr) (raiseOnError : Bool)
    (t : Option TypeDesc) (ctx : List Frame) :
    Expr → Except FoldErr (Expr × Nat)
  | .name s m =>
    if s = id_ then
      if skipName ctx then .ok (.name s m, 0)
      else
        match replaceNode (.name s m) repl t with
        | some newNode => .ok (newNode, 1)
        | none =>
          if raiseOnError then .error .unfoldable else .ok (.name s m, 0)
    else .ok (.name s m, 0)
  | .intL v m => .ok (.intL v m, 0)
  | .decimalL v m => .ok (.decimalL v m, 0)
  | .hexL s m => .ok (.hexL s m, 0)
  | .boolL b m => .ok (.boolL b m, 0)
  | .strL s m => .ok (.strL s m, 0)
  | .bytesL s m => .ok (.bytesL s m, 0)
  | .listE es m => do
    let (es', c) ← rcExprList id_ repl raiseOnError t (.listElem :: ctx) es
    .ok (.listE es' m, c)
  | .dictE ps m => do
    let (ps', c) ← rcPairList id_ repl raiseOnError t ctx ps
    .ok (.dictE ps' m, c)
  | .call f args m => do
    let (f', c1) ← rcExpr id_ repl raiseOnError t (.callFunc :: ctx) f
    let (args', c2) ← rcExprList id_ repl raiseOnError t (.callArg :: ctx) args
    .ok (.call f' args' m, c1 + c2)
  | .binop op l r m => do
    let (l', c1) ← rcExpr id_ repl raiseOnError t (.binopL :: ctx) l
    let (r', c2) ← rcExpr id_ repl raiseOnError t (.binopR :: ctx) r
    .ok (.binop op l' r' m, c1 + c2)
  | .unaryop op e m => do
    let (e', c) ← rcExpr id_ repl raiseOnError t (.unaryOperand :: ctx) e
    .ok (.unaryop op e' m, c)
  | .boolop op vs m => do
    let (vs', c) ← rcExprList id_ repl raiseOnError t (.boolopValue :: ctx) vs
    .ok (.boolop op vs' m, c)
  | .compare op l r m => do
    let (l', c1) ← rcExpr id_ repl raiseOnError t (.compareL :: ctx) l
    let (r', c2) ← rcExpr id_ repl raiseOnError t (.compareR :: ctx) r
    .ok (.compare op l' r' m, c1 + c2)
  | .subscript v s m => do
    let (v', c1) ← rcExpr id_ repl raiseOnError t (.subscriptValue :: ctx) v
    let (s', c2) ← rcExpr id_ repl raiseOnError t (.subscriptSlice :: ctx) s
    .ok (.subscript v' s' m, c1 + c2)
  | .index v m => do
    let (v', c) ← rcExpr id_ repl raiseOnError t (.indexValue :: ctx) v
    .ok (.index v' m, c)

/-- The `rcExpr` over an expression list. -/
def rcExprList (id_ : String) (repl : Option Expr) (raiseOnError : Bool)
    (t : Option TypeDesc) (ctx : List Frame) :
    ExprList → Except FoldErr (ExprList × Nat)
  | .nil => .ok (.nil, 0)
  | .cons e rest => do
    let (e', c1) ← rcExpr id_ repl raiseOnError t ctx e
    let (rest', c2) ← rcExprList id_ repl raiseOnError t ctx rest
    .ok (.cons e' rest', c1 + c2)

/-- The `rcExpr` over dictionary pairs: keys hang from a `dictKey` frame,
values from a `dictValue` frame. -/
def rcPairList (id_ : String) (repl : Option Expr) (raiseOnError : Bool)
    (t : Option TypeDesc) (ctx : List Frame) :
    PairList → Except FoldErr (PairList × Nat)
  | .nil => .ok (.nil, 0)
  | .cons k v rest => do
    let (k', c1) ← rcExpr id_ repl raiseOnError t (.dictKey :: ctx) k
    let (v', c2) ← rcExpr id_ repl raiseOnError t (.dictValue :: ctx) v
    let (rest', c3) ← rcPairList id_ repl raiseOnError t ctx rest
    .ok (.cons k' v' rest', c1 + c2 + c3)
end

mutual
/-- The `rcExpr` over a statement: each child expression hangs from the frame
naming its slot. -/
def rcStmt (id_ : String) (repl : Option Expr) (raiseOnError : Bool)
    (t : Option TypeDesc) (ctx : List Frame) :
    Stmt → Except FoldErr (Stmt × Nat)
  | .annAssign tgt ann val => do
    let (tgt', c1) ← rcExpr id_ repl raiseOnError t (.annTarget :: ctx) tgt
    let (ann', c2) ← rcExpr id_ repl raiseOnError t (.annAnn :: ctx) ann
    match val with
    | none => .ok (.annAssign tgt' ann' none, c1 + c2)
    | some v => do
      let (v', c3) ← rcExpr id_ repl raiseOnError t (.annValue :: ctx) v
      .ok (.annAssign tgt' ann' (some v'), c1 + c2 + c3)
  | .assign tgt val => do
    let (tgt', c1) ← rcExpr id_ repl raiseOnError t (.assignTarget :: ctx) tgt
    let (val', c2) ← rcExpr id_ repl raiseOnError t (.assignValue :: ctx) val
    .ok (.assign tgt' val', c1 + c2)
  | .augAssign tgt op val => do
    let (tgt', c1) ← rcExpr id_ repl raiseOnError t (.augTarget :: ctx) tgt
    let (val', c2) ← rcExpr id_ repl raiseOnError t (.augValue :: ctx) val
    .ok (.augAssign tgt' op val', c1 + c2)
  | .exprStmt e => do
    let (e', c) ← rcExpr id_ repl raiseOnError t (.exprStmtE :: ctx) e
    .ok (.exprStmt e', c)
  | .fndef fname body => do
    let (body', c) ← rcStmtList id_ repl raiseOnError t (.fndefBody :: ctx) body
    .ok (.fndef fname body', c)

/-- The `rcStmt` over a statement list. -/
def rcStmtList (id_ : String) (repl : Option Expr) (raiseOnError : Bool)
    (t : Option TypeDesc) (ctx : List Frame) :
    StmtList → Except FoldErr (StmtList × Nat)
  | .nil => .ok (.nil, 0)
  | .cons s rest => do
    let (s', c1) ← rcStmt id_ repl raiseOnError t ctx s
    let (rest', c2) ← rcStmtList id_ repl raiseOnError t ctx rest
    .ok (.cons s' rest', c1 + c2)
end

/-- The `replace_constant(vyper_module, id_, replacement_node, raise_on_error,
type_)`: replace references to a variable name with a literal value,
returning the number of replaced nodes. -/
def replaceConstant (vyper_module : ModuleNode) (id_ : String)
    (repl : Option Expr) (raiseOnError : Bool) (t : Option TypeDesc) :
    Except FoldErr (ModuleNode × Nat) := do
  let (body', c) ←
    rcStmtList id_ repl raiseOnError t [Frame.moduleBody] vyper_module.body
  .ok (⟨body'⟩, c)

/-- The `BUILTIN_CONSTANTS`: reserved names mapped to the literal node built
by `node(value=value)` (fresh metadata). -/
def BUILTIN_CONSTANTS : List (String × Expr) := [
  ("EMPTY_BYTES32", .hexL
    "0x0000000000000000000000000000000000000000000000000000000000000000"
    NodeMeta.fresh),
  ("ZERO_ADDRESS", .hexL "0x0000000000000000000000000000000000000000"
    NodeMeta.fresh),
  ("MAX_INT128", .intL (2 ^ 127 - 1) NodeMeta.fresh),
  ("MIN_INT128", .intL (-(2 ^ 127)) NodeMeta.fresh),
  ("MAX_DECIMAL", .decimalL (2 ^ 127 - 1) NodeMeta.fresh),
  ("MIN_DECIMAL", .decimalL (-(2 ^ 127)) NodeMeta.fresh),
  ("MAX_UINT256", .intL (2 ^ 256 - 1) NodeMeta.fresh)]

/-- The loop of `replace_builtin_constants` over the table entries, in
insertion order, threading the module through each `replace_constant`
call (with `raise_on_error=True`) and discarding the counts. -/
def rbcList : List (String × Expr) → ModuleNode → Except FoldErr ModuleNode
  | [], m => .ok m
  | (nm, c) :: rest, m => do
    let (m', _) ← replaceConstant m nm (some c) true none
    rbcList rest m'

/-- The `replace_builtin_constants(vyper_module)`. -/
def replaceBuiltinConstants (vyper_module : ModuleNode) :
    Except FoldErr ModuleNode :=
  rbcList BUILTIN_CONSTANTS vyper_module

mutual
/-- A fully literal subtree: a `Constant` node or a `List` of fully
literal subtrees ("literal fixed-size sequence" of the spec). -/
def isLitExpr : Expr → Bool
  | .listE es _ => isLitList es
  | e => e.isConstant

/-- The `isLitExpr` over an element list. -/
def isLitList : ExprList → Bool
  | .nil => true
  | .cons e rest => isLitExpr e && isLitList rest
end

/-- Element access of an expression list. -/
def ExprList.get? : ExprList → Nat → Option Expr
  | .nil, _ => none
  | .cons e _, 0 => some e
  | .cons _ rest, n + 1 => rest.get? n

/-- Length of an expression list. -/
def ExprList.length : ExprList → Nat
  | .nil => 0
  | .cons _ rest => rest.length + 1

/-- Modelled from the spec: the arithmetic rules of the `BinOp.evaluate`
method live in `vyper/ast/nodes.py`, outside the excerpt; §4.3 specifies
per-operator evaluation on literal operands, failing (non-fatally) on
combinations that are not statically defined, e.g. division by a literal
zero. -/
def evalBinOpK (op : BinOpK) (a b : Int) : Option Int :=
  match op with
  | .add => some (a + b)
  | .sub => some (a - b)
  | .mul => some (a * b)
  | .div => if b = 0 then none else some (a / b)
  | .mod => if b = 0 then none else some (a % b)
  | .pow => if b < 0 then none else some (a ^ b.toNat)

/-- Modelled from the spec (§4.3): ordered comparison of literal integer
operands. -/
def evalCmpK (op : CmpOpK) (a b : Int) : Bool :=
  match op with
  | .lt => a < b
  | .le => a ≤ b
  | .gt => b < a
  | .ge => b ≤ a
  | .eq => a = b
  | .ne => a ≠ b

/-- The operand values of a `BoolOp` when all operands are boolean
literals (otherwise evaluation is not statically defined). -/
def boolLits : ExprList → Option (List Bool)
  | .nil => some []
  | .cons (.boolL b _) rest => (boolLits rest).map (fun bs => b :: bs)
  | .cons _ _ => none

/-- Modelled from the spec (§4.3): the `evaluate` methods of `BinOp`,
`UnaryOp`, `BoolOp` and `Compare` nodes (`vyper/ast/nodes.py`, outside the
excerpt).  Evaluation succeeds only when every operand is itself a
literal of the operator's expected kind, producing a constant node at the
evaluated node's position; any other input raises `UnfoldableNode`
(here: `none`). -/
def evalOpNode : Expr → Option Expr
  | .binop op l r m =>
    match l, r with
    | .intL a _, .intL b _ =>
      (evalBinOpK op a b).map (fun v => .intL v ⟨m.pos, none⟩)
    | _, _ => none
  | .unaryop op v m =>
    match op, v with
    | .usub, .intL a _ => some (.intL (-a) ⟨m.pos, none⟩)
    | .notK, .boolL b _ => some (.boolL (!b) ⟨m.pos, none⟩)
    | _, _ => none
  | .boolop op vs m =>
    (boolLits vs).map (fun bs =>
      .boolL (match op with | .andK => bs.all id | .orK => bs.any id)
        ⟨m.pos, none⟩)
  | .compare op l r m =>
    match l, r with
    | .intL a _, .intL b _ => some (.boolL (evalCmpK op a b) ⟨m.pos, none⟩)
    | _, _ => none
  | _ => none

/-- Modelled from the spec (§4.4): `Subscript.evaluate`
(`vyper/ast/nodes.py`, outside the excerpt): the base must be a literal
fixed-size sequence and the index a literal integer within bounds;
success yields the selected element cloned with the subscript node's
position metadata, anything else raises `UnfoldableNode`. -/
def evalSubscriptNode : Expr → Option Expr
  | .subscript v s m =>
    match v, s with
    | .listE es _, .index i _ =>
      match i with
      | .intL iv _ =>
        if iv < 0 then none
        else if isLitList es then
          (es.get? iv.toNat).map (fun e => e.withPos m.pos)
        else none
      | _ => none
    | _, _ => none
  | _ => none

mutual
/-- Modelled from the spec (§6): a node returned by a dispatch-table
evaluator is a literal or a (possibly nested) list of literals
(`literal_or_list_node`). -/
inductive LitTree where
  | intL (v : Int)
  | decimalL (v : Int)
  | hexL (s : String)
  | boolL (b : Bool)
  | strL (s : String)
  | bytesL (s : String)
  | listL (elems : LitList)

/-- Elements of a `LitTree.listL`. -/
inductive LitList where
  | nil
  | cons (e : LitTree) (rest : LitList)
end

mutual
/-- Realize an evaluator result as an AST node at the evaluated call
node's position. -/
def LitTree.toExpr (p : Nat) : LitTree → Expr
  | .intL v => .intL v ⟨p, none⟩
  | .decimalL v => .decimalL v ⟨p, none⟩
  | .hexL s => .hexL s ⟨p, none⟩
  | .boolL b => .boolL b ⟨p, none⟩
  | .strL s => .strL s ⟨p, none⟩
  | .bytesL s => .bytesL s ⟨p, none⟩
  | .listL es => .listE (LitList.toExprList p es) ⟨p, none⟩

/-- The `LitTree.toExpr` over a literal list. -/
def LitList.toExprList (p : Nat) : LitList → ExprList
  | .nil => .nil
  | .cons e rest => .cons (e.toExpr p) (LitList.toExprList p rest)
end

/-- Modelled from the spec (§3, §6): the external `DISPATCH_TABLE`
collaborator.  `d name = none` means the name is absent from the table;
`d name = some none` an entry lacking the `evaluate` capability
(`not hasattr(func, "evaluate")`); `d name = some (some ev)` an entry
whose evaluator is invoked on the call node and either fails with
`UnfoldableNode` (`none`) or returns a literal-or-list node. -/
abbrev DispatchTable := String → Option (Option (Expr → Option LitTree))

/-- The per-node body of `replace_builtin_functions`' loop: a `Call` node
is considered only when its callee is a plain `Name`; the name is looked
up in the dispatch table, entries that are absent or lack the evaluate
capability are skipped, and the evaluator's `UnfoldableNode` is caught
as a skip. -/
def evalBuiltinCallNode (d : DispatchTable) : Expr → Option Expr
  | .call f args m =>
    match f with
    | .name s _ =>
      match d s with
      | none => none
      | some none => none
      | some (some ev) =>
        match ev (.call f args m) with
        | none => none
        | some lit => some (lit.toExpr m.pos)
    | _ => none
  | _ => none

/-- Offer the rebuilt node to the pass's evaluator: success replaces it
(one more changed node), failure leaves it in place. -/
def buPost (f : Expr → Option Expr) (e : Expr) (c : Nat) : Expr × Nat :=
  match f e with
  | some r => (r, c + 1)
  | none => (e, c)

mutual
/-- One evaluate-pass over an expression, modelling the loop
`for node in vyper_module.get_descendants(kinds, reverse=True): try
new_node = evaluate(node) except UnfoldableNode: continue;
replace_in_tree(node, new_node)`.  Reverse document order visits every
descendant of a node before the node itself, so the pass sees each
snapshot node with its children already rewritten, and replacement nodes
(absent from the snapshot) are never revisited: exactly this bottom-up
rewrite.  The kind filter lives in `f`, which returns `none` on nodes of
other kinds. -/
def buExpr (f : Expr → Option Expr) : Expr → Expr × Nat
  | .intL v m => buPost f (.intL v m) 0
  | .decimalL v m => buPost f (.decimalL v m) 0
  | .hexL s m => buPost f (.hexL s m) 0
  | .boolL b m => buPost f (.boolL b m) 0
  | .strL s m => buPost f (.strL s m) 0
  | .bytesL s m => buPost f (.bytesL s m) 0
  | .name s m => buPost f (.name s m) 0
  | .listE es m =>
    let (es', c) := buExprList f es
    buPost f (.listE es' m) c
  | .dictE ps m =>
    let (ps', c) := buPairList f ps
    buPost f (.dictE ps' m) c
  | .call fn args m =>
    let (fn', c1) := buExpr f fn
    let (args', c2) := buExprList f args
    buPost f (.call fn' args' m) (c1 + c2)
  | .binop op l r m =>
    let (l', c1) := buExpr f l
    let (r', c2) := buExpr f r
    buPost f (.binop op l' r' m) (c1 + c2)
  | .unaryop op e m =>
    let (e', c) := buExpr f e
    buPost f (.unaryop op e' m) c
  | .boolop op vs m =>
    let (vs', c) := buExprList f vs
    buPost f (.boolop op vs' m) c
  | .compare op l r m =>
    let (l', c1) := buExpr f l
    let (r', c2) := buExpr f r
    buPost f (.compare op l' r' m) (c1 + c2)
  | .subscript v s m =>
    let (v', c1) := buExpr f v
    let (s', c2) := buExpr f s
    buPost f (.subscript v' s' m) (c1 + c2)
  | .index v m =>
    let (v', c) := buExpr f v
    buPost f (.index v' m) c

/-- The `buExpr` over an expression list. -/
def buExprList (f : Expr → Option Expr) : ExprList → ExprList × Nat
  | .nil => (.nil, 0)
  | .cons e rest =>
    let (e', c1) := buExpr f e
    let (rest', c2) := buExprList f rest
    (.cons e' rest', c1 + c2)

/-- The `buExpr` over dictionary pairs. -/
def buPairList (f : Expr → Option Expr) : PairList → PairList × Nat
  | .nil => (.nil, 0)
  | .cons k v rest =>
    let (k', c1) := buExpr f k
    let (v', c2) := buExpr f v
    let (rest', c3) := buPairList f rest
    (.cons k' v' rest', c1 + c2 + c3)
end

mutual
/-- The `buExpr` over a statement. -/
def buStmt (f : Expr → Option Expr) : Stmt → Stmt × Nat
  | .annAssign tgt ann val =>
    let (tgt', c1) := buExpr f tgt
    let (ann', c2) := buExpr f ann
    match val with
    | none => (.annAssign tgt' ann' none, c1 + c2)
    | some v =>
      let (v', c3) := buExpr f v
      (.annAssign tgt' ann' (some v'), c1 + c2 + c3)
  | .assign tgt val =>
    let (tgt', c1) := buExpr f tgt
    let (val', c2) := buExpr f val
    (.assign tgt' val', c1 + c2)
  | .augAssign tgt op val =>
    let (tgt', c1) := buExpr f tgt
    let (val', c2) := buExpr f val
    (.augAssign tgt' op val', c1 + c2)
  | .exprStmt e =>
    let (e', c) := buExpr f e
    (.exprStmt e', c)
  | .fndef fname body =>
    let (body', c) := buStmtList f body
    (.fndef fname body', c)

/-- The `buStmt` over a statement list. -/
def buStmtList (f : Expr → Option Expr) : StmtList → StmtList × Nat
  | .nil => (.nil, 0)
  | .cons s rest =>
    let (s', c1) := buStmt f s
    let (rest', c2) := buStmtList f rest
    (.cons s' rest', c1 + c2)
end

/-- One evaluate-pass over the whole module. -/
def buModule (f : Expr → Option Expr) (m : ModuleNode) : ModuleNode × Nat :=
  let (body', c) := buStmtList f m.body
  (⟨body'⟩, c)

/-- The `replace_literal_ops(vyper_module)`: evaluate `BoolOp`, `BinOp`,
`UnaryOp`, `Compare` nodes, replacing them with constants where possible;
returns the number of replaced nodes. -/
def replaceLiteralOps (vyper_module : ModuleNode) : ModuleNode × Nat :=
  buModule evalOpNode vyper_module

/-- The `replace_subscripts(vyper_module)`: evaluate `Subscript` nodes,
replacing them where possible; returns the number of replaced nodes. -/
def replaceSubscripts (vyper_module : ModuleNode) : ModuleNode × Nat :=
  buModule evalSubscriptNode vyper_module

/-- The `replace_builtin_functions(vyper_module)`: evaluate builtin `Call`
nodes through the dispatch table; returns the number of replaced nodes. -/
def replaceBuiltinFunctions (d : DispatchTable) (vyper_module : ModuleNode) :
    ModuleNode × Nat :=
  buModule (evalBuiltinCallNode d) vyper_module

/-- Modelled from the spec (§6): the external type resolver
`get_type_from_annotation(annotation_node, location)`, which returns a
type descriptor or fails with a (fatal, propagated) error. -/
abbrev Resolver := Expr → Except Unit TypeDesc

/-- Element access of a statement list. -/
def StmtList.get? : StmtList → Nat → Option Stmt
  | .nil, _ => none
  | .cons s _, 0 => some s
  | .cons _ rest, n + 1 => rest.get? n

/-- Length of a statement list. -/
def StmtList.length : StmtList → Nat
  | .nil => 0
  | .cons _ rest => rest.length + 1

/-- The filter of `replace_user_defined_constants`: a direct module child
that is an `AnnAssign` whose target is a bare `Name`
(`isinstance(node.target, vy_ast.Name)`) and whose annotation satisfies
`node.get("annotation.func.id") == "constant"`; yields the target id, the
annotation call's argument list and the declared value. -/
def matchConstDecl : Stmt → Option (String × ExprList × Option Expr)
  | .annAssign (.name x _) (.call (.name "constant" _) args _) v =>
    some (x, args, v)
  | _ => none

/-- The loop of `replace_user_defined_constants` over the module's direct
children, by index (`replace_constant` preserves the statement skeleton,
so indexing the current module coincides with Python's snapshot of
mutated-in-place child nodes).  For a matching declaration,
`node.get("annotation.args")[0]` raises `IndexError` on an empty argument
list; otherwise the resolver is invoked on the first argument (AST nodes
are always truthy, so the `if constant_annotation else None` branch
cannot yield `None` here) and a resolution failure propagates.  Then every
legal reference is substituted with the declaration's current value via
`replace_constant(..., False, type_)`. -/
def rudcGo (r : Resolver) (m : ModuleNode) (i : Nat) :
    Nat → Except FoldErr (ModuleNode × Nat)
  | 0 => .ok (m, 0)
  | fuel + 1 =>
    match m.body.get? i with
    | none => .ok (m, 0)
    | some s =>
      match matchConstDecl s with
      | none => rudcGo r m (i + 1) fuel
      | some (x, args, v) =>
        match args with
        | .nil => .error .indexErr
        | .cons a _ =>
          match r a with
          | .error _ => .error .typeResolution
          | .ok ty => do
            let (m', c1) ← replaceConstant m x v false (some ty)
            let (m'', c2) ← rudcGo r m' (i + 1) fuel
            .ok (m'', c1 + c2)

/-- The `replace_user_defined_constants(vyper_module)`: find user-defined
constant assignments among the module's direct children and replace
references to them with their literal values; returns the number of
replaced nodes. -/
def replaceUserDefinedConstants (r : Resolver) (vyper_module : ModuleNode) :
    Except FoldErr (ModuleNode × Nat) :=
  rudcGo r vyper_module 0 vyper_module.body.length

mutual
/-- Termination measure: the number of evaluable non-literal nodes
(operator, subscript, call and name-reference nodes) in a subtree. -/
def measureExpr : Expr → Nat
  | .intL _ _ | .decimalL _ _ | .hexL _ _ | .boolL _ _
  | .strL _ _ | .bytesL _ _ => 0
  | .name _ _ => 1
  | .listE es _ => measureExprList es
  | .dictE ps _ => measurePairList ps
  | .call f args _ => 1 + measureExpr f + measureExprList args
  | .binop _ l r _ => 1 + measureExpr l + measureExpr r
  | .unaryop _ e _ => 1 + measureExpr e
  | .boolop _ vs _ => 1 + measureExprList vs
  | .compare _ l r _ => 1 + measureExpr l + measureExpr r
  | .subscript v s _ => 1 + measureExpr v + measureExpr s
  | .index v _ => measureExpr v

/-- The `measureExpr` over an expression list. -/
def measureExprList : ExprList → Nat
  | .nil => 0
  | .cons e rest => measureExpr e + measureExprList rest

/-- The `measureExpr` over dictionary pairs. -/
def measurePairList : PairList → Nat
  | .nil => 0
  | .cons k v rest => measureExpr k + measureExpr v + measurePairList rest
end

mutual
/-- The `measureExpr` over a statement. -/
def measureStmt : Stmt → Nat
  | .annAssign tgt ann val =>
    measureExpr tgt + measureExpr ann +
      (match val with | none => 0 | some v => measureExpr v)
  | .assign tgt val => measureExpr tgt + measureExpr val
  | .augAssign tgt _ val => measureExpr tgt + measureExpr val
  | .exprStmt e => measureExpr e
  | .fndef _ body => measureStmtList body

/-- The `measureStmt` over a statement list. -/
def measureStmtList : StmtList → Nat
  | .nil => 0
  | .cons s rest => measureStmt s + measureStmtList rest
end

/-- The `measureExpr` over the whole module. -/
def measureModule (m : ModuleNode) : Nat :=
  measureStmtList m.body

/-- One iteration group of `fold`'s while-loop: the four passes in their
fixed order — user-defined constant substitution, literal operator
evaluation, subscript evaluation, builtin call evaluation — with the
changed-node counts summed. -/
def sweep (d : DispatchTable) (r : Resolver) (m : ModuleNode) :
    Except FoldErr (ModuleNode × Nat) := do
  let (m1, n1) ← replaceUserDefinedConstants r m
  let (m2, n2) := replaceLiteralOps m1
  let (m3, n3) := replaceSubscripts m2
  let (m4, n4) := replaceBuiltinFunctions d m3
  .ok (m4, n1 + n2 + n3 + n4)

/-- The `while changed_nodes:` loop of `fold`, with an explicit fuel.
The Python loop is unbounded; `foldLoop_eq` below proves the fixed-point
unfolding equation of the unbounded loop for this definition, and
`foldLoopAux_fuel_irrelevant` that any fuel of at least
`measureModule m + 1` yields the same result, so the fuel is never
exhausted when `fold` supplies it. -/
def foldLoopAux (d : DispatchTable) (r : Resolver) :
    Nat → ModuleNode → Except FoldErr ModuleNode
  | 0, m => .ok m
  | fuel + 1, m => do
    let (m', n) ← sweep d r m
    if n = 0 then .ok m' else foldLoopAux d r fuel m'

/-- The `fold(vyper_module)`: perform literal folding operations on a Vyper
AST — builtin constant substitution once, then the four-pass group
repeated while its changed-node count is nonzero. -/
def fold (d : DispatchTable) (r : Resolver) (vyper_module : ModuleNode) :
    Except FoldErr ModuleNode := do
  let m0 ← replaceBuiltinConstants vyper_module
  foldLoopAux d r (measureModule m0 + 1) m0

mutual
/-- No `Name` node occurs in the subtree.  All nodes a folding pass ever
inserts are name-free. -/
def nameFreeExpr : Expr → Bool
  | .name _ _ => false
  | .intL _ _ | .decimalL _ _ | .hexL _ _ | .boolL _ _
  | .strL _ _ | .bytesL _ _ => true
  | .listE es _ => nameFreeList es
  | .dictE ps _ => nameFreePairs ps
  | .call f args _ => nameFreeExpr f && nameFreeList args
  | .binop _ l r _ => nameFreeExpr l && nameFreeExpr r
  | .unaryop _ e _ => nameFreeExpr e
  | .boolop _ vs _ => nameFreeList vs
  | .compare _ l r _ => nameFreeExpr l && nameFreeExpr r
  | .subscript v s _ => nameFreeExpr v && nameFreeExpr s
  | .index v _ => nameFreeExpr v

/-- The `nameFreeExpr` over an expression list. -/
def nameFreeList : ExprList → Bool
  | .nil => true
  | .cons e rest => nameFreeExpr e && nameFreeList rest

/-- The `nameFreeExpr` over dictionary pairs. -/
def nameFreePairs : PairList → Bool
  | .nil => true
  | .cons k v rest => nameFreeExpr k && nameFreeExpr v && nameFreePairs rest
end

mutual
/-- The number of substitutable references to `id_` in a subtree whose
ancestor path is `ctx`: occurrences of `Name(id_)` that none of the three
`replace_constant` guards excludes.  The frames pushed at each child slot
coincide with those of `rcExpr`. -/
def csExpr (id_ : String) (ctx : List Frame) : Expr → Nat
  | .name s _ => if s = id_ then (if skipName ctx then 0 else 1) else 0
  | .intL _ _ | .decimalL _ _ | .hexL _ _ | .boolL _ _
  | .strL _ _ | .bytesL _ _ => 0
  | .listE es _ => csExprList id_ (.listElem :: ctx) es
  | .dictE ps _ => csPairList id_ ctx ps
  | .call f args _ =>
    csExpr id_ (.callFunc :: ctx) f + csExprList id_ (.callArg :: ctx) args
  | .binop _ l r _ =>
    csExpr id_ (.binopL :: ctx) l + csExpr id_ (.binopR :: ctx) r
  | .unaryop _ e _ => csExpr id_ (.unaryOperand :: ctx) e
  | .boolop _ vs _ => csExprList id_ (.boolopValue :: ctx) vs
  | .compare _ l r _ =>
    csExpr id_ (.compareL :: ctx) l + csExpr id_ (.compareR :: ctx) r
  | .subscript v s _ =>
    csExpr id_ (.subscriptValue :: ctx) v +
      csExpr id_ (.subscriptSlice :: ctx) s
  | .index v _ => csExpr id_ (.indexValue :: ctx) v

/-- The `csExpr` over an expression list. -/
def csExprList (id_ : String) (ctx : List Frame) : ExprList → Nat
  | .nil => 0
  | .cons e rest => csExpr id_ ctx e + csExprList id_ ctx rest

/-- The `csExpr` over dictionary pairs. -/
def csPairList (id_ : String) (ctx : List Frame) : PairList → Nat
  | .nil => 0
  | .cons k v rest =>
    csExpr id_ (.dictKey :: ctx) k + csExpr id_ (.dictValue :: ctx) v +
      csPairList id_ ctx rest
end

mutual
/-- The `csExpr` over a statement. -/
def csStmt (id_ : String) (ctx : List Frame) : Stmt → Nat
  | .annAssign tgt ann val =>
    csExpr id_ (.annTarget :: ctx) tgt + csExpr id_ (.annAnn :: ctx) ann +
      (match val with
       | none => 0
       | some v => csExpr id_ (.annValue :: ctx) v)
  | .assign tgt val =>
    csExpr id_ (.assignTarget :: ctx) tgt +
      csExpr id_ (.assignValue :: ctx) val
  | .augAssign tgt _ val =>
    csExpr id_ (.augTarget :: ctx) tgt + csExpr id_ (.augValue :: ctx) val
  | .exprStmt e => csExpr id_ (.exprStmtE :: ctx) e
  | .fndef _ body => csStmtList id_ (.fndefBody :: ctx) body

/-- The `csStmt` over a statement list. -/
def csStmtList (id_ : String) (ctx : List Frame) : StmtList → Nat
  | .nil => 0
  | .cons s rest => csStmt id_ ctx s + csStmtList id_ ctx rest
end

/-- The `csExpr` over the whole module: the number of references
`replace_constant` would substitute. -/
def csModule (id_ : String) (m : ModuleNode) : Nat :=
  csStmtList id_ [Frame.moduleBody] m.body

/-- The result of the `k+1`-st consecutive sweep starting from `m`:
`sweepIter d r 0 m` is the first sweep's result, and `sweepIter d r (k+1) m`
drops the first sweep's count and continues from its module. -/
def sweepIter (d : DispatchTable) (r : Resolver) :
    Nat → ModuleNode → Except FoldErr (ModuleNode × Nat)
  | 0, m => sweep d r m
  | k + 1, m =>
    match sweep d r m with
    | .error e => .error e
    | .ok (m', _) => sweepIter d r k m'

/-- Result of `AddressPrimitive.from_literal` on a `Hex` literal node:
return an `AddressDefinition`, raise the user-facing `InvalidLiteral`, or
raise the internal `CompilerPanic`. -/
inductive FromLiteralResult where
  | addressDefinition
  | invalidLiteral
  | compilerPanic
  deriving DecidableEq

/-- The `AddressPrimitive.from_literal(node)` from
`vyper/semantics/types/value/address.py`, applied to a `Hex` constant node
(`_valid_literal = (vy_ast.Hex,)`, so the `BasePrimitive.from_literal`
super-call passes for `Hex` nodes).  `checksum_encode` lives in
`vyper/utils.py` (outside the excerpt) and is abstracted as a parameter;
`addr` is `node.value`, the literal string including its `0x` prefix. -/
def AddressPrimitive_from_literal (checksum_encode : String → String)
    (addr : String) : FromLiteralResult :=
  if addr.length ≠ 42 then .invalidLiteral
  else if checksum_encode addr ≠ addr then .compilerPanic
  else .addressDefinition

mutual
/-- Modelled from the spec's words (§3 Provenance, §4.2 `from_node`, §4.7):
a node substituted for a constant reference inherits the replaced node's
source position, carries the resolved type descriptor (when one was
resolved) in its type metadata slot, and, when it is a list literal, the
declared element type (`value_type`) is set recursively on each produced
element with the full descriptor on the list node itself. -/
inductive InheritsProv (p : Nat) : Option TypeDesc → Expr → Prop where
  | const (c : Expr) (t : Option TypeDesc) (hc : c.isConstant = true)
      (hpos : c.pos = p) (htyp : c.meta.typ = t) : InheritsProv p t c
  | list (es : ExprList) (t : Option TypeDesc) (m : NodeMeta)
      (hpos : m.pos = p) (htyp : m.typ = t)
      (helems : InheritsProvList p (t.bind TypeDesc.valueTypeOf) es) :
      InheritsProv p t (.listE es m)

/-- The `InheritsProv` for every element of a produced list, at the declared
element type. -/
inductive InheritsProvList (p : Nat) :
    Option TypeDesc → ExprList → Prop where
  | nil (t : Option TypeDesc) : InheritsProvList p t .nil
  | cons (t : Option TypeDesc) (e : Expr) (rest : ExprList)
      (h1 : InheritsProv p t e) (h2 : InheritsProvList p t rest) :
      InheritsProvList p t (.cons e rest)
end

mutual
/-- Erasure of `Index` contents: every `Index` node's child is replaced
by a fixed placeholder, everything else is kept.  Two expressions agree
outside `Index` contexts — same shape, fields and metadata everywhere
except beneath an `Index` node — exactly when their erasures are equal.
An assignment target rewritten by `replace_constant` keeps its erasure:
only names inside an `Index` context nested within the target may be
replaced. -/
def eraseIndexExpr : Expr → Expr
  | .index _ m => .index (.intL 0 ⟨0, none⟩) m
  | .intL v m => .intL v m
  | .decimalL v m => .decimalL v m
  | .hexL s m => .hexL s m
  | .boolL b m => .boolL b m
  | .strL s m => .strL s m
  | .bytesL s m => .bytesL s m
  | .name s m => .name s m
  | .listE es m => .listE (eraseIndexList es) m
  | .dictE ps m => .dictE (eraseIndexPairs ps) m
  | .call f a m => .call (eraseIndexExpr f) (eraseIndexList a) m
  | .binop o l r m => .binop o (eraseIndexExpr l) (eraseIndexExpr r) m
  | .unaryop o e m => .unaryop o (eraseIndexExpr e) m
  | .boolop o vs m => .boolop o (eraseIndexList vs) m
  | .compare o l r m => .compare o (eraseIndexExpr l) (eraseIndexExpr r) m
  | .subscript v sl m =>
    .subscript (eraseIndexExpr v) (eraseIndexExpr sl) m

/-- The `eraseIndexExpr` erasure over expression lists. -/
def eraseIndexList : ExprList → ExprList
  | .nil => .nil
  | .cons e rest => .cons (eraseIndexExpr e) (eraseIndexList rest)

/-- The `eraseIndexExpr` erasure over dictionary pairs. -/
def eraseIndexPairs : PairList → PairList
  | .nil => .nil
  | .cons k v rest =>
    .cons (eraseIndexExpr k) (eraseIndexExpr v) (eraseIndexPairs rest)
end

theorem measureExpr_withMeta (m : NodeMeta) (e : Expr) :
    measureExpr (e.withMeta m) = measureExpr e := by
  cases e <;> rfl

theorem isLitExpr_withMeta (m : NodeMeta) (e : Expr) :
    isLitExpr (e.withMeta m) = isLitExpr e := by
  cases e <;> rfl

theorem nameFreeExpr_withMeta (m : NodeMeta) (e : Expr) :
    nameFreeExpr (e.withMeta m) = nameFreeExpr e := by
  cases e <;> rfl

theorem measureExpr_withPos (p : Nat) (e : Expr) :
    measureExpr (e.withPos p) = measureExpr e :=
  measureExpr_withMeta _ e

theorem nameFreeExpr_withPos (p : Nat) (e : Expr) :
    nameFreeExpr (e.withPos p) = nameFreeExpr e :=
  nameFreeExpr_withMeta _ e

mutual
theorem isLitExpr_measure (e : Expr) (h : isLitExpr e = true) :
    measureExpr e = 0 := by
  cases e with
  | listE es m => exact isLitList_measure es (by simpa [isLitExpr] using h)
  | name s m => simp [isLitExpr, Expr.isConstant] at h
  | dictE ps m => simp [isLitExpr, Expr.isConstant] at h
  | call f args m => simp [isLitExpr, Expr.isConstant] at h
  | binop op l r m => simp [isLitExpr, Expr.isConstant] at h
  | unaryop op e m => simp [isLitExpr, Expr.isConstant] at h
  | boolop op vs m => simp [isLitExpr, Expr.isConstant] at h
  | compare op l r m => simp [isLitExpr, Expr.isConstant] at h
  | subscript v s m => simp [isLitExpr, Expr.isConstant] at h
  | index v m => simp [isLitExpr, Expr.isConstant] at h
  | intL v m => rfl
  | decimalL v m => rfl
  | hexL s m => rfl
  | boolL b m => rfl
  | strL s m => rfl
  | bytesL s m => rfl

theorem isLitList_measure (es : ExprList) (h : isLitList es = true) :
    measureExprList es = 0 := by
  cases es with
  | nil => rfl
  | cons e rest =>
    simp only [isLitList, Bool.and_eq_true] at h
    simp [measureExprList, isLitExpr_measure e h.1, isLitList_measure rest h.2]
end

mutual
theorem isLitExpr_nameFree (e : Expr) (h : isLitExpr e = true) :
    nameFreeExpr e = true := by
  cases e with
  | listE es m => exact isLitList_nameFree es (by simpa [isLitExpr] using h)
  | name s m => simp [isLitExpr, Expr.isConstant] at h
  | dictE ps m => simp [isLitExpr, Expr.isConstant] at h
  | call f args m => simp [isLitExpr, Expr.isConstant] at h
  | binop op l r m => simp [isLitExpr, Expr.isConstant] at h
  | unaryop op e m => simp [isLitExpr, Expr.isConstant] at h
  | boolop op vs m => simp [isLitExpr, Expr.isConstant] at h
  | compare op l r m => simp [isLitExpr, Expr.isConstant] at h
  | subscript v s m => simp [isLitExpr, Expr.isConstant] at h
  | index v m => simp [isLitExpr, Expr.isConstant] at h
  | intL v m => rfl
  | decimalL v m => rfl
  | hexL s m => rfl
  | boolL b m => rfl
  | strL s m => rfl
  | bytesL s m => rfl

theorem isLitList_nameFree (es : ExprList) (h : isLitList es = true) :
    nameFreeList es = true := by
  cases es with
  | nil => rfl
  | cons e rest =>
    simp only [isLitList, Bool.and_eq_true] at h
    simp [nameFreeList, isLitExpr_nameFree e h.1, isLitList_nameFree rest h.2]
end

theorem exbind {ε α β : Type} (x : Except ε α) (g : α → Except ε β) (v : β) :
    (x >>= g) = .ok v ↔ ∃ w, x = .ok w ∧ g w = .ok v := by
  cases x with
  | error e =>
    constructor
    · intro h; exact absurd h (by simp [Bind.bind, Except.bind])
    · rintro ⟨w, hw, _⟩; cases hw
  | ok w => simp [Bind.bind, Except.bind]

theorem isConstant_isLit (e : Expr) (h : e.isConstant = true) :
    isLitExpr e = true := by
  cases e <;> first | rfl | simp [Expr.isConstant] at h

mutual
theorem replaceNodeSome_isLit (old new : Expr) (t : Option TypeDesc)
    (r : Expr) (h : replaceNodeSome old new t = some r) :
    isLitExpr r = true := by
  cases new with
  | listE es m =>
    simp only [replaceNodeSome, Expr.isConstant, Bool.false_eq_true,
      if_false] at h
    cases hl : replaceNodeList old es (t.bind TypeDesc.valueTypeOf) with
    | none => rw [hl] at h; cases h
    | some es' =>
      rw [hl] at h
      cases h
      simpa [isLitExpr] using replaceNodeList_isLit old es _ es' hl
  | intL v m =>
    simp only [replaceNodeSome, Expr.isConstant, if_true,
      Option.some.injEq] at h
    rw [← h, isLitExpr_withMeta]; rfl
  | decimalL v m =>
    simp only [replaceNodeSome, Expr.isConstant, if_true,
      Option.some.injEq] at h
    rw [← h, isLitExpr_withMeta]; rfl
  | hexL s m =>
    simp only [replaceNodeSome, Expr.isConstant, if_true,
      Option.some.injEq] at h
    rw [← h, isLitExpr_withMeta]; rfl
  | boolL b m =>
    simp only [replaceNodeSome, Expr.isConstant, if_true,
      Option.some.injEq] at h
    rw [← h, isLitExpr_withMeta]; rfl
  | strL s m =>
    simp only [replaceNodeSome, Expr.isConstant, if_true,
      Option.some.injEq] at h
    rw [← h, isLitExpr_withMeta]; rfl
  | bytesL s m =>
    simp only [replaceNodeSome, Expr.isConstant, if_true,
      Option.some.injEq] at h
    rw [← h, isLitExpr_withMeta]; rfl
  | name s m => simp [replaceNodeSome, Expr.isConstant] at h
  | dictE ps m => simp [replaceNodeSome, Expr.isConstant] at h
  | call f args m => simp [replaceNodeSome, Expr.isConstant] at h
  | binop op l rr m => simp [replaceNodeSome, Expr.isConstant] at h
  | unaryop op e m => simp [replaceNodeSome, Expr.isConstant] at h
  | boolop op vs m => simp [replaceNodeSome, Expr.isConstant] at h
  | compare op l rr m => simp [replaceNodeSome, Expr.isConstant] at h
  | subscript v s m => simp [replaceNodeSome, Expr.isConstant] at h
  | index v m => simp [replaceNodeSome, Expr.isConstant] at h

theorem replaceNodeList_isLit (old : Expr) (es : ExprList)
    (t : Option TypeDesc) (es' : ExprList)
    (h : replaceNodeList old es t = some es') : isLitList es' = true := by
  cases es with
  | nil => rw [replaceNodeList] at h; cases h; rfl
  | cons e rest =>
    rw [replaceNodeList] at h
    cases he : replaceNodeSome old e t with
    | none => rw [he] at h; cases h
    | some e1 =>
      cases hr : replaceNodeList old rest t with
      | none => rw [he, hr] at h; cases h
      | some rest1 =>
        rw [he, hr] at h
        cases h
        simp [isLitList, replaceNodeSome_isLit old e t e1 he,
          replaceNodeList_isLit old rest t rest1 hr]
end

theorem replaceNode_isLit (old : Expr) (new : Option Expr)
    (t : Option TypeDesc) (r : Expr) (h : replaceNode old new t = some r) :
    isLitExpr r = true := by
  cases new with
  | none => cases h
  | some nn => exact replaceNodeSome_isLit old nn t r h

theorem replaceNode_measure (old : Expr) (new : Option Expr)
    (t : Option TypeDesc) (r : Expr) (h : replaceNode old new t = some r) :
    measureExpr r = 0 :=
  isLitExpr_measure r (replaceNode_isLit old new t r h)

theorem replaceNode_nameFree (old : Expr) (new : Option Expr)
    (t : Option TypeDesc) (r : Expr) (h : replaceNode old new t = some r) :
    nameFreeExpr r = true :=
  isLitExpr_nameFree r (replaceNode_isLit old new t r h)

theorem rcInv_unaryop (id_ : String) (repl : Option Expr) (ro : Bool)
    (t : Option TypeDesc) (ctx : List Frame) (op : UnOpK) (v : Expr) (m : NodeMeta)
    (e' : Expr) (n : Nat)
    (h : rcExpr id_ repl ro t ctx (.unaryop op v m) = .ok (e', n)) :
    ∃ x1 c, rcExpr id_ repl ro t (.unaryOperand :: ctx) v = .ok (x1, c) ∧
      e' = .unaryop op x1 m ∧ n = c := by
  simp only [rcExpr] at h
  rw [exbind] at h
  obtain ⟨⟨x1, c⟩, h1, h⟩ := h
  dsimp only at h
  cases h
  exact ⟨x1, _, h1, rfl, rfl⟩

theorem rcInv_index (id_ : String) (repl : Option Expr) (ro : Bool)
    (t : Option TypeDesc) (ctx : List Frame) (v : Expr) (m : NodeMeta)
    (e' : Expr) (n : Nat)
    (h : rcExpr id_ repl ro t ctx (.index v m) = .ok (e', n)) :
    ∃ x1 c, rcExpr id_ repl ro t (.indexValue :: ctx) v = .ok (x1, c) ∧
      e' = .index x1 m ∧ n = c := by
  simp only [rcExpr] at h
  rw [exbind] at h
  obtain ⟨⟨x1, c⟩, h1, h⟩ := h
  dsimp only at h
  cases h
  exact ⟨x1, _, h1, rfl, rfl⟩

theorem rcInv_listE (id_ : String) (repl : Option Expr) (ro : Bool)
    (t : Option TypeDesc) (ctx : List Frame) (es : ExprList) (m : NodeMeta)
    (e' : Expr) (n : Nat)
    (h : rcExpr id_ repl ro t ctx (.listE es m) = .ok (e', n)) :
    ∃ x1 c, rcExprList id_ repl ro t (.listElem :: ctx) es = .ok (x1, c) ∧
      e' = .listE x1 m ∧ n = c := by
  simp only [rcExpr] at h
  rw [exbind] at h
  obtain ⟨⟨x1, c⟩, h1, h⟩ := h
  dsimp only at h
  cases h
  exact ⟨x1, _, h1, rfl, rfl⟩

theorem rcInv_boolop (id_ : String) (repl : Option Expr) (ro : Bool)
    (t : Option TypeDesc) (ctx : List Frame) (op : BoolOpK) (vs : ExprList) (m : NodeMeta)
    (e' : Expr) (n : Nat)
    (h : rcExpr id_ repl ro t ctx (.boolop op vs m) = .ok (e', n)) :
    ∃ x1 c, rcExprList id_ repl ro t (.boolopValue :: ctx) vs = .ok (x1, c) ∧
      e' = .boolop op x1 m ∧ n = c := by
  simp only [rcExpr] at h
  rw [exbind] at h
  obtain ⟨⟨x1, c⟩, h1, h⟩ := h
  dsimp only at h
  cases h
  exact ⟨x1, _, h1, rfl, rfl⟩

theorem rcInv_exprStmt (id_ : String) (repl : Option Expr) (ro : Bool)
    (t : Option TypeDesc) (ctx : List Frame) (v : Expr)
    (e' : Stmt) (n : Nat)
    (h : rcStmt id_ repl ro t ctx (.exprStmt v) = .ok (e', n)) :
    ∃ x1 c, rcExpr id_ repl ro t (.exprStmtE :: ctx) v = .ok (x1, c) ∧
      e' = .exprStmt x1 ∧ n = c := by
  simp only [rcStmt] at h
  rw [exbind] at h
  obtain ⟨⟨x1, c⟩, h1, h⟩ := h
  dsimp only at h
  cases h
  exact ⟨x1, _, h1, rfl, rfl⟩

theorem rcInv_fndef (id_ : String) (repl : Option Expr) (ro : Bool)
    (t : Option TypeDesc) (ctx : List Frame) (fname : String) (body : StmtList)
    (e' : Stmt) (n : Nat)
    (h : rcStmt id_ repl ro t ctx (.fndef fname body) = .ok (e', n)) :
    ∃ x1 c, rcStmtList id_ repl ro t (.fndefBody :: ctx) body = .ok (x1, c) ∧
      e' = .fndef fname x1 ∧ n = c := by
  simp only [rcStmt] at h
  rw [exbind] at h
  obtain ⟨⟨x1, c⟩, h1, h⟩ := h
  dsimp only at h
  cases h
  exact ⟨x1, _, h1, rfl, rfl⟩

theorem rcInv_dictE (id_ : String) (repl : Option Expr) (ro : Bool)
    (t : Option TypeDesc) (ctx : List Frame) (ps : PairList) (m : NodeMeta)
    (e' : Expr) (n : Nat)
    (h : rcExpr id_ repl ro t ctx (.dictE ps m) = .ok (e', n)) :
    ∃ x1 c, rcPairList id_ repl ro t ctx ps = .ok (x1, c) ∧
      e' = .dictE x1 m ∧ n = c := by
  simp only [rcExpr] at h
  rw [exbind] at h
  obtain ⟨⟨x1, c⟩, h1, h⟩ := h
  dsimp only at h
  cases h
  exact ⟨x1, _, h1, rfl, rfl⟩

theorem rcInv_call (id_ : String) (repl : Option Expr) (ro : Bool)
    (t : Option TypeDesc) (ctx : List Frame) (f : Expr) (args : ExprList) (m : NodeMeta)
    (e' : Expr) (n : Nat)
    (h : rcExpr id_ repl ro t ctx (.call f args m) = .ok (e', n)) :
    ∃ x1 c1 x2 c2, rcExpr id_ repl ro t (.callFunc :: ctx) f = .ok (x1, c1) ∧
      rcExprList id_ repl ro t (.callArg :: ctx) args = .ok (x2, c2) ∧
      e' = .call x1 x2 m ∧ n = c1 + c2 := by
  simp only [rcExpr] at h
  rw [exbind] at h
  obtain ⟨⟨x1, c1⟩, h1, h⟩ := h
  dsimp only at h
  rw [exbind] at h
  obtain ⟨⟨x2, c2⟩, h2, h⟩ := h
  dsimp only at h
  cases h
  exact ⟨x1, c1, x2, c2, h1, h2, rfl, rfl⟩

theorem rcInv_binop (id_ : String) (repl : Option Expr) (ro : Bool)
    (t : Option TypeDesc) (ctx : List Frame) (op : BinOpK) (l r : Expr) (m : NodeMeta)
    (e' : Expr) (n : Nat)
    (h : rcExpr id_ repl ro t ctx (.binop op l r m) = .ok (e', n)) :
    ∃ x1 c1 x2 c2, rcExpr id_ repl ro t (.binopL :: ctx) l = .ok (x1, c1) ∧
      rcExpr id_ repl ro t (.binopR :: ctx) r = .ok (x2, c2) ∧
      e' = .binop op x1 x2 m ∧ n = c1 + c2 := by
  simp only [rcExpr] at h
  rw [exbind] at h
  obtain ⟨⟨x1, c1⟩, h1, h⟩ := h
  dsimp only at h
  rw [exbind] at h
  obtain ⟨⟨x2, c2⟩, h2, h⟩ := h
  dsimp only at h
  cases h
  exact ⟨x1, c1, x2, c2, h1, h2, rfl, rfl⟩

theorem rcInv_compare (id_ : String) (repl : Option Expr) (ro : Bool)
    (t : Option TypeDesc) (ctx : List Frame) (op : CmpOpK) (l r : Expr) (m : NodeMeta)
    (e' : Expr) (n : Nat)
    (h : rcExpr id_ repl ro t ctx (.compare op l r m) = .ok (e', n)) :
    ∃ x1 c1 x2 c2, rcExpr id_ repl ro t (.compareL :: ctx) l = .ok (x1, c1) ∧
      rcExpr id_ repl ro t (.compareR :: ctx) r = .ok (x2, c2) ∧
      e' = .compare op x1 x2 m ∧ n = c1 + c2 := by
  simp only [rcExpr] at h
  rw [exbind] at h
  obtain ⟨⟨x1, c1⟩, h1, h⟩ := h
  dsimp only at h
  rw [exbind] at h
  obtain ⟨⟨x2, c2⟩, h2, h⟩ := h
  dsimp only at h
  cases h
  exact ⟨x1, c1, x2, c2, h1, h2, rfl, rfl⟩

theorem rcInv_subscript (id_ : String) (repl : Option Expr) (ro : Bool)
    (t : Option TypeDesc) (ctx : List Frame) (v s : Expr) (m : NodeMeta)
    (e' : Expr) (n : Nat)
    (h : rcExpr id_ repl ro t ctx (.subscript v s m) = .ok (e', n)) :
    ∃ x1 c1 x2 c2, rcExpr id_ repl ro t (.subscriptValue :: ctx) v = .ok (x1, c1) ∧
      rcExpr id_ repl ro t (.subscriptSlice :: ctx) s = .ok (x2, c2) ∧
      e' = .subscript x1 x2 m ∧ n = c1 + c2 := by
  simp only [rcExpr] at h
  rw [exbind] at h
  obtain ⟨⟨x1, c1⟩, h1, h⟩ := h
  dsimp only at h
  rw [exbind] at h
  obtain ⟨⟨x2, c2⟩, h2, h⟩ := h
  dsimp only at h
  cases h
  exact ⟨x1, c1, x2, c2, h1, h2, rfl, rfl⟩

theorem rcInv_assign (id_ : String) (repl : Option Expr) (ro : Bool)
    (t : Option TypeDesc) (ctx : List Frame) (tgt val : Expr)
    (e' : Stmt) (n : Nat)
    (h : rcStmt id_ repl ro t ctx (.assign tgt val) = .ok (e', n)) :
    ∃ x1 c1 x2 c2, rcExpr id_ repl ro t (.assignTarget :: ctx) tgt = .ok (x1, c1) ∧
      rcExpr id_ repl ro t (.assignValue :: ctx) val = .ok (x2, c2) ∧
      e' = .assign x1 x2 ∧ n = c1 + c2 := by
  simp only [rcStmt] at h
  rw [exbind] at h
  obtain ⟨⟨x1, c1⟩, h1, h⟩ := h
  dsimp only at h
  rw [exbind] at h
  obtain ⟨⟨x2, c2⟩, h2, h⟩ := h
  dsimp only at h
  cases h
  exact ⟨x1, c1, x2, c2, h1, h2, rfl, rfl⟩

theorem rcInv_augAssign (id_ : String) (repl : Option Expr) (ro : Bool)
    (t : Option TypeDesc) (ctx : List Frame) (tgt : Expr) (op : BinOpK) (val : Expr)
    (e' : Stmt) (n : Nat)
    (h : rcStmt id_ repl ro t ctx (.augAssign tgt op val) = .ok (e', n)) :
    ∃ x1 c1 x2 c2, rcExpr id_ repl ro t (.augTarget :: ctx) tgt = .ok (x1, c1) ∧
      rcExpr id_ repl ro t (.augValue :: ctx) val = .ok (x2, c2) ∧
      e' = .augAssign x1 op x2 ∧ n = c1 + c2 := by
  simp only [rcStmt] at h
  rw [exbind] at h
  obtain ⟨⟨x1, c1⟩, h1, h⟩ := h
  dsimp only at h
  rw [exbind] at h
  obtain ⟨⟨x2, c2⟩, h2, h⟩ := h
  dsimp only at h
  cases h
  exact ⟨x1, c1, x2, c2, h1, h2, rfl, rfl⟩

theorem rcInv_consE (id_ : String) (repl : Option Expr) (ro : Bool)
    (t : Option TypeDesc) (ctx : List Frame) (e : Expr) (rest : ExprList)
    (es' : ExprList) (n : Nat)
    (h : rcExprList id_ repl ro t ctx (.cons e rest) = .ok (es', n)) :
    ∃ x1 c1 x2 c2, rcExpr id_ repl ro t ctx e = .ok (x1, c1) ∧
      rcExprList id_ repl ro t ctx rest = .ok (x2, c2) ∧
      es' = .cons x1 x2 ∧ n = c1 + c2 := by
  simp only [rcExprList] at h
  rw [exbind] at h
  obtain ⟨⟨x1, c1⟩, h1, h⟩ := h
  dsimp only at h
  rw [exbind] at h
  obtain ⟨⟨x2, c2⟩, h2, h⟩ := h
  dsimp only at h
  cases h
  exact ⟨x1, c1, x2, c2, h1, h2, rfl, rfl⟩

theorem rcInv_consS (id_ : String) (repl : Option Expr) (ro : Bool)
    (t : Option TypeDesc) (ctx : List Frame) (s : Stmt) (rest : StmtList)
    (ss' : StmtList) (n : Nat)
    (h : rcStmtList id_ repl ro t ctx (.cons s rest) = .ok (ss', n)) :
    ∃ x1 c1 x2 c2, rcStmt id_ repl ro t ctx s = .ok (x1, c1) ∧
      rcStmtList id_ repl ro t ctx rest = .ok (x2, c2) ∧
      ss' = .cons x1 x2 ∧ n = c1 + c2 := by
  simp only [rcStmtList] at h
  rw [exbind] at h
  obtain ⟨⟨x1, c1⟩, h1, h⟩ := h
  dsimp only at h
  rw [exbind] at h
  obtain ⟨⟨x2, c2⟩, h2, h⟩ := h
  dsimp only at h
  cases h
  exact ⟨x1, c1, x2, c2, h1, h2, rfl, rfl⟩

theorem rcInv_consP (id_ : String) (repl : Option Expr) (ro : Bool)
    (t : Option TypeDesc) (ctx : List Frame) (k v : Expr) (rest : PairList)
    (ps' : PairList) (n : Nat)
    (h : rcPairList id_ repl ro t ctx (.cons k v rest) = .ok (ps', n)) :
    ∃ x1 c1 x2 c2 x3 c3, rcExpr id_ repl ro t (.dictKey :: ctx) k = .ok (x1, c1) ∧
      rcExpr id_ repl ro t (.dictValue :: ctx) v = .ok (x2, c2) ∧
      rcPairList id_ repl ro t ctx rest = .ok (x3, c3) ∧
      ps' = .cons x1 x2 x3 ∧ n = c1 + c2 + c3 := by
  simp only [rcPairList] at h
  rw [exbind] at h
  obtain ⟨⟨x1, c1⟩, h1, h⟩ := h
  dsimp only at h
  rw [exbind] at h
  obtain ⟨⟨x2, c2⟩, h2, h⟩ := h
  dsimp only at h
  rw [exbind] at h
  obtain ⟨⟨x3, c3⟩, h3, h⟩ := h
  dsimp only at h
  cases h
  exact ⟨x1, c1, x2, c2, x3, c3, h1, h2, h3, rfl, rfl⟩

theorem rcInv_annAssignNone (id_ : String) (repl : Option Expr) (ro : Bool)
    (t : Option TypeDesc) (ctx : List Frame) (tgt ann : Expr)
    (s' : Stmt) (n : Nat)
    (h : rcStmt id_ repl ro t ctx (.annAssign tgt ann none) = .ok (s', n)) :
    ∃ x1 c1 x2 c2, rcExpr id_ repl ro t (.annTarget :: ctx) tgt = .ok (x1, c1) ∧
      rcExpr id_ repl ro t (.annAnn :: ctx) ann = .ok (x2, c2) ∧
      s' = .annAssign x1 x2 none ∧ n = c1 + c2 := by
  simp only [rcStmt] at h
  rw [exbind] at h
  obtain ⟨⟨x1, c1⟩, h1, h⟩ := h
  dsimp only at h
  rw [exbind] at h
  obtain ⟨⟨x2, c2⟩, h2, h⟩ := h
  dsimp only at h
  cases h
  exact ⟨x1, c1, x2, c2, h1, h2, rfl, rfl⟩

theorem rcInv_annAssignSome (id_ : String) (repl : Option Expr) (ro : Bool)
    (t : Option TypeDesc) (ctx : List Frame) (tgt ann v : Expr)
    (s' : Stmt) (n : Nat)
    (h : rcStmt id_ repl ro t ctx (.annAssign tgt ann (some v)) = .ok (s', n)) :
    ∃ x1 c1 x2 c2 x3 c3, rcExpr id_ repl ro t (.annTarget :: ctx) tgt = .ok (x1, c1) ∧
      rcExpr id_ repl ro t (.annAnn :: ctx) ann = .ok (x2, c2) ∧
      rcExpr id_ repl ro t (.annValue :: ctx) v = .ok (x3, c3) ∧
      s' = .annAssign x1 x2 (some x3) ∧ n = c1 + c2 + c3 := by
  simp only [rcStmt] at h
  rw [exbind] at h
  obtain ⟨⟨x1, c1⟩, h1, h⟩ := h
  dsimp only at h
  rw [exbind] at h
  obtain ⟨⟨x2, c2⟩, h2, h⟩ := h
  dsimp only at h
  rw [exbind] at h
  obtain ⟨⟨x3, c3⟩, h3, h⟩ := h
  dsimp only at h
  cases h
  exact ⟨x1, c1, x2, c2, x3, c3, h1, h2, h3, rfl, rfl⟩

theorem rcInv_name (id_ : String) (repl : Option Expr) (ro : Bool)
    (t : Option TypeDesc) (ctx : List Frame) (s : String) (m : NodeMeta)
    (e' : Expr) (n : Nat)
    (h : rcExpr id_ repl ro t ctx (.name s m) = .ok (e', n)) :
    (e' = .name s m ∧ n = 0 ∧
      (s = id_ → skipName ctx = true ∨
        replaceNode (.name s m) repl t = none)) ∨
      (s = id_ ∧ skipName ctx = false ∧
        replaceNode (.name s m) repl t = some e' ∧ n = 1) := by
  simp only [rcExpr] at h
  by_cases hs : s = id_
  · rw [if_pos hs] at h
    by_cases hsk : skipName ctx = true
    · rw [if_pos hsk] at h
      cases h
      exact .inl ⟨rfl, rfl, fun _ => .inl hsk⟩
    · rw [if_neg hsk] at h
      cases hrn : replaceNode (.name s m) repl t with
      | some r =>
        rw [hrn] at h
        dsimp only at h
        cases h
        exact .inr ⟨hs, by simpa using hsk, rfl, rfl⟩
      | none =>
        rw [hrn] at h
        cases ro with
        | true => simp at h
        | false =>
          rw [if_neg (by simp)] at h
          cases h
          exact .inl ⟨rfl, rfl, fun _ => .inr rfl⟩
  · rw [if_neg hs] at h
    cases h
    exact .inl ⟨rfl, rfl, fun hss => absurd hss hs⟩

mutual
theorem rcExprMU (id_ : String) (repl : Option Expr) (ro : Bool)
    (t : Option TypeDesc) (ctx : List Frame) (e : Expr) (e' : Expr) (n : Nat)
    (h : rcExpr id_ repl ro t ctx e = .ok (e', n)) :
    measureExpr e' + n ≤ measureExpr e ∧ (n = 0 → e' = e) := by
  cases e with
  | intL v m =>
    simp only [rcExpr] at h
    cases h
    exact ⟨by simp, fun _ => rfl⟩
  | decimalL v m =>
    simp only [rcExpr] at h
    cases h
    exact ⟨by simp, fun _ => rfl⟩
  | hexL s m =>
    simp only [rcExpr] at h
    cases h
    exact ⟨by simp, fun _ => rfl⟩
  | boolL b m =>
    simp only [rcExpr] at h
    cases h
    exact ⟨by simp, fun _ => rfl⟩
  | strL s m =>
    simp only [rcExpr] at h
    cases h
    exact ⟨by simp, fun _ => rfl⟩
  | bytesL s m =>
    simp only [rcExpr] at h
    cases h
    exact ⟨by simp, fun _ => rfl⟩
  | name s m =>
    rcases rcInv_name id_ repl ro t ctx s m e' n h with ⟨he, hn, hrest⟩ |
      ⟨hs, hsk, hrn, hn⟩
    · subst he hn
      exact ⟨by simp, fun _ => rfl⟩
    · subst hn
      refine ⟨?_, ?_⟩
      · have h0 := replaceNode_measure (.name s m) repl t e' hrn
        simp only [measureExpr]
        omega
      · intro h0
        exact absurd h0 one_ne_zero
  | listE es m =>
    obtain ⟨x1, c1, h1, he, hn⟩ := rcInv_listE id_ repl ro t ctx es m e' n h
    obtain ⟨a1, b1⟩ := rcExprListMU id_ repl ro t (.listElem :: ctx) es x1 c1 h1
    subst he hn
    refine ⟨?_, ?_⟩
    · simp only [measureExpr]; omega
    · intro h0
      rw [b1 (by omega)]
  | dictE ps m =>
    obtain ⟨x1, c1, h1, he, hn⟩ := rcInv_dictE id_ repl ro t ctx ps m e' n h
    obtain ⟨a1, b1⟩ := rcPairListMU id_ repl ro t ctx ps x1 c1 h1
    subst he hn
    refine ⟨?_, ?_⟩
    · simp only [measureExpr]; omega
    · intro h0
      rw [b1 (by omega)]
  | call f args m =>
    obtain ⟨x1, c1, x2, c2, h1, h2, he, hn⟩ := rcInv_call id_ repl ro t ctx f args m e' n h
    obtain ⟨a1, b1⟩ := rcExprMU id_ repl ro t (.callFunc :: ctx) f x1 c1 h1
    obtain ⟨a2, b2⟩ := rcExprListMU id_ repl ro t (.callArg :: ctx) args x2 c2 h2
    subst he hn
    refine ⟨?_, ?_⟩
    · simp only [measureExpr]; omega
    · intro h0
      rw [b1 (by omega), b2 (by omega)]
  | binop op l r m =>
    obtain ⟨x1, c1, x2, c2, h1, h2, he, hn⟩ := rcInv_binop id_ repl ro t ctx op l r m e' n h
    obtain ⟨a1, b1⟩ := rcExprMU id_ repl ro t (.binopL :: ctx) l x1 c1 h1
    obtain ⟨a2, b2⟩ := rcExprMU id_ repl ro t (.binopR :: ctx) r x2 c2 h2
    subst he hn
    refine ⟨?_, ?_⟩
    · simp only [measureExpr]; omega
    · intro h0
      rw [b1 (by omega), b2 (by omega)]
  | unaryop op v m =>
    obtain ⟨x1, c1, h1, he, hn⟩ := rcInv_unaryop id_ repl ro t ctx op v m e' n h
    obtain ⟨a1, b1⟩ := rcExprMU id_ repl ro t (.unaryOperand :: ctx) v x1 c1 h1
    subst he hn
    refine ⟨?_, ?_⟩
    · simp only [measureExpr]; omega
    · intro h0
      rw [b1 (by omega)]
  | boolop op vs m =>
    obtain ⟨x1, c1, h1, he, hn⟩ := rcInv_boolop id_ repl ro t ctx op vs m e' n h
    obtain ⟨a1, b1⟩ := rcExprListMU id_ repl ro t (.boolopValue :: ctx) vs x1 c1 h1
    subst he hn
    refine ⟨?_, ?_⟩
    · simp only [measureExpr]; omega
    · intro h0
      rw [b1 (by omega)]
  | compare op l r m =>
    obtain ⟨x1, c1, x2, c2, h1, h2, he, hn⟩ := rcInv_compare id_ repl ro t ctx op l r m e' n h
    obtain ⟨a1, b1⟩ := rcExprMU id_ repl ro t (.compareL :: ctx) l x1 c1 h1
    obtain ⟨a2, b2⟩ := rcExprMU id_ repl ro t (.compareR :: ctx) r x2 c2 h2
    subst he hn
    refine ⟨?_, ?_⟩
    · simp only [measureExpr]; omega
    · intro h0
      rw [b1 (by omega), b2 (by omega)]
  | subscript v s m =>
    obtain ⟨x1, c1, x2, c2, h1, h2, he, hn⟩ := rcInv_subscript id_ repl ro t ctx v s m e' n h
    obtain ⟨a1, b1⟩ := rcExprMU id_ repl ro t (.subscriptValue :: ctx) v x1 c1 h1
    obtain ⟨a2, b2⟩ := rcExprMU id_ repl ro t (.subscriptSlice :: ctx) s x2 c2 h2
    subst he hn
    refine ⟨?_, ?_⟩
    · simp only [measureExpr]; omega
    · intro h0
      rw [b1 (by omega), b2 (by omega)]
  | index v m =>
    obtain ⟨x1, c1, h1, he, hn⟩ := rcInv_index id_ repl ro t ctx v m e' n h
    obtain ⟨a1, b1⟩ := rcExprMU id_ repl ro t (.indexValue :: ctx) v x1 c1 h1
    subst he hn
    refine ⟨?_, ?_⟩
    · simp only [measureExpr]; omega
    · intro h0
      rw [b1 (by omega)]

theorem rcExprListMU (id_ : String) (repl : Option Expr) (ro : Bool)
    (t : Option TypeDesc) (ctx : List Frame) (es : ExprList) (es' : ExprList) (n : Nat)
    (h : rcExprList id_ repl ro t ctx es = .ok (es', n)) :
    measureExprList es' + n ≤ measureExprList es ∧ (n = 0 → es' = es) := by
  cases es with
  | nil =>
    simp only [rcExprList] at h
    cases h
    exact ⟨by simp, fun _ => rfl⟩
  | cons e rest =>
    obtain ⟨x1, c1, x2, c2, h1, h2, he, hn⟩ := rcInv_consE id_ repl ro t ctx e rest es' n h
    obtain ⟨a1, b1⟩ := rcExprMU id_ repl ro t ctx e x1 c1 h1
    obtain ⟨a2, b2⟩ := rcExprListMU id_ repl ro t ctx rest x2 c2 h2
    subst he hn
    refine ⟨?_, ?_⟩
    · simp only [measureExprList]; omega
    · intro h0
      rw [b1 (by omega), b2 (by omega)]

theorem rcPairListMU (id_ : String) (repl : Option Expr) (ro : Bool)
    (t : Option TypeDesc) (ctx : List Frame) (ps : PairList) (ps' : PairList) (n : Nat)
    (h : rcPairList id_ repl ro t ctx ps = .ok (ps', n)) :
    measurePairList ps' + n ≤ measurePairList ps ∧ (n = 0 → ps' = ps) := by
  cases ps with
  | nil =>
    simp only [rcPairList] at h
    cases h
    exact ⟨by simp, fun _ => rfl⟩
  | cons k v rest =>
    obtain ⟨x1, c1, x2, c2, x3, c3, h1, h2, h3, he, hn⟩ := rcInv_consP id_ repl ro t ctx k v rest ps' n h
    obtain ⟨a1, b1⟩ := rcExprMU id_ repl ro t (.dictKey :: ctx) k x1 c1 h1
    obtain ⟨a2, b2⟩ := rcExprMU id_ repl ro t (.dictValue :: ctx) v x2 c2 h2
    obtain ⟨a3, b3⟩ := rcPairListMU id_ repl ro t ctx rest x3 c3 h3
    subst he hn
    refine ⟨?_, ?_⟩
    · simp only [measurePairList]; omega
    · intro h0
      rw [b1 (by omega), b2 (by omega), b3 (by omega)]

theorem rcStmtMU (id_ : String) (repl : Option Expr) (ro : Bool)
    (t : Option TypeDesc) (ctx : List Frame) (s : Stmt) (s' : Stmt) (n : Nat)
    (h : rcStmt id_ repl ro t ctx s = .ok (s', n)) :
    measureStmt s' + n ≤ measureStmt s ∧ (n = 0 → s' = s) := by
  cases s with
  | annAssign tgt ann val =>
    cases val with
    | none =>
      obtain ⟨x1, c1, x2, c2, h1, h2, he, hn⟩ :=
        rcInv_annAssignNone id_ repl ro t ctx tgt ann s' n h
      obtain ⟨a1, b1⟩ := rcExprMU id_ repl ro t (.annTarget :: ctx) tgt x1 c1 h1
      obtain ⟨a2, b2⟩ := rcExprMU id_ repl ro t (.annAnn :: ctx) ann x2 c2 h2
      subst he hn
      refine ⟨?_, ?_⟩
      · simp only [measureStmt]; omega
      · intro h0
        rw [b1 (by omega), b2 (by omega)]
    | some v =>
      obtain ⟨x1, c1, x2, c2, x3, c3, h1, h2, h3, he, hn⟩ :=
        rcInv_annAssignSome id_ repl ro t ctx tgt ann v s' n h
      obtain ⟨a1, b1⟩ := rcExprMU id_ repl ro t (.annTarget :: ctx) tgt x1 c1 h1
      obtain ⟨a2, b2⟩ := rcExprMU id_ repl ro t (.annAnn :: ctx) ann x2 c2 h2
      obtain ⟨a3, b3⟩ := rcExprMU id_ repl ro t (.annValue :: ctx) v x3 c3 h3
      subst he hn
      refine ⟨?_, ?_⟩
      · simp only [measureStmt]; omega
      · intro h0
        rw [b1 (by omega), b2 (by omega), b3 (by omega)]
  | assign tgt val =>
    obtain ⟨x1, c1, x2, c2, h1, h2, he, hn⟩ := rcInv_assign id_ repl ro t ctx tgt val s' n h
    obtain ⟨a1, b1⟩ := rcExprMU id_ repl ro t (.assignTarget :: ctx) tgt x1 c1 h1
    obtain ⟨a2, b2⟩ := rcExprMU id_ repl ro t (.assignValue :: ctx) val x2 c2 h2
    subst he hn
    refine ⟨?_, ?_⟩
    · simp only [measureStmt]; omega
    · intro h0
      rw [b1 (by omega), b2 (by omega)]
  | augAssign tgt op val =>
    obtain ⟨x1, c1, x2, c2, h1, h2, he, hn⟩ := rcInv_augAssign id_ repl ro t ctx tgt op val s' n h
    obtain ⟨a1, b1⟩ := rcExprMU id_ repl ro t (.augTarget :: ctx) tgt x1 c1 h1
    obtain ⟨a2, b2⟩ := rcExprMU id_ repl ro t (.augValue :: ctx) val x2 c2 h2
    subst he hn
    refine ⟨?_, ?_⟩
    · simp only [measureStmt]; omega
    · intro h0
      rw [b1 (by omega), b2 (by omega)]
  | exprStmt v =>
    obtain ⟨x1, c1, h1, he, hn⟩ := rcInv_exprStmt id_ repl ro t ctx v s' n h
    obtain ⟨a1, b1⟩ := rcExprMU id_ repl ro t (.exprStmtE :: ctx) v x1 c1 h1
    subst he hn
    refine ⟨?_, ?_⟩
    · simp only [measureStmt]; omega
    · intro h0
      rw [b1 (by omega)]
  | fndef fname body =>
    obtain ⟨x1, c1, h1, he, hn⟩ := rcInv_fndef id_ repl ro t ctx fname body s' n h
    obtain ⟨a1, b1⟩ := rcStmtListMU id_ repl ro t (.fndefBody :: ctx) body x1 c1 h1
    subst he hn
    refine ⟨?_, ?_⟩
    · simp only [measureStmt]; omega
    · intro h0
      rw [b1 (by omega)]

theorem rcStmtListMU (id_ : String) (repl : Option Expr) (ro : Bool)
    (t : Option TypeDesc) (ctx : List Frame) (ss : StmtList) (ss' : StmtList) (n : Nat)
    (h : rcStmtList id_ repl ro t ctx ss = .ok (ss', n)) :
    measureStmtList ss' + n ≤ measureStmtList ss ∧ (n = 0 → ss' = ss) := by
  cases ss with
  | nil =>
    simp only [rcStmtList] at h
    cases h
    exact ⟨by simp, fun _ => rfl⟩
  | cons s rest =>
    obtain ⟨x1, c1, x2, c2, h1, h2, he, hn⟩ := rcInv_consS id_ repl ro t ctx s rest ss' n h
    obtain ⟨a1, b1⟩ := rcStmtMU id_ repl ro t ctx s x1 c1 h1
    obtain ⟨a2, b2⟩ := rcStmtListMU id_ repl ro t ctx rest x2 c2 h2
    subst he hn
    refine ⟨?_, ?_⟩
    · simp only [measureStmtList]; omega
    · intro h0
      rw [b1 (by omega), b2 (by omega)]
end

theorem replaceConstant_MU (vyper_module : ModuleNode) (id_ : String)
    (repl : Option Expr) (ro : Bool) (t : Option TypeDesc)
    (m' : ModuleNode) (n : Nat)
    (h : replaceConstant vyper_module id_ repl ro t = .ok (m', n)) :
    measureModule m' + n ≤ measureModule vyper_module ∧
      (n = 0 → m' = vyper_module) := by
  simp only [replaceConstant] at h
  rw [exbind] at h
  obtain ⟨⟨body', c⟩, h1, h⟩ := h
  dsimp only at h
  cases h
  obtain ⟨a, b⟩ := rcStmtListMU id_ repl ro t [Frame.moduleBody]
    vyper_module.body body' _ h1
  refine ⟨a, fun h0 => ?_⟩
  have hb := b h0
  cases vyper_module
  simp only [ModuleNode.mk.injEq]
  exact hb

theorem exbind_ok {ε α β : Type} (a : α) (g : α → Except ε β) :
    ((.ok a : Except ε α) >>= g) = g a := rfl

theorem exbind_err {ε α β : Type} (x : ε) (g : α → Except ε β) :
    ((.error x : Except ε α) >>= g) = .error x := rfl

theorem replaceNode_const_some (old : Expr) (c : Expr)
    (hc : c.isConstant = true) (t : Option TypeDesc) :
    replaceNode old (some c) t = some (c.withMeta ⟨old.pos, t⟩) := by
  cases c <;> first
    | rfl
    | simp [Expr.isConstant] at hc

mutual
theorem nfCSExpr (i2 : String) (ctx : List Frame) (e : Expr)
    (h : nameFreeExpr e = true) : csExpr i2 ctx e = 0 := by
  cases e with
  | name s m => simp [nameFreeExpr] at h
  | intL v m => rfl
  | decimalL v m => rfl
  | hexL s m => rfl
  | boolL b m => rfl
  | strL s m => rfl
  | bytesL s m => rfl
  | listE es m =>
    exact nfCSList i2 (.listElem :: ctx) es (by simpa [nameFreeExpr] using h)
  | dictE ps m =>
    exact nfCSPairs i2 ctx ps (by simpa [nameFreeExpr] using h)
  | call f args m =>
    simp only [nameFreeExpr, Bool.and_eq_true] at h
    simp [csExpr, nfCSExpr i2 _ f h.1, nfCSList i2 _ args h.2]
  | binop op l r m =>
    simp only [nameFreeExpr, Bool.and_eq_true] at h
    simp [csExpr, nfCSExpr i2 _ l h.1, nfCSExpr i2 _ r h.2]
  | unaryop op v m =>
    simp only [nameFreeExpr] at h
    simp [csExpr, nfCSExpr i2 _ v h]
  | boolop op vs m =>
    simp only [nameFreeExpr] at h
    simp [csExpr, nfCSList i2 _ vs h]
  | compare op l r m =>
    simp only [nameFreeExpr, Bool.and_eq_true] at h
    simp [csExpr, nfCSExpr i2 _ l h.1, nfCSExpr i2 _ r h.2]
  | subscript v s m =>
    simp only [nameFreeExpr, Bool.and_eq_true] at h
    simp [csExpr, nfCSExpr i2 _ v h.1, nfCSExpr i2 _ s h.2]
  | index v m =>
    simp only [nameFreeExpr] at h
    simp [csExpr, nfCSExpr i2 _ v h]

theorem nfCSList (i2 : String) (ctx : List Frame) (es : ExprList)
    (h : nameFreeList es = true) : csExprList i2 ctx es = 0 := by
  cases es with
  | nil => rfl
  | cons e rest =>
    simp only [nameFreeList, Bool.and_eq_true] at h
    simp [csExprList, nfCSExpr i2 ctx e h.1, nfCSList i2 ctx rest h.2]

theorem nfCSPairs (i2 : String) (ctx : List Frame) (ps : PairList)
    (h : nameFreePairs ps = true) : csPairList i2 ctx ps = 0 := by
  cases ps with
  | nil => rfl
  | cons k v rest =>
    simp only [nameFreePairs, Bool.and_eq_true] at h
    simp [csPairList, nfCSExpr i2 _ k h.1.1, nfCSExpr i2 _ v h.1.2,
      nfCSPairs i2 ctx rest h.2]
end

theorem isLitList_get (es : ExprList) (k : Nat) (e : Expr)
    (hl : isLitList es = true) (hg : es.get? k = some e) :
    isLitExpr e = true := by
  cases es with
  | nil => cases hg
  | cons e0 rest =>
    simp only [isLitList, Bool.and_eq_true] at hl
    cases k with
    | zero =>
      simp only [ExprList.get?, Option.some.injEq] at hg
      rw [← hg]
      exact hl.1
    | succ k0 =>
      exact isLitList_get rest k0 e hl.2 (by simpa [ExprList.get?] using hg)

mutual
theorem LitTree_toExpr_isLit (p : Nat) (l : LitTree) :
    isLitExpr (l.toExpr p) = true := by
  cases l with
  | listL es =>
    simp only [LitTree.toExpr, isLitExpr]
    exact LitList_toExprList_isLit p es
  | intL v => rfl
  | decimalL v => rfl
  | hexL s => rfl
  | boolL b => rfl
  | strL s => rfl
  | bytesL s => rfl

theorem LitList_toExprList_isLit (p : Nat) (es : LitList) :
    isLitList (LitList.toExprList p es) = true := by
  cases es with
  | nil => rfl
  | cons e rest =>
    simp [LitList.toExprList, isLitList, LitTree_toExpr_isLit p e,
      LitList_toExprList_isLit p rest]
end

/-- The literal-operator evaluator only fires on operator nodes and only
produces literals. -/
theorem evalOpNode_spec (e r : Expr) (h : evalOpNode e = some r) :
    isLitExpr r = true ∧ 1 ≤ measureExpr e := by
  cases e with
  | binop op l rr m =>
    refine ⟨?_, by simp only [measureExpr]; omega⟩
    cases l <;> cases rr <;> simp only [evalOpNode] at h <;> try cases h
    all_goals
      obtain ⟨v, hv, hr⟩ := Option.map_eq_some'.mp h
    all_goals rw [← hr]; rfl
  | unaryop op v m =>
    refine ⟨?_, by simp only [measureExpr]; omega⟩
    cases op <;> cases v <;> simp only [evalOpNode] at h <;> try cases h
    all_goals rfl
  | boolop op vs m =>
    refine ⟨?_, by simp only [measureExpr]; omega⟩
    simp only [evalOpNode] at h
    obtain ⟨bs, hbs, hr⟩ := Option.map_eq_some'.mp h
    rw [← hr]; rfl
  | compare op l rr m =>
    refine ⟨?_, by simp only [measureExpr]; omega⟩
    cases l <;> cases rr <;> simp only [evalOpNode] at h <;> try cases h
    all_goals rfl
  | intL v m => cases h
  | decimalL v m => cases h
  | hexL s m => cases h
  | boolL b m => cases h
  | strL s m => cases h
  | bytesL s m => cases h
  | name s m => cases h
  | listE es m => cases h
  | dictE ps m => cases h
  | call f args m => cases h
  | subscript v s m => cases h
  | index v m => cases h

/-- The subscript evaluator only fires on subscript nodes over fully
literal sequences and returns one of the elements (a literal). -/
theorem evalSubscriptNode_spec (e r : Expr) (h : evalSubscriptNode e = some r) :
    isLitExpr r = true ∧ 1 ≤ measureExpr e := by
  cases e with
  | subscript v s m =>
    refine ⟨?_, by simp only [measureExpr]; omega⟩
    cases v <;> cases s <;> simp only [evalSubscriptNode] at h <;> try cases h
    case listE.index es mv i mi =>
      cases i <;> simp only at h <;> try cases h
      case intL iv mii =>
        by_cases hneg : iv < 0
        · rw [if_pos hneg] at h; cases h
        · rw [if_neg hneg] at h
          by_cases hlit : isLitList es = true
          · rw [if_pos hlit] at h
            obtain ⟨el, hel, hr⟩ := Option.map_eq_some'.mp h
            rw [← hr, Expr.withPos, isLitExpr_withMeta]
            exact isLitList_get es iv.toNat el hlit hel
          · rw [if_neg hlit] at h; cases h
  | intL v m => cases h
  | decimalL v m => cases h
  | hexL s m => cases h
  | boolL b m => cases h
  | strL s m => cases h
  | bytesL s m => cases h
  | name s m => cases h
  | listE es m => cases h
  | dictE ps m => cases h
  | call f args m => cases h
  | binop op l rr m => cases h
  | unaryop op vv m => cases h
  | boolop op vs m => cases h
  | compare op l rr m => cases h
  | index v m => cases h

/-- The builtin-call evaluator only fires on call nodes and inserts the
evaluator's literal-or-list result. -/
theorem evalBuiltinCallNode_spec (d : DispatchTable) (e r : Expr)
    (h : evalBuiltinCallNode d e = some r) :
    isLitExpr r = true ∧ 1 ≤ measureExpr e := by
  cases e with
  | call f args m =>
    refine ⟨?_, by simp only [measureExpr]; omega⟩
    cases f <;> simp only [evalBuiltinCallNode] at h <;> try cases h
    case name s mf =>
      cases hd : d s with
      | none => rw [hd] at h; cases h
      | some cap =>
        rw [hd] at h
        cases cap with
        | none => dsimp only at h; cases h
        | some ev =>
          dsimp only at h
          cases hev : ev (.call (.name s mf) args m) with
          | none => rw [hev] at h; cases h
          | some lit =>
            rw [hev] at h
            dsimp only at h
            cases h
            exact LitTree_toExpr_isLit m.pos lit
  | intL v m => cases h
  | decimalL v m => cases h
  | hexL s m => cases h
  | boolL b m => cases h
  | strL s m => cases h
  | bytesL s m => cases h
  | name s m => cases h
  | listE es m => cases h
  | dictE ps m => cases h
  | binop op l rr m => cases h
  | unaryop op v m => cases h
  | boolop op vs m => cases h
  | compare op l rr m => cases h
  | subscript v s m => cases h
  | index v m => cases h

mutual
theorem buExprMeas (f : Expr → Option Expr) (Hf : ∀ e r, f e = some r → isLitExpr r = true ∧ 1 ≤ measureExpr e) (e : Expr) :
    measureExpr (buExpr f e).1 + (buExpr f e).2 ≤ measureExpr e := by
  cases e with
  | intL v m =>
    simp only [buExpr]
    cases hf : f (.intL v m) with
    | none =>
      simp only [buPost, hf]
      simp only [measureExpr]
      omega
    | some rr =>
      have h0 := isLitExpr_measure rr (Hf _ _ hf).1
      simp only [buPost, hf]
      have h1 := (Hf _ _ hf).2
      simp only [measureExpr, measureExprList, measurePairList] at h1 ⊢
      omega
  | decimalL v m =>
    simp only [buExpr]
    cases hf : f (.decimalL v m) with
    | none =>
      simp only [buPost, hf]
      simp only [measureExpr]
      omega
    | some rr =>
      have h0 := isLitExpr_measure rr (Hf _ _ hf).1
      simp only [buPost, hf]
      have h1 := (Hf _ _ hf).2
      simp only [measureExpr, measureExprList, measurePairList] at h1 ⊢
      omega
  | hexL s m =>
    simp only [buExpr]
    cases hf : f (.hexL s m) with
    | none =>
      simp only [buPost, hf]
      simp only [measureExpr]
      omega
    | some rr =>
      have h0 := isLitExpr_measure rr (Hf _ _ hf).1
      simp only [buPost, hf]
      have h1 := (Hf _ _ hf).2
      simp only [measureExpr, measureExprList, measurePairList] at h1 ⊢
      omega
  | boolL b m =>
    simp only [buExpr]
    cases hf : f (.boolL b m) with
    | none =>
      simp only [buPost, hf]
      simp only [measureExpr]
      omega
    | some rr =>
      have h0 := isLitExpr_measure rr (Hf _ _ hf).1
      simp only [buPost, hf]
      have h1 := (Hf _ _ hf).2
      simp only [measureExpr, measureExprList, measurePairList] at h1 ⊢
      omega
  | strL s m =>
    simp only [buExpr]
    cases hf : f (.strL s m) with
    | none =>
      simp only [buPost, hf]
      simp only [measureExpr]
      omega
    | some rr =>
      have h0 := isLitExpr_measure rr (Hf _ _ hf).1
      simp only [buPost, hf]
      have h1 := (Hf _ _ hf).2
      simp only [measureExpr, measureExprList, measurePairList] at h1 ⊢
      omega
  | bytesL s m =>
    simp only [buExpr]
    cases hf : f (.bytesL s m) with
    | none =>
      simp only [buPost, hf]
      simp only [measureExpr]
      omega
    | some rr =>
      have h0 := isLitExpr_measure rr (Hf _ _ hf).1
      simp only [buPost, hf]
      have h1 := (Hf _ _ hf).2
      simp only [measureExpr, measureExprList, measurePairList] at h1 ⊢
      omega
  | name s m =>
    simp only [buExpr]
    cases hf : f (.name s m) with
    | none =>
      simp only [buPost, hf]
      simp only [measureExpr]
      omega
    | some rr =>
      have h0 := isLitExpr_measure rr (Hf _ _ hf).1
      simp only [buPost, hf]
      have h1 := (Hf _ _ hf).2
      simp only [measureExpr, measureExprList, measurePairList] at h1 ⊢
      omega
  | listE es m =>
    have a1 := buExprListMeas f Hf es
    rcases hb1 : buExprList f es with ⟨y1, c1⟩
    rw [hb1] at a1
    try dsimp only at a1
    simp only [buExpr, hb1]
    cases hf : f (.listE y1 m) with
    | none =>
      simp only [buPost, hf]
      simp only [measureExpr, measureExprList, measurePairList] at a1 ⊢
      omega
    | some rr =>
      have h0 := isLitExpr_measure rr (Hf _ _ hf).1
      simp only [buPost, hf]
      try simp only [measureExpr, measureExprList, measurePairList] at a1
      have h1 := (Hf _ _ hf).2
      simp only [measureExpr, measureExprList, measurePairList] at h1 ⊢
      omega
  | dictE ps m =>
    have a1 := buPairListMeas f Hf ps
    rcases hb1 : buPairList f ps with ⟨y1, c1⟩
    rw [hb1] at a1
    try dsimp only at a1
    simp only [buExpr, hb1]
    cases hf : f (.dictE y1 m) with
    | none =>
      simp only [buPost, hf]
      simp only [measureExpr, measureExprList, measurePairList] at a1 ⊢
      omega
    | some rr =>
      have h0 := isLitExpr_measure rr (Hf _ _ hf).1
      simp only [buPost, hf]
      try simp only [measureExpr, measureExprList, measurePairList] at a1
      have h1 := (Hf _ _ hf).2
      simp only [measureExpr, measureExprList, measurePairList] at h1 ⊢
      omega
  | call fn args m =>
    have a1 := buExprMeas f Hf fn
    rcases hb1 : buExpr f fn with ⟨y1, c1⟩
    rw [hb1] at a1
    try dsimp only at a1
    have a2 := buExprListMeas f Hf args
    rcases hb2 : buExprList f args with ⟨y2, c2⟩
    rw [hb2] at a2
    try dsimp only at a2
    simp only [buExpr, hb1, hb2]
    cases hf : f (.call y1 y2 m) with
    | none =>
      simp only [buPost, hf]
      simp only [measureExpr, measureExprList, measurePairList] at a1 a2 ⊢
      omega
    | some rr =>
      have h0 := isLitExpr_measure rr (Hf _ _ hf).1
      simp only [buPost, hf]
      try simp only [measureExpr, measureExprList, measurePairList] at a1 a2
      have h1 := (Hf _ _ hf).2
      simp only [measureExpr, measureExprList, measurePairList] at h1 ⊢
      omega
  | binop op l r m =>
    have a1 := buExprMeas f Hf l
    rcases hb1 : buExpr f l with ⟨y1, c1⟩
    rw [hb1] at a1
    try dsimp only at a1
    have a2 := buExprMeas f Hf r
    rcases hb2 : buExpr f r with ⟨y2, c2⟩
    rw [hb2] at a2
    try dsimp only at a2
    simp only [buExpr, hb1, hb2]
    cases hf : f (.binop op y1 y2 m) with
    | none =>
      simp only [buPost, hf]
      simp only [measureExpr, measureExprList, measurePairList] at a1 a2 ⊢
      omega
    | some rr =>
      have h0 := isLitExpr_measure rr (Hf _ _ hf).1
      simp only [buPost, hf]
      try simp only [measureExpr, measureExprList, measurePairList] at a1 a2
      have h1 := (Hf _ _ hf).2
      simp only [measureExpr, measureExprList, measurePairList] at h1 ⊢
      omega
  | unaryop op v m =>
    have a1 := buExprMeas f Hf v
    rcases hb1 : buExpr f v with ⟨y1, c1⟩
    rw [hb1] at a1
    try dsimp only at a1
    simp only [buExpr, hb1]
    cases hf : f (.unaryop op y1 m) with
    | none =>
      simp only [buPost, hf]
      simp only [measureExpr, measureExprList, measurePairList] at a1 ⊢
      omega
    | some rr =>
      have h0 := isLitExpr_measure rr (Hf _ _ hf).1
      simp only [buPost, hf]
      try simp only [measureExpr, measureExprList, measurePairList] at a1
      have h1 := (Hf _ _ hf).2
      simp only [measureExpr, measureExprList, measurePairList] at h1 ⊢
      omega
  | boolop op vs m =>
    have a1 := buExprListMeas f Hf vs
    rcases hb1 : buExprList f vs with ⟨y1, c1⟩
    rw [hb1] at a1
    try dsimp only at a1
    simp only [buExpr, hb1]
    cases hf : f (.boolop op y1 m) with
    | none =>
      simp only [buPost, hf]
      simp only [measureExpr, measureExprList, measurePairList] at a1 ⊢
      omega
    | some rr =>
      have h0 := isLitExpr_measure rr (Hf _ _ hf).1
      simp only [buPost, hf]
      try simp only [measureExpr, measureExprList, measurePairList] at a1
      have h1 := (Hf _ _ hf).2
      simp only [measureExpr, measureExprList, measurePairList] at h1 ⊢
      omega
  | compare op l r m =>
    have a1 := buExprMeas f Hf l
    rcases hb1 : buExpr f l with ⟨y1, c1⟩
    rw [hb1] at a1
    try dsimp only at a1
    have a2 := buExprMeas f Hf r
    rcases hb2 : buExpr f r with ⟨y2, c2⟩
    rw [hb2] at a2
    try dsimp only at a2
    simp only [buExpr, hb1, hb2]
    cases hf : f (.compare op y1 y2 m) with
    | none =>
      simp only [buPost, hf]
      simp only [measureExpr, measureExprList, measurePairList] at a1 a2 ⊢
      omega
    | some rr =>
      have h0 := isLitExpr_measure rr (Hf _ _ hf).1
      simp only [buPost, hf]
      try simp only [measureExpr, measureExprList, measurePairList] at a1 a2
      have h1 := (Hf _ _ hf).2
      simp only [measureExpr, measureExprList, measurePairList] at h1 ⊢
      omega
  | subscript v s m =>
    have a1 := buExprMeas f Hf v
    rcases hb1 : buExpr f v with ⟨y1, c1⟩
    rw [hb1] at a1
    try dsimp only at a1
    have a2 := buExprMeas f Hf s
    rcases hb2 : buExpr f s with ⟨y2, c2⟩
    rw [hb2] at a2
    try dsimp only at a2
    simp only [buExpr, hb1, hb2]
    cases hf : f (.subscript y1 y2 m) with
    | none =>
      simp only [buPost, hf]
      simp only [measureExpr, measureExprList, measurePairList] at a1 a2 ⊢
      omega
    | some rr =>
      have h0 := isLitExpr_measure rr (Hf _ _ hf).1
      simp only [buPost, hf]
      try simp only [measureExpr, measureExprList, measurePairList] at a1 a2
      have h1 := (Hf _ _ hf).2
      simp only [measureExpr, measureExprList, measurePairList] at h1 ⊢
      omega
  | index v m =>
    have a1 := buExprMeas f Hf v
    rcases hb1 : buExpr f v with ⟨y1, c1⟩
    rw [hb1] at a1
    try dsimp only at a1
    simp only [buExpr, hb1]
    cases hf : f (.index y1 m) with
    | none =>
      simp only [buPost, hf]
      simp only [measureExpr, measureExprList, measurePairList] at a1 ⊢
      omega
    | some rr =>
      have h0 := isLitExpr_measure rr (Hf _ _ hf).1
      simp only [buPost, hf]
      try simp only [measureExpr, measureExprList, measurePairList] at a1
      have h1 := (Hf _ _ hf).2
      simp only [measureExpr, measureExprList, measurePairList] at h1 ⊢
      omega

theorem buExprListMeas (f : Expr → Option Expr) (Hf : ∀ e r, f e = some r → isLitExpr r = true ∧ 1 ≤ measureExpr e) (es : ExprList) :
    measureExprList (buExprList f es).1 + (buExprList f es).2 ≤
      measureExprList es := by
  cases es with
  | nil => simp [buExprList, measureExprList]
  | cons e rest =>
    have a1 := buExprMeas f Hf e
    rcases hb1 : buExpr f e with ⟨y1, c1⟩
    rw [hb1] at a1
    try dsimp only at a1
    have a2 := buExprListMeas f Hf rest
    rcases hb2 : buExprList f rest with ⟨y2, c2⟩
    rw [hb2] at a2
    try dsimp only at a2
    simp only [buExprList, hb1, hb2, measureExprList]
    try simp only [measureExprList] at a2
    omega

theorem buPairListMeas (f : Expr → Option Expr) (Hf : ∀ e r, f e = some r → isLitExpr r = true ∧ 1 ≤ measureExpr e) (ps : PairList) :
    measurePairList (buPairList f ps).1 + (buPairList f ps).2 ≤
      measurePairList ps := by
  cases ps with
  | nil => simp [buPairList, measurePairList]
  | cons k v rest =>
    have a1 := buExprMeas f Hf k
    rcases hb1 : buExpr f k with ⟨y1, c1⟩
    rw [hb1] at a1
    try dsimp only at a1
    have a2 := buExprMeas f Hf v
    rcases hb2 : buExpr f v with ⟨y2, c2⟩
    rw [hb2] at a2
    try dsimp only at a2
    have a3 := buPairListMeas f Hf rest
    rcases hb3 : buPairList f rest with ⟨y3, c3⟩
    rw [hb3] at a3
    try dsimp only at a3
    simp only [buPairList, hb1, hb2, hb3, measurePairList]
    try simp only [measurePairList] at a3
    omega
end

mutual
theorem buStmtMeas (f : Expr → Option Expr) (Hf : ∀ e r, f e = some r → isLitExpr r = true ∧ 1 ≤ measureExpr e) (s : Stmt) :
    measureStmt (buStmt f s).1 + (buStmt f s).2 ≤ measureStmt s := by
  cases s with
  | annAssign tgt ann val =>
    have a1 := buExprMeas f Hf tgt
    rcases hb1 : buExpr f tgt with ⟨y1, c1⟩
    rw [hb1] at a1
    try dsimp only at a1
    have a2 := buExprMeas f Hf ann
    rcases hb2 : buExpr f ann with ⟨y2, c2⟩
    rw [hb2] at a2
    try dsimp only at a2
    cases val with
    | none =>
      simp only [buStmt, hb1, hb2, measureStmt]
      omega
    | some v =>
      have a3 := buExprMeas f Hf v
      rcases hb3 : buExpr f v with ⟨y3, c3⟩
      rw [hb3] at a3
      try dsimp only at a3
      simp only [buStmt, hb1, hb2, hb3, measureStmt]
      omega
  | assign tgt val =>
    have a1 := buExprMeas f Hf tgt
    rcases hb1 : buExpr f tgt with ⟨y1, c1⟩
    rw [hb1] at a1
    try dsimp only at a1
    have a2 := buExprMeas f Hf val
    rcases hb2 : buExpr f val with ⟨y2, c2⟩
    rw [hb2] at a2
    try dsimp only at a2
    simp only [buStmt, hb1, hb2, measureStmt]
    omega
  | augAssign tgt op val =>
    have a1 := buExprMeas f Hf tgt
    rcases hb1 : buExpr f tgt with ⟨y1, c1⟩
    rw [hb1] at a1
    try dsimp only at a1
    have a2 := buExprMeas f Hf val
    rcases hb2 : buExpr f val with ⟨y2, c2⟩
    rw [hb2] at a2
    try dsimp only at a2
    simp only [buStmt, hb1, hb2, measureStmt]
    omega
  | exprStmt e =>
    have a1 := buExprMeas f Hf e
    rcases hb1 : buExpr f e with ⟨y1, c1⟩
    rw [hb1] at a1
    try dsimp only at a1
    simp only [buStmt, hb1, measureStmt]
    omega
  | fndef fname body =>
    have a1 := buStmtListMeas f Hf body
    rcases hb1 : buStmtList f body with ⟨y1, c1⟩
    rw [hb1] at a1
    try dsimp only at a1
    simp only [buStmt, hb1, measureStmt]
    omega

theorem buStmtListMeas (f : Expr → Option Expr) (Hf : ∀ e r, f e = some r → isLitExpr r = true ∧ 1 ≤ measureExpr e) (ss : StmtList) :
    measureStmtList (buStmtList f ss).1 + (buStmtList f ss).2 ≤
      measureStmtList ss := by
  cases ss with
  | nil => simp [buStmtList, measureStmtList]
  | cons s rest =>
    have a1 := buStmtMeas f Hf s
    rcases hb1 : buStmt f s with ⟨y1, c1⟩
    rw [hb1] at a1
    try dsimp only at a1
    have a2 := buStmtListMeas f Hf rest
    rcases hb2 : buStmtList f rest with ⟨y2, c2⟩
    rw [hb2] at a2
    try dsimp only at a2
    simp only [buStmtList, hb1, hb2, measureStmtList]
    omega
end

theorem buModuleMeas (f : Expr → Option Expr) (Hf : ∀ e r, f e = some r → isLitExpr r = true ∧ 1 ≤ measureExpr e) (m : ModuleNode) :
    measureModule (buModule f m).1 + (buModule f m).2 ≤ measureModule m := by
  have a1 := buStmtListMeas f Hf m.body
  rcases hb1 : buStmtList f m.body with ⟨y1, c1⟩
  rw [hb1] at a1
  try dsimp only at a1
  simp only [buModule, hb1, measureModule]
  exact a1

mutual
theorem buExprC0 (f : Expr → Option Expr) (e : Expr) :
    ∀ (h : (buExpr f e).2 = 0), (buExpr f e).1 = e := by
  intro h
  cases e with
  | intL v m =>
    simp only [buExpr] at h ⊢
    cases hf : f (.intL v m) with
    | some rr =>
      simp only [buPost, hf] at h
      exact absurd h (by omega)
    | none =>
      simp only [buPost, hf] at h ⊢
  | decimalL v m =>
    simp only [buExpr] at h ⊢
    cases hf : f (.decimalL v m) with
    | some rr =>
      simp only [buPost, hf] at h
      exact absurd h (by omega)
    | none =>
      simp only [buPost, hf] at h ⊢
  | hexL s m =>
    simp only [buExpr] at h ⊢
    cases hf : f (.hexL s m) with
    | some rr =>
      simp only [buPost, hf] at h
      exact absurd h (by omega)
    | none =>
      simp only [buPost, hf] at h ⊢
  | boolL b m =>
    simp only [buExpr] at h ⊢
    cases hf : f (.boolL b m) with
    | some rr =>
      simp only [buPost, hf] at h
      exact absurd h (by omega)
    | none =>
      simp only [buPost, hf] at h ⊢
  | strL s m =>
    simp only [buExpr] at h ⊢
    cases hf : f (.strL s m) with
    | some rr =>
      simp only [buPost, hf] at h
      exact absurd h (by omega)
    | none =>
      simp only [buPost, hf] at h ⊢
  | bytesL s m =>
    simp only [buExpr] at h ⊢
    cases hf : f (.bytesL s m) with
    | some rr =>
      simp only [buPost, hf] at h
      exact absurd h (by omega)
    | none =>
      simp only [buPost, hf] at h ⊢
  | name s m =>
    simp only [buExpr] at h ⊢
    cases hf : f (.name s m) with
    | some rr =>
      simp only [buPost, hf] at h
      exact absurd h (by omega)
    | none =>
      simp only [buPost, hf] at h ⊢
  | listE es m =>
    have b1 := buExprListC0 f es
    rcases hb1 : buExprList f es with ⟨y1, c1⟩
    rw [hb1] at b1
    try dsimp only at b1
    simp only [buExpr, hb1] at h ⊢
    cases hf : f (.listE y1 m) with
    | some rr =>
      simp only [buPost, hf] at h
      exact absurd h (by omega)
    | none =>
      simp only [buPost, hf] at h ⊢
      rw [b1 (by omega)]
  | dictE ps m =>
    have b1 := buPairListC0 f ps
    rcases hb1 : buPairList f ps with ⟨y1, c1⟩
    rw [hb1] at b1
    try dsimp only at b1
    simp only [buExpr, hb1] at h ⊢
    cases hf : f (.dictE y1 m) with
    | some rr =>
      simp only [buPost, hf] at h
      exact absurd h (by omega)
    | none =>
      simp only [buPost, hf] at h ⊢
      rw [b1 (by omega)]
  | call fn args m =>
    have b1 := buExprC0 f fn
    rcases hb1 : buExpr f fn with ⟨y1, c1⟩
    rw [hb1] at b1
    try dsimp only at b1
    have b2 := buExprListC0 f args
    rcases hb2 : buExprList f args with ⟨y2, c2⟩
    rw [hb2] at b2
    try dsimp only at b2
    simp only [buExpr, hb1, hb2] at h ⊢
    cases hf : f (.call y1 y2 m) with
    | some rr =>
      simp only [buPost, hf] at h
      exact absurd h (by omega)
    | none =>
      simp only [buPost, hf] at h ⊢
      rw [b1 (by omega), b2 (by omega)]
  | binop op l r m =>
    have b1 := buExprC0 f l
    rcases hb1 : buExpr f l with ⟨y1, c1⟩
    rw [hb1] at b1
    try dsimp only at b1
    have b2 := buExprC0 f r
    rcases hb2 : buExpr f r with ⟨y2, c2⟩
    rw [hb2] at b2
    try dsimp only at b2
    simp only [buExpr, hb1, hb2] at h ⊢
    cases hf : f (.binop op y1 y2 m) with
    | some rr =>
      simp only [buPost, hf] at h
      exact absurd h (by omega)
    | none =>
      simp only [buPost, hf] at h ⊢
      rw [b1 (by omega), b2 (by omega)]
  | unaryop op v m =>
    have b1 := buExprC0 f v
    rcases hb1 : buExpr f v with ⟨y1, c1⟩
    rw [hb1] at b1
    try dsimp only at b1
    simp only [buExpr, hb1] at h ⊢
    cases hf : f (.unaryop op y1 m) with
    | some rr =>
      simp only [buPost, hf] at h
      exact absurd h (by omega)
    | none =>
      simp only [buPost, hf] at h ⊢
      rw [b1 (by omega)]
  | boolop op vs m =>
    have b1 := buExprListC0 f vs
    rcases hb1 : buExprList f vs with ⟨y1, c1⟩
    rw [hb1] at b1
    try dsimp only at b1
    simp only [buExpr, hb1] at h ⊢
    cases hf : f (.boolop op y1 m) with
    | some rr =>
      simp only [buPost, hf] at h
      exact absurd h (by omega)
    | none =>
      simp only [buPost, hf] at h ⊢
      rw [b1 (by omega)]
  | compare op l r m =>
    have b1 := buExprC0 f l
    rcases hb1 : buExpr f l with ⟨y1, c1⟩
    rw [hb1] at b1
    try dsimp only at b1
    have b2 := buExprC0 f r
    rcases hb2 : buExpr f r with ⟨y2, c2⟩
    rw [hb2] at b2
    try dsimp only at b2
    simp only [buExpr, hb1, hb2] at h ⊢
    cases hf : f (.compare op y1 y2 m) with
    | some rr =>
      simp only [buPost, hf] at h
      exact absurd h (by omega)
    | none =>
      simp only [buPost, hf] at h ⊢
      rw [b1 (by omega), b2 (by omega)]
  | subscript v s m =>
    have b1 := buExprC0 f v
    rcases hb1 : buExpr f v with ⟨y1, c1⟩
    rw [hb1] at b1
    try dsimp only at b1
    have b2 := buExprC0 f s
    rcases hb2 : buExpr f s with ⟨y2, c2⟩
    rw [hb2] at b2
    try dsimp only at b2
    simp only [buExpr, hb1, hb2] at h ⊢
    cases hf : f (.subscript y1 y2 m) with
    | some rr =>
      simp only [buPost, hf] at h
      exact absurd h (by omega)
    | none =>
      simp only [buPost, hf] at h ⊢
      rw [b1 (by omega), b2 (by omega)]
  | index v m =>
    have b1 := buExprC0 f v
    rcases hb1 : buExpr f v with ⟨y1, c1⟩
    rw [hb1] at b1
    try dsimp only at b1
    simp only [buExpr, hb1] at h ⊢
    cases hf : f (.index y1 m) with
    | some rr =>
      simp only [buPost, hf] at h
      exact absurd h (by omega)
    | none =>
      simp only [buPost, hf] at h ⊢
      rw [b1 (by omega)]

theorem buExprListC0 (f : Expr → Option Expr) (es : ExprList) :
    ∀ (h : (buExprList f es).2 = 0), (buExprList f es).1 = es := by
  intro h
  cases es with
  | nil => rfl
  | cons e rest =>
    have b1 := buExprC0 f e
    rcases hb1 : buExpr f e with ⟨y1, c1⟩
    rw [hb1] at b1
    try dsimp only at b1
    have b2 := buExprListC0 f rest
    rcases hb2 : buExprList f rest with ⟨y2, c2⟩
    rw [hb2] at b2
    try dsimp only at b2
    simp only [buExprList, hb1, hb2] at h ⊢
    rw [b1 (by omega), b2 (by omega)]

theorem buPairListC0 (f : Expr → Option Expr) (ps : PairList) :
    ∀ (h : (buPairList f ps).2 = 0), (buPairList f ps).1 = ps := by
  intro h
  cases ps with
  | nil => rfl
  | cons k v rest =>
    have b1 := buExprC0 f k
    rcases hb1 : buExpr f k with ⟨y1, c1⟩
    rw [hb1] at b1
    try dsimp only at b1
    have b2 := buExprC0 f v
    rcases hb2 : buExpr f v with ⟨y2, c2⟩
    rw [hb2] at b2
    try dsimp only at b2
    have b3 := buPairListC0 f rest
    rcases hb3 : buPairList f rest with ⟨y3, c3⟩
    rw [hb3] at b3
    try dsimp only at b3
    simp only [buPairList, hb1, hb2, hb3] at h ⊢
    rw [b1 (by omega), b2 (by omega), b3 (by omega)]
end

mutual
theorem buStmtC0 (f : Expr → Option Expr) (s : Stmt) :
    ∀ (h : (buStmt f s).2 = 0), (buStmt f s).1 = s := by
  intro h
  cases s with
  | annAssign tgt ann val =>
    have b1 := buExprC0 f tgt
    rcases hb1 : buExpr f tgt with ⟨y1, c1⟩
    rw [hb1] at b1
    try dsimp only at b1
    have b2 := buExprC0 f ann
    rcases hb2 : buExpr f ann with ⟨y2, c2⟩
    rw [hb2] at b2
    try dsimp only at b2
    cases val with
    | none =>
      simp only [buStmt, hb1, hb2] at h ⊢
      rw [b1 (by omega), b2 (by omega)]
    | some v =>
      have b3 := buExprC0 f v
      rcases hb3 : buExpr f v with ⟨y3, c3⟩
      rw [hb3] at b3
      try dsimp only at b3
      simp only [buStmt, hb1, hb2, hb3] at h ⊢
      rw [b1 (by omega), b2 (by omega), b3 (by omega)]
  | assign tgt val =>
    have b1 := buExprC0 f tgt
    rcases hb1 : buExpr f tgt with ⟨y1, c1⟩
    rw [hb1] at b1
    try dsimp only at b1
    have b2 := buExprC0 f val
    rcases hb2 : buExpr f val with ⟨y2, c2⟩
    rw [hb2] at b2
    try dsimp only at b2
    simp only [buStmt, hb1, hb2] at h ⊢
    rw [b1 (by omega), b2 (by omega)]
  | augAssign tgt op val =>
    have b1 := buExprC0 f tgt
    rcases hb1 : buExpr f tgt with ⟨y1, c1⟩
    rw [hb1] at b1
    try dsimp only at b1
    have b2 := buExprC0 f val
    rcases hb2 : buExpr f val with ⟨y2, c2⟩
    rw [hb2] at b2
    try dsimp only at b2
    simp only [buStmt, hb1, hb2] at h ⊢
    rw [b1 (by omega), b2 (by omega)]
  | exprStmt e =>
    have b1 := buExprC0 f e
    rcases hb1 : buExpr f e with ⟨y1, c1⟩
    rw [hb1] at b1
    try dsimp only at b1
    simp only [buStmt, hb1] at h ⊢
    rw [b1 (by omega)]
  | fndef fname body =>
    have b1 := buStmtListC0 f body
    rcases hb1 : buStmtList f body with ⟨y1, c1⟩
    rw [hb1] at b1
    try dsimp only at b1
    simp only [buStmt, hb1] at h ⊢
    rw [b1 (by omega)]

theorem buStmtListC0 (f : Expr → Option Expr) (ss : StmtList) :
    ∀ (h : (buStmtList f ss).2 = 0), (buStmtList f ss).1 = ss := by
  intro h
  cases ss with
  | nil => rfl
  | cons s rest =>
    have b1 := buStmtC0 f s
    rcases hb1 : buStmt f s with ⟨y1, c1⟩
    rw [hb1] at b1
    try dsimp only at b1
    have b2 := buStmtListC0 f rest
    rcases hb2 : buStmtList f rest with ⟨y2, c2⟩
    rw [hb2] at b2
    try dsimp only at b2
    simp only [buStmtList, hb1, hb2] at h ⊢
    rw [b1 (by omega), b2 (by omega)]
end

theorem buModuleC0 (f : Expr → Option Expr) (m : ModuleNode)
    (h : (buModule f m).2 = 0) : (buModule f m).1 = m := by
  have b1 := buStmtListC0 f m.body
  rcases hb1 : buStmtList f m.body with ⟨y1, c1⟩
  rw [hb1] at b1
  try dsimp only at b1
  simp only [buModule, hb1] at h ⊢
  cases m
  simp only [ModuleNode.mk.injEq]
  exact b1 (by omega)

mutual
theorem buExprCS (f : Expr → Option Expr) (Hf : ∀ e r, f e = some r → nameFreeExpr r = true) (i2 : String)
    (ctx : List Frame) (e : Expr) :
    ∀ (h : csExpr i2 ctx e = 0), csExpr i2 ctx (buExpr f e).1 = 0 := by
  intro h
  cases e with
  | intL v m =>
    simp only [buExpr]
    cases hf : f (.intL v m) with
    | some rr =>
      simp only [buPost, hf]
      exact nfCSExpr i2 ctx rr (Hf _ _ hf)
    | none =>
      simp only [buPost, hf]
      exact h
  | decimalL v m =>
    simp only [buExpr]
    cases hf : f (.decimalL v m) with
    | some rr =>
      simp only [buPost, hf]
      exact nfCSExpr i2 ctx rr (Hf _ _ hf)
    | none =>
      simp only [buPost, hf]
      exact h
  | hexL s m =>
    simp only [buExpr]
    cases hf : f (.hexL s m) with
    | some rr =>
      simp only [buPost, hf]
      exact nfCSExpr i2 ctx rr (Hf _ _ hf)
    | none =>
      simp only [buPost, hf]
      exact h
  | boolL b m =>
    simp only [buExpr]
    cases hf : f (.boolL b m) with
    | some rr =>
      simp only [buPost, hf]
      exact nfCSExpr i2 ctx rr (Hf _ _ hf)
    | none =>
      simp only [buPost, hf]
      exact h
  | strL s m =>
    simp only [buExpr]
    cases hf : f (.strL s m) with
    | some rr =>
      simp only [buPost, hf]
      exact nfCSExpr i2 ctx rr (Hf _ _ hf)
    | none =>
      simp only [buPost, hf]
      exact h
  | bytesL s m =>
    simp only [buExpr]
    cases hf : f (.bytesL s m) with
    | some rr =>
      simp only [buPost, hf]
      exact nfCSExpr i2 ctx rr (Hf _ _ hf)
    | none =>
      simp only [buPost, hf]
      exact h
  | name s m =>
    simp only [buExpr]
    cases hf : f (.name s m) with
    | some rr =>
      simp only [buPost, hf]
      exact nfCSExpr i2 ctx rr (Hf _ _ hf)
    | none =>
      simp only [buPost, hf]
      exact h
  | listE es m =>
    have b1 := buExprListCS f Hf i2 (.listElem :: ctx) es
    rcases hb1 : buExprList f es with ⟨y1, c1⟩
    rw [hb1] at b1
    try dsimp only at b1
    simp only [csExpr, csExprList, csPairList] at h
    simp only [buExpr, hb1]
    cases hf : f (.listE y1 m) with
    | some rr =>
      simp only [buPost, hf]
      exact nfCSExpr i2 ctx rr (Hf _ _ hf)
    | none =>
      simp only [buPost, hf]
      simp only [csExpr, csExprList, csPairList]
      simp only [b1 (by omega)]
  | dictE ps m =>
    have b1 := buPairListCS f Hf i2 ctx ps
    rcases hb1 : buPairList f ps with ⟨y1, c1⟩
    rw [hb1] at b1
    try dsimp only at b1
    simp only [csExpr, csExprList, csPairList] at h
    simp only [buExpr, hb1]
    cases hf : f (.dictE y1 m) with
    | some rr =>
      simp only [buPost, hf]
      exact nfCSExpr i2 ctx rr (Hf _ _ hf)
    | none =>
      simp only [buPost, hf]
      simp only [csExpr, csExprList, csPairList]
      simp only [b1 (by omega)]
  | call fn args m =>
    have b1 := buExprCS f Hf i2 (.callFunc :: ctx) fn
    rcases hb1 : buExpr f fn with ⟨y1, c1⟩
    rw [hb1] at b1
    try dsimp only at b1
    have b2 := buExprListCS f Hf i2 (.callArg :: ctx) args
    rcases hb2 : buExprList f args with ⟨y2, c2⟩
    rw [hb2] at b2
    try dsimp only at b2
    simp only [csExpr, csExprList, csPairList] at h
    simp only [buExpr, hb1, hb2]
    cases hf : f (.call y1 y2 m) with
    | some rr =>
      simp only [buPost, hf]
      exact nfCSExpr i2 ctx rr (Hf _ _ hf)
    | none =>
      simp only [buPost, hf]
      simp only [csExpr, csExprList, csPairList]
      simp only [b1 (by omega), b2 (by omega)]
  | binop op l r m =>
    have b1 := buExprCS f Hf i2 (.binopL :: ctx) l
    rcases hb1 : buExpr f l with ⟨y1, c1⟩
    rw [hb1] at b1
    try dsimp only at b1
    have b2 := buExprCS f Hf i2 (.binopR :: ctx) r
    rcases hb2 : buExpr f r with ⟨y2, c2⟩
    rw [hb2] at b2
    try dsimp only at b2
    simp only [csExpr, csExprList, csPairList] at h
    simp only [buExpr, hb1, hb2]
    cases hf : f (.binop op y1 y2 m) with
    | some rr =>
      simp only [buPost, hf]
      exact nfCSExpr i2 ctx rr (Hf _ _ hf)
    | none =>
      simp only [buPost, hf]
      simp only [csExpr, csExprList, csPairList]
      simp only [b1 (by omega), b2 (by omega)]
  | unaryop op v m =>
    have b1 := buExprCS f Hf i2 (.unaryOperand :: ctx) v
    rcases hb1 : buExpr f v with ⟨y1, c1⟩
    rw [hb1] at b1
    try dsimp only at b1
    simp only [csExpr, csExprList, csPairList] at h
    simp only [buExpr, hb1]
    cases hf : f (.unaryop op y1 m) with
    | some rr =>
      simp only [buPost, hf]
      exact nfCSExpr i2 ctx rr (Hf _ _ hf)
    | none =>
      simp only [buPost, hf]
      simp only [csExpr, csExprList, csPairList]
      simp only [b1 (by omega)]
  | boolop op vs m =>
    have b1 := buExprListCS f Hf i2 (.boolopValue :: ctx) vs
    rcases hb1 : buExprList f vs with ⟨y1, c1⟩
    rw [hb1] at b1
    try dsimp only at b1
    simp only [csExpr, csExprList, csPairList] at h
    simp only [buExpr, hb1]
    cases hf : f (.boolop op y1 m) with
    | some rr =>
      simp only [buPost, hf]
      exact nfCSExpr i2 ctx rr (Hf _ _ hf)
    | none =>
      simp only [buPost, hf]
      simp only [csExpr, csExprList, csPairList]
      simp only [b1 (by omega)]
  | compare op l r m =>
    have b1 := buExprCS f Hf i2 (.compareL :: ctx) l
    rcases hb1 : buExpr f l with ⟨y1, c1⟩
    rw [hb1] at b1
    try dsimp only at b1
    have b2 := buExprCS f Hf i2 (.compareR :: ctx) r
    rcases hb2 : buExpr f r with ⟨y2, c2⟩
    rw [hb2] at b2
    try dsimp only at b2
    simp only [csExpr, csExprList, csPairList] at h
    simp only [buExpr, hb1, hb2]
    cases hf : f (.compare op y1 y2 m) with
    | some rr =>
      simp only [buPost, hf]
      exact nfCSExpr i2 ctx rr (Hf _ _ hf)
    | none =>
      simp only [buPost, hf]
      simp only [csExpr, csExprList, csPairList]
      simp only [b1 (by omega), b2 (by omega)]
  | subscript v s m =>
    have b1 := buExprCS f Hf i2 (.subscriptValue :: ctx) v
    rcases hb1 : buExpr f v with ⟨y1, c1⟩
    rw [hb1] at b1
    try dsimp only at b1
    have b2 := buExprCS f Hf i2 (.subscriptSlice :: ctx) s
    rcases hb2 : buExpr f s with ⟨y2, c2⟩
    rw [hb2] at b2
    try dsimp only at b2
    simp only [csExpr, csExprList, csPairList] at h
    simp only [buExpr, hb1, hb2]
    cases hf : f (.subscript y1 y2 m) with
    | some rr =>
      simp only [buPost, hf]
      exact nfCSExpr i2 ctx rr (Hf _ _ hf)
    | none =>
      simp only [buPost, hf]
      simp only [csExpr, csExprList, csPairList]
      simp only [b1 (by omega), b2 (by omega)]
  | index v m =>
    have b1 := buExprCS f Hf i2 (.indexValue :: ctx) v
    rcases hb1 : buExpr f v with ⟨y1, c1⟩
    rw [hb1] at b1
    try dsimp only at b1
    simp only [csExpr, csExprList, csPairList] at h
    simp only [buExpr, hb1]
    cases hf : f (.index y1 m) with
    | some rr =>
      simp only [buPost, hf]
      exact nfCSExpr i2 ctx rr (Hf _ _ hf)
    | none =>
      simp only [buPost, hf]
      simp only [csExpr, csExprList, csPairList]
      simp only [b1 (by omega)]

theorem buExprListCS (f : Expr → Option Expr) (Hf : ∀ e r, f e = some r → nameFreeExpr r = true) (i2 : String)
    (ctx : List Frame) (es : ExprList) :
    ∀ (h : csExprList i2 ctx es = 0),
      csExprList i2 ctx (buExprList f es).1 = 0 := by
  intro h
  cases es with
  | nil => rfl
  | cons e rest =>
    have b1 := buExprCS f Hf i2 ctx e
    rcases hb1 : buExpr f e with ⟨y1, c1⟩
    rw [hb1] at b1
    try dsimp only at b1
    have b2 := buExprListCS f Hf i2 ctx rest
    rcases hb2 : buExprList f rest with ⟨y2, c2⟩
    rw [hb2] at b2
    try dsimp only at b2
    simp only [csExprList] at h
    simp only [buExprList, hb1, hb2, csExprList]
    simp only [b1 (by omega), b2 (by omega)]

theorem buPairListCS (f : Expr → Option Expr) (Hf : ∀ e r, f e = some r → nameFreeExpr r = true) (i2 : String)
    (ctx : List Frame) (ps : PairList) :
    ∀ (h : csPairList i2 ctx ps = 0),
      csPairList i2 ctx (buPairList f ps).1 = 0 := by
  intro h
  cases ps with
  | nil => rfl
  | cons k v rest =>
    have b1 := buExprCS f Hf i2 (.dictKey :: ctx) k
    rcases hb1 : buExpr f k with ⟨y1, c1⟩
    rw [hb1] at b1
    try dsimp only at b1
    have b2 := buExprCS f Hf i2 (.dictValue :: ctx) v
    rcases hb2 : buExpr f v with ⟨y2, c2⟩
    rw [hb2] at b2
    try dsimp only at b2
    have b3 := buPairListCS f Hf i2 ctx rest
    rcases hb3 : buPairList f rest with ⟨y3, c3⟩
    rw [hb3] at b3
    try dsimp only at b3
    simp only [csPairList] at h
    simp only [buPairList, hb1, hb2, hb3, csPairList]
    simp only [b1 (by omega), b2 (by omega), b3 (by omega)]
end

mutual
theorem buStmtCS (f : Expr → Option Expr) (Hf : ∀ e r, f e = some r → nameFreeExpr r = true) (i2 : String)
    (ctx : List Frame) (s : Stmt) :
    ∀ (h : csStmt i2 ctx s = 0), csStmt i2 ctx (buStmt f s).1 = 0 := by
  intro h
  cases s with
  | annAssign tgt ann val =>
    have b1 := buExprCS f Hf i2 (.annTarget :: ctx) tgt
    rcases hb1 : buExpr f tgt with ⟨y1, c1⟩
    rw [hb1] at b1
    try dsimp only at b1
    have b2 := buExprCS f Hf i2 (.annAnn :: ctx) ann
    rcases hb2 : buExpr f ann with ⟨y2, c2⟩
    rw [hb2] at b2
    try dsimp only at b2
    cases val with
    | none =>
      simp only [csStmt] at h
      simp only [buStmt, hb1, hb2, csStmt]
      simp only [b1 (by omega), b2 (by omega)]
    | some v =>
      have b3 := buExprCS f Hf i2 (.annValue :: ctx) v
      rcases hb3 : buExpr f v with ⟨y3, c3⟩
      rw [hb3] at b3
      try dsimp only at b3
      simp only [csStmt] at h
      simp only [buStmt, hb1, hb2, hb3, csStmt]
      simp only [b1 (by omega), b2 (by omega), b3 (by omega)]
  | assign tgt val =>
    have b1 := buExprCS f Hf i2 (.assignTarget :: ctx) tgt
    rcases hb1 : buExpr f tgt with ⟨y1, c1⟩
    rw [hb1] at b1
    try dsimp only at b1
    have b2 := buExprCS f Hf i2 (.assignValue :: ctx) val
    rcases hb2 : buExpr f val with ⟨y2, c2⟩
    rw [hb2] at b2
    try dsimp only at b2
    simp only [csStmt] at h
    simp only [buStmt, hb1, hb2, csStmt]
    simp only [b1 (by omega), b2 (by omega)]
  | augAssign tgt op val =>
    have b1 := buExprCS f Hf i2 (.augTarget :: ctx) tgt
    rcases hb1 : buExpr f tgt with ⟨y1, c1⟩
    rw [hb1] at b1
    try dsimp only at b1
    have b2 := buExprCS f Hf i2 (.augValue :: ctx) val
    rcases hb2 : buExpr f val with ⟨y2, c2⟩
    rw [hb2] at b2
    try dsimp only at b2
    simp only [csStmt] at h
    simp only [buStmt, hb1, hb2, csStmt]
    simp only [b1 (by omega), b2 (by omega)]
  | exprStmt e =>
    have b1 := buExprCS f Hf i2 (.exprStmtE :: ctx) e
    rcases hb1 : buExpr f e with ⟨y1, c1⟩
    rw [hb1] at b1
    try dsimp only at b1
    simp only [csStmt] at h
    simp only [buStmt, hb1, csStmt]
    simp only [b1 (by omega)]
  | fndef fname body =>
    have b1 := buStmtListCS f Hf i2 (.fndefBody :: ctx) body
    rcases hb1 : buStmtList f body with ⟨y1, c1⟩
    rw [hb1] at b1
    try dsimp only at b1
    simp only [csStmt] at h
    simp only [buStmt, hb1, csStmt]
    simp only [b1 (by omega)]

theorem buStmtListCS (f : Expr → Option Expr) (Hf : ∀ e r, f e = some r → nameFreeExpr r = true) (i2 : String)
    (ctx : List Frame) (ss : StmtList) :
    ∀ (h : csStmtList i2 ctx ss = 0),
      csStmtList i2 ctx (buStmtList f ss).1 = 0 := by
  intro h
  cases ss with
  | nil => rfl
  | cons s rest =>
    have b1 := buStmtCS f Hf i2 ctx s
    rcases hb1 : buStmt f s with ⟨y1, c1⟩
    rw [hb1] at b1
    try dsimp only at b1
    have b2 := buStmtListCS f Hf i2 ctx rest
    rcases hb2 : buStmtList f rest with ⟨y2, c2⟩
    rw [hb2] at b2
    try dsimp only at b2
    simp only [csStmtList] at h
    simp only [buStmtList, hb1, hb2, csStmtList]
    simp only [b1 (by omega), b2 (by omega)]
end

theorem buModuleCS (f : Expr → Option Expr) (Hf : ∀ e r, f e = some r → nameFreeExpr r = true) (i2 : String)
    (m : ModuleNode) (h : csModule i2 m = 0) :
    csModule i2 (buModule f m).1 = 0 := by
  have b1 := buStmtListCS f Hf i2 [Frame.moduleBody] m.body
  rcases hb1 : buStmtList f m.body with ⟨y1, c1⟩
  rw [hb1] at b1
  try dsimp only at b1
  simp only [csModule] at h ⊢
  simp only [buModule, hb1]
  exact b1 h

mutual
theorem rcExprOK (id_ : String) (repl : Option Expr) (ro : Bool)
    (t : Option TypeDesc) (H : ro = false ∨ ∃ cst, repl = some cst ∧ cst.isConstant = true) (ctx : List Frame) (e : Expr) :
    ∃ p, rcExpr id_ repl ro t ctx e = .ok p := by
  cases e with
  | intL v m => exact ⟨(.intL v m, 0), rfl⟩
  | decimalL v m => exact ⟨(.decimalL v m, 0), rfl⟩
  | hexL s m => exact ⟨(.hexL s m, 0), rfl⟩
  | boolL b m => exact ⟨(.boolL b m, 0), rfl⟩
  | strL s m => exact ⟨(.strL s m, 0), rfl⟩
  | bytesL s m => exact ⟨(.bytesL s m, 0), rfl⟩
  | name s m =>
    by_cases hs : s = id_
    · by_cases hsk : skipName ctx = true
      · exact ⟨(.name s m, 0), by simp only [rcExpr, if_pos hs, if_pos hsk]⟩
      · cases hrn : replaceNode (.name s m) repl t with
        | some r =>
          exact ⟨(r, 1), by
            simp only [rcExpr, if_pos hs, if_neg hsk, hrn]⟩
        | none =>
          rcases H with hro | ⟨cst, hc1, hc2⟩
          · subst hro
            exact ⟨(.name s m, 0), by
              simp only [rcExpr, if_pos hs, if_neg hsk, hrn,
                Bool.false_eq_true, if_false]⟩
          · subst hc1
            rw [replaceNode_const_some _ cst hc2 t] at hrn
            cases hrn
    · exact ⟨(.name s m, 0), by simp only [rcExpr, if_neg hs]⟩
  | listE es m =>
    obtain ⟨⟨y1, c1⟩, h1⟩ := rcExprListOK id_ repl ro t H (.listElem :: ctx) es
    exact ⟨(.listE y1 m, c1), by simp only [rcExpr, h1, exbind_ok]⟩
  | dictE ps m =>
    obtain ⟨⟨y1, c1⟩, h1⟩ := rcPairListOK id_ repl ro t H ctx ps
    exact ⟨(.dictE y1 m, c1), by simp only [rcExpr, h1, exbind_ok]⟩
  | call fn args m =>
    obtain ⟨⟨y1, c1⟩, h1⟩ := rcExprOK id_ repl ro t H (.callFunc :: ctx) fn
    obtain ⟨⟨y2, c2⟩, h2⟩ := rcExprListOK id_ repl ro t H (.callArg :: ctx) args
    exact ⟨(.call y1 y2 m, c1 + c2), by simp only [rcExpr, h1, exbind_ok, h2, exbind_ok]⟩
  | binop op l r m =>
    obtain ⟨⟨y1, c1⟩, h1⟩ := rcExprOK id_ repl ro t H (.binopL :: ctx) l
    obtain ⟨⟨y2, c2⟩, h2⟩ := rcExprOK id_ repl ro t H (.binopR :: ctx) r
    exact ⟨(.binop op y1 y2 m, c1 + c2), by simp only [rcExpr, h1, exbind_ok, h2, exbind_ok]⟩
  | unaryop op v m =>
    obtain ⟨⟨y1, c1⟩, h1⟩ := rcExprOK id_ repl ro t H (.unaryOperand :: ctx) v
    exact ⟨(.unaryop op y1 m, c1), by simp only [rcExpr, h1, exbind_ok]⟩
  | boolop op vs m =>
    obtain ⟨⟨y1, c1⟩, h1⟩ := rcExprListOK id_ repl ro t H (.boolopValue :: ctx) vs
    exact ⟨(.boolop op y1 m, c1), by simp only [rcExpr, h1, exbind_ok]⟩
  | compare op l r m =>
    obtain ⟨⟨y1, c1⟩, h1⟩ := rcExprOK id_ repl ro t H (.compareL :: ctx) l
    obtain ⟨⟨y2, c2⟩, h2⟩ := rcExprOK id_ repl ro t H (.compareR :: ctx) r
    exact ⟨(.compare op y1 y2 m, c1 + c2), by simp only [rcExpr, h1, exbind_ok, h2, exbind_ok]⟩
  | subscript v s m =>
    obtain ⟨⟨y1, c1⟩, h1⟩ := rcExprOK id_ repl ro t H (.subscriptValue :: ctx) v
    obtain ⟨⟨y2, c2⟩, h2⟩ := rcExprOK id_ repl ro t H (.subscriptSlice :: ctx) s
    exact ⟨(.subscript y1 y2 m, c1 + c2), by simp only [rcExpr, h1, exbind_ok, h2, exbind_ok]⟩
  | index v m =>
    obtain ⟨⟨y1, c1⟩, h1⟩ := rcExprOK id_ repl ro t H (.indexValue :: ctx) v
    exact ⟨(.index y1 m, c1), by simp only [rcExpr, h1, exbind_ok]⟩

theorem rcExprListOK (id_ : String) (repl : Option Expr) (ro : Bool)
    (t : Option TypeDesc) (H : ro = false ∨ ∃ cst, repl = some cst ∧ cst.isConstant = true) (ctx : List Frame) (es : ExprList) :
    ∃ p, rcExprList id_ repl ro t ctx es = .ok p := by
  cases es with
  | nil => exact ⟨(.nil, 0), rfl⟩
  | cons e rest =>
    obtain ⟨⟨y1, c1⟩, h1⟩ := rcExprOK id_ repl ro t H ctx e
    obtain ⟨⟨y2, c2⟩, h2⟩ := rcExprListOK id_ repl ro t H ctx rest
    exact ⟨(.cons y1 y2, c1 + c2), by
      simp only [rcExprList, h1, exbind_ok, h2, exbind_ok]⟩

theorem rcPairListOK (id_ : String) (repl : Option Expr) (ro : Bool)
    (t : Option TypeDesc) (H : ro = false ∨ ∃ cst, repl = some cst ∧ cst.isConstant = true) (ctx : List Frame) (ps : PairList) :
    ∃ p, rcPairList id_ repl ro t ctx ps = .ok p := by
  cases ps with
  | nil => exact ⟨(.nil, 0), rfl⟩
  | cons k v rest =>
    obtain ⟨⟨y1, c1⟩, h1⟩ := rcExprOK id_ repl ro t H (.dictKey :: ctx) k
    obtain ⟨⟨y2, c2⟩, h2⟩ := rcExprOK id_ repl ro t H (.dictValue :: ctx) v
    obtain ⟨⟨y3, c3⟩, h3⟩ := rcPairListOK id_ repl ro t H ctx rest
    exact ⟨(.cons y1 y2 y3, c1 + c2 + c3), by
      simp only [rcPairList, h1, exbind_ok, h2, exbind_ok, h3, exbind_ok]⟩
end

mutual
theorem rcStmtOK (id_ : String) (repl : Option Expr) (ro : Bool)
    (t : Option TypeDesc) (H : ro = false ∨ ∃ cst, repl = some cst ∧ cst.isConstant = true) (ctx : List Frame) (s : Stmt) :
    ∃ p, rcStmt id_ repl ro t ctx s = .ok p := by
  cases s with
  | annAssign tgt ann val =>
    obtain ⟨⟨y1, c1⟩, h1⟩ := rcExprOK id_ repl ro t H (.annTarget :: ctx) tgt
    obtain ⟨⟨y2, c2⟩, h2⟩ := rcExprOK id_ repl ro t H (.annAnn :: ctx) ann
    cases val with
    | none =>
      exact ⟨(.annAssign y1 y2 none, c1 + c2), by
        simp only [rcStmt, h1, exbind_ok, h2, exbind_ok]⟩
    | some v =>
      obtain ⟨⟨y3, c3⟩, h3⟩ := rcExprOK id_ repl ro t H (.annValue :: ctx) v
      exact ⟨(.annAssign y1 y2 (some y3), c1 + c2 + c3), by
        simp only [rcStmt, h1, exbind_ok, h2, exbind_ok, h3, exbind_ok]⟩
  | assign tgt val =>
    obtain ⟨⟨y1, c1⟩, h1⟩ := rcExprOK id_ repl ro t H (.assignTarget :: ctx) tgt
    obtain ⟨⟨y2, c2⟩, h2⟩ := rcExprOK id_ repl ro t H (.assignValue :: ctx) val
    exact ⟨(.assign y1 y2, c1 + c2), by simp only [rcStmt, h1, exbind_ok, h2, exbind_ok]⟩
  | augAssign tgt op val =>
    obtain ⟨⟨y1, c1⟩, h1⟩ := rcExprOK id_ repl ro t H (.augTarget :: ctx) tgt
    obtain ⟨⟨y2, c2⟩, h2⟩ := rcExprOK id_ repl ro t H (.augValue :: ctx) val
    exact ⟨(.augAssign y1 op y2, c1 + c2), by simp only [rcStmt, h1, exbind_ok, h2, exbind_ok]⟩
  | exprStmt e =>
    obtain ⟨⟨y1, c1⟩, h1⟩ := rcExprOK id_ repl ro t H (.exprStmtE :: ctx) e
    exact ⟨(.exprStmt y1, c1), by simp only [rcStmt, h1, exbind_ok]⟩
  | fndef fname body =>
    obtain ⟨⟨y1, c1⟩, h1⟩ := rcStmtListOK id_ repl ro t H (.fndefBody :: ctx) body
    exact ⟨(.fndef fname y1, c1), by simp only [rcStmt, h1, exbind_ok]⟩

theorem rcStmtListOK (id_ : String) (repl : Option Expr) (ro : Bool)
    (t : Option TypeDesc) (H : ro = false ∨ ∃ cst, repl = some cst ∧ cst.isConstant = true) (ctx : List Frame) (ss : StmtList) :
    ∃ p, rcStmtList id_ repl ro t ctx ss = .ok p := by
  cases ss with
  | nil => exact ⟨(.nil, 0), rfl⟩
  | cons s rest =>
    obtain ⟨⟨y1, c1⟩, h1⟩ := rcStmtOK id_ repl ro t H ctx s
    obtain ⟨⟨y2, c2⟩, h2⟩ := rcStmtListOK id_ repl ro t H ctx rest
    exact ⟨(.cons y1 y2, c1 + c2), by
      simp only [rcStmtList, h1, exbind_ok, h2, exbind_ok]⟩
end

theorem replaceConstant_OK (vyper_module : ModuleNode) (id_ : String) (repl : Option Expr) (ro : Bool)
    (t : Option TypeDesc)
    (H : ro = false ∨ ∃ cst, repl = some cst ∧ cst.isConstant = true) :
    ∃ p, replaceConstant vyper_module id_ repl ro t = .ok p := by
  obtain ⟨⟨y, c⟩, h1⟩ := rcStmtListOK id_ repl ro t H [Frame.moduleBody]
    vyper_module.body
  exact ⟨(⟨y⟩, c), by simp only [replaceConstant, h1, exbind_ok]⟩

mutual
theorem rcExprCSP (i2 id_ : String) (repl : Option Expr) (ro : Bool)
    (t : Option TypeDesc) (ctx : List Frame) (e : Expr) (e' : Expr) (n : Nat)
    (h : rcExpr id_ repl ro t ctx e = .ok (e', n)) (h0 : csExpr i2 ctx e = 0) :
    csExpr i2 ctx e' = 0 := by
  cases e with
  | intL v m =>
    simp only [rcExpr] at h
    cases h
    exact h0
  | decimalL v m =>
    simp only [rcExpr] at h
    cases h
    exact h0
  | hexL s m =>
    simp only [rcExpr] at h
    cases h
    exact h0
  | boolL b m =>
    simp only [rcExpr] at h
    cases h
    exact h0
  | strL s m =>
    simp only [rcExpr] at h
    cases h
    exact h0
  | bytesL s m =>
    simp only [rcExpr] at h
    cases h
    exact h0
  | name s m =>
    rcases rcInv_name id_ repl ro t ctx s m e' n h with ⟨he, hn, hrest⟩ |
      ⟨hs, hsk, hrn, hn⟩
    · subst he
      exact h0
    · exact nfCSExpr i2 ctx e' (replaceNode_nameFree _ repl t e' hrn)
  | listE es m =>
    obtain ⟨x1, c1, h1, he, hn⟩ := rcInv_listE id_ repl ro t ctx es m e' n h
    simp only [csExpr, csExpr, csExprList, csPairList] at h0
    have b1 := rcExprListCSP i2 id_ repl ro t (.listElem :: ctx) es x1 c1 h1 (by omega)
    rw [he]
    simp only [csExpr, csExpr, csExprList, csPairList, b1]
  | dictE ps m =>
    obtain ⟨x1, c1, h1, he, hn⟩ := rcInv_dictE id_ repl ro t ctx ps m e' n h
    simp only [csExpr, csExpr, csExprList, csPairList] at h0
    have b1 := rcPairListCSP i2 id_ repl ro t ctx ps x1 c1 h1 (by omega)
    rw [he]
    simp only [csExpr, csExpr, csExprList, csPairList, b1]
  | call f args m =>
    obtain ⟨x1, c1, x2, c2, h1, h2, he, hn⟩ := rcInv_call id_ repl ro t ctx f args m e' n h
    subst he hn
    simp only [csExpr, csExpr, csExprList, csPairList] at h0 ⊢
    have b1 := rcExprCSP i2 id_ repl ro t (.callFunc :: ctx) f x1 c1 h1 (by omega)
    have b2 := rcExprListCSP i2 id_ repl ro t (.callArg :: ctx) args x2 c2 h2 (by omega)
    simp only [b1, b2]
  | binop op l r m =>
    obtain ⟨x1, c1, x2, c2, h1, h2, he, hn⟩ := rcInv_binop id_ repl ro t ctx op l r m e' n h
    subst he hn
    simp only [csExpr, csExpr, csExprList, csPairList] at h0 ⊢
    have b1 := rcExprCSP i2 id_ repl ro t (.binopL :: ctx) l x1 c1 h1 (by omega)
    have b2 := rcExprCSP i2 id_ repl ro t (.binopR :: ctx) r x2 c2 h2 (by omega)
    simp only [b1, b2]
  | unaryop op v m =>
    obtain ⟨x1, c1, h1, he, hn⟩ := rcInv_unaryop id_ repl ro t ctx op v m e' n h
    simp only [csExpr, csExpr, csExprList, csPairList] at h0
    have b1 := rcExprCSP i2 id_ repl ro t (.unaryOperand :: ctx) v x1 c1 h1 (by omega)
    rw [he]
    simp only [csExpr, csExpr, csExprList, csPairList, b1]
  | boolop op vs m =>
    obtain ⟨x1, c1, h1, he, hn⟩ := rcInv_boolop id_ repl ro t ctx op vs m e' n h
    simp only [csExpr, csExpr, csExprList, csPairList] at h0
    have b1 := rcExprListCSP i2 id_ repl ro t (.boolopValue :: ctx) vs x1 c1 h1 (by omega)
    rw [he]
    simp only [csExpr, csExpr, csExprList, csPairList, b1]
  | compare op l r m =>
    obtain ⟨x1, c1, x2, c2, h1, h2, he, hn⟩ := rcInv_compare id_ repl ro t ctx op l r m e' n h
    subst he hn
    simp only [csExpr, csExpr, csExprList, csPairList] at h0 ⊢
    have b1 := rcExprCSP i2 id_ repl ro t (.compareL :: ctx) l x1 c1 h1 (by omega)
    have b2 := rcExprCSP i2 id_ repl ro t (.compareR :: ctx) r x2 c2 h2 (by omega)
    simp only [b1, b2]
  | subscript v s m =>
    obtain ⟨x1, c1, x2, c2, h1, h2, he, hn⟩ := rcInv_subscript id_ repl ro t ctx v s m e' n h
    subst he hn
    simp only [csExpr, csExpr, csExprList, csPairList] at h0 ⊢
    have b1 := rcExprCSP i2 id_ repl ro t (.subscriptValue :: ctx) v x1 c1 h1 (by omega)
    have b2 := rcExprCSP i2 id_ repl ro t (.subscriptSlice :: ctx) s x2 c2 h2 (by omega)
    simp only [b1, b2]
  | index v m =>
    obtain ⟨x1, c1, h1, he, hn⟩ := rcInv_index id_ repl ro t ctx v m e' n h
    simp only [csExpr, csExpr, csExprList, csPairList] at h0
    have b1 := rcExprCSP i2 id_ repl ro t (.indexValue :: ctx) v x1 c1 h1 (by omega)
    rw [he]
    simp only [csExpr, csExpr, csExprList, csPairList, b1]

theorem rcExprListCSP (i2 id_ : String) (repl : Option Expr) (ro : Bool)
    (t : Option TypeDesc) (ctx : List Frame) (es : ExprList)
    (es' : ExprList) (n : Nat)
    (h : rcExprList id_ repl ro t ctx es = .ok (es', n))
    (h0 : csExprList i2 ctx es = 0) : csExprList i2 ctx es' = 0 := by
  cases es with
  | nil =>
    simp only [rcExprList] at h
    cases h
    exact h0
  | cons e rest =>
    obtain ⟨x1, c1, x2, c2, h1, h2, he, hn⟩ := rcInv_consE id_ repl ro t ctx e rest es' n h
    subst he hn
    simp only [csExprList] at h0 ⊢
    have b1 := rcExprCSP i2 id_ repl ro t ctx e x1 c1 h1 (by omega)
    have b2 := rcExprListCSP i2 id_ repl ro t ctx rest x2 c2 h2 (by omega)
    simp only [b1, b2]

theorem rcPairListCSP (i2 id_ : String) (repl : Option Expr) (ro : Bool)
    (t : Option TypeDesc) (ctx : List Frame) (ps : PairList)
    (ps' : PairList) (n : Nat)
    (h : rcPairList id_ repl ro t ctx ps = .ok (ps', n))
    (h0 : csPairList i2 ctx ps = 0) : csPairList i2 ctx ps' = 0 := by
  cases ps with
  | nil =>
    simp only [rcPairList] at h
    cases h
    exact h0
  | cons k v rest =>
    obtain ⟨x1, c1, x2, c2, x3, c3, h1, h2, h3, he, hn⟩ :=
      rcInv_consP id_ repl ro t ctx k v rest ps' n h
    subst he hn
    simp only [csPairList] at h0 ⊢
    have b1 := rcExprCSP i2 id_ repl ro t (.dictKey :: ctx) k x1 c1 h1 (by omega)
    have b2 := rcExprCSP i2 id_ repl ro t (.dictValue :: ctx) v x2 c2 h2 (by omega)
    have b3 := rcPairListCSP i2 id_ repl ro t ctx rest x3 c3 h3 (by omega)
    simp only [b1, b2, b3]
end

mutual
theorem rcStmtCSP (i2 id_ : String) (repl : Option Expr) (ro : Bool)
    (t : Option TypeDesc) (ctx : List Frame) (s : Stmt) (s' : Stmt) (n : Nat)
    (h : rcStmt id_ repl ro t ctx s = .ok (s', n)) (h0 : csStmt i2 ctx s = 0) :
    csStmt i2 ctx s' = 0 := by
  cases s with
  | annAssign tgt ann val =>
    cases val with
    | none =>
      obtain ⟨x1, c1, x2, c2, h1, h2, he, hn⟩ :=
        rcInv_annAssignNone id_ repl ro t ctx tgt ann s' n h
      subst he hn
      simp only [csStmt, csExpr, csExprList, csPairList] at h0 ⊢
      have b1 := rcExprCSP i2 id_ repl ro t (.annTarget :: ctx) tgt x1 c1 h1 (by omega)
      have b2 := rcExprCSP i2 id_ repl ro t (.annAnn :: ctx) ann x2 c2 h2 (by omega)
      simp only [b1, b2]
    | some v =>
      obtain ⟨x1, c1, x2, c2, x3, c3, h1, h2, h3, he, hn⟩ :=
        rcInv_annAssignSome id_ repl ro t ctx tgt ann v s' n h
      subst he hn
      simp only [csStmt, csExpr, csExprList, csPairList] at h0 ⊢
      have b1 := rcExprCSP i2 id_ repl ro t (.annTarget :: ctx) tgt x1 c1 h1 (by omega)
      have b2 := rcExprCSP i2 id_ repl ro t (.annAnn :: ctx) ann x2 c2 h2 (by omega)
      have b3 := rcExprCSP i2 id_ repl ro t (.annValue :: ctx) v x3 c3 h3 (by omega)
      simp only [b1, b2, b3]
  | assign tgt val =>
    obtain ⟨x1, c1, x2, c2, h1, h2, he, hn⟩ := rcInv_assign id_ repl ro t ctx tgt val s' n h
    subst he hn
    simp only [csStmt, csExpr, csExprList, csPairList] at h0 ⊢
    have b1 := rcExprCSP i2 id_ repl ro t (.assignTarget :: ctx) tgt x1 c1 h1 (by omega)
    have b2 := rcExprCSP i2 id_ repl ro t (.assignValue :: ctx) val x2 c2 h2 (by omega)
    simp only [b1, b2]
  | augAssign tgt op val =>
    obtain ⟨x1, c1, x2, c2, h1, h2, he, hn⟩ := rcInv_augAssign id_ repl ro t ctx tgt op val s' n h
    subst he hn
    simp only [csStmt, csExpr, csExprList, csPairList] at h0 ⊢
    have b1 := rcExprCSP i2 id_ repl ro t (.augTarget :: ctx) tgt x1 c1 h1 (by omega)
    have b2 := rcExprCSP i2 id_ repl ro t (.augValue :: ctx) val x2 c2 h2 (by omega)
    simp only [b1, b2]
  | exprStmt v =>
    obtain ⟨x1, c1, h1, he, hn⟩ := rcInv_exprStmt id_ repl ro t ctx v s' n h
    simp only [csStmt, csExpr, csExprList, csPairList] at h0
    have b1 := rcExprCSP i2 id_ repl ro t (.exprStmtE :: ctx) v x1 c1 h1 (by omega)
    rw [he]
    simp only [csStmt, csExpr, csExprList, csPairList, b1]
  | fndef fname body =>
    obtain ⟨x1, c1, h1, he, hn⟩ := rcInv_fndef id_ repl ro t ctx fname body s' n h
    simp only [csStmt, csExpr, csExprList, csPairList] at h0
    have b1 := rcStmtListCSP i2 id_ repl ro t (.fndefBody :: ctx) body x1 c1 h1 (by omega)
    rw [he]
    simp only [csStmt, csExpr, csExprList, csPairList, b1]

theorem rcStmtListCSP (i2 id_ : String) (repl : Option Expr) (ro : Bool)
    (t : Option TypeDesc) (ctx : List Frame) (ss : StmtList)
    (ss' : StmtList) (n : Nat)
    (h : rcStmtList id_ repl ro t ctx ss = .ok (ss', n))
    (h0 : csStmtList i2 ctx ss = 0) : csStmtList i2 ctx ss' = 0 := by
  cases ss with
  | nil =>
    simp only [rcStmtList] at h
    cases h
    exact h0
  | cons s rest =>
    obtain ⟨x1, c1, x2, c2, h1, h2, he, hn⟩ := rcInv_consS id_ repl ro t ctx s rest ss' n h
    subst he hn
    simp only [csStmtList] at h0 ⊢
    have b1 := rcStmtCSP i2 id_ repl ro t ctx s x1 c1 h1 (by omega)
    have b2 := rcStmtListCSP i2 id_ repl ro t ctx rest x2 c2 h2 (by omega)
    simp only [b1, b2]
end

theorem replaceConstant_CSP (i2 : String) (vyper_module : ModuleNode)
    (id_ : String) (repl : Option Expr) (ro : Bool) (t : Option TypeDesc)
    (m' : ModuleNode) (n : Nat)
    (h : replaceConstant vyper_module id_ repl ro t = .ok (m', n))
    (h0 : csModule i2 vyper_module = 0) : csModule i2 m' = 0 := by
  simp only [replaceConstant] at h
  rw [exbind] at h
  obtain ⟨⟨body', c⟩, h1, h⟩ := h
  dsimp only at h
  cases h
  exact rcStmtListCSP i2 id_ repl ro t [Frame.moduleBody] vyper_module.body body' _ h1 h0

mutual
theorem rcExprCSC (id_ : String) (cst : Expr) (hc : cst.isConstant = true) (ro : Bool)
    (t : Option TypeDesc) (ctx : List Frame) (e : Expr) (e' : Expr) (n : Nat)
    (h : rcExpr id_ (some cst) ro t ctx e = .ok (e', n)) : csExpr id_ ctx e' = 0 := by
  cases e with
  | intL v m =>
    simp only [rcExpr] at h
    cases h
    rfl
  | decimalL v m =>
    simp only [rcExpr] at h
    cases h
    rfl
  | hexL s m =>
    simp only [rcExpr] at h
    cases h
    rfl
  | boolL b m =>
    simp only [rcExpr] at h
    cases h
    rfl
  | strL s m =>
    simp only [rcExpr] at h
    cases h
    rfl
  | bytesL s m =>
    simp only [rcExpr] at h
    cases h
    rfl
  | name s m =>
    rcases rcInv_name id_ (some cst) ro t ctx s m e' n h with ⟨he, hn, hrest⟩ |
      ⟨hs, hsk, hrn, hn⟩
    · subst he
      by_cases hs : s = id_
      · rcases hrest hs with hsk | hno
        · simp [csExpr, hsk]
        · rw [replaceNode_const_some _ cst hc t] at hno
          cases hno
      · simp [csExpr, hs]
    · exact nfCSExpr id_ ctx e' (replaceNode_nameFree _ (some cst) t e' hrn)
  | listE es m =>
    obtain ⟨x1, c1, h1, he, hn⟩ := rcInv_listE id_ (some cst) ro t ctx es m e' n h
    have b1 := rcExprListCSC id_ cst hc ro t (.listElem :: ctx) es x1 c1 h1
    rw [he]
    simp only [csExpr, csExpr, csExprList, csPairList, b1]
  | dictE ps m =>
    obtain ⟨x1, c1, h1, he, hn⟩ := rcInv_dictE id_ (some cst) ro t ctx ps m e' n h
    have b1 := rcPairListCSC id_ cst hc ro t ctx ps x1 c1 h1
    rw [he]
    simp only [csExpr, csExpr, csExprList, csPairList, b1]
  | call f args m =>
    obtain ⟨x1, c1, x2, c2, h1, h2, he, hn⟩ := rcInv_call id_ (some cst) ro t ctx f args m e' n h
    have b1 := rcExprCSC id_ cst hc ro t (.callFunc :: ctx) f x1 c1 h1
    have b2 := rcExprListCSC id_ cst hc ro t (.callArg :: ctx) args x2 c2 h2
    rw [he]
    simp only [csExpr, csExpr, csExprList, csPairList, b1, b2]
  | binop op l r m =>
    obtain ⟨x1, c1, x2, c2, h1, h2, he, hn⟩ := rcInv_binop id_ (some cst) ro t ctx op l r m e' n h
    have b1 := rcExprCSC id_ cst hc ro t (.binopL :: ctx) l x1 c1 h1
    have b2 := rcExprCSC id_ cst hc ro t (.binopR :: ctx) r x2 c2 h2
    rw [he]
    simp only [csExpr, csExpr, csExprList, csPairList, b1, b2]
  | unaryop op v m =>
    obtain ⟨x1, c1, h1, he, hn⟩ := rcInv_unaryop id_ (some cst) ro t ctx op v m e' n h
    have b1 := rcExprCSC id_ cst hc ro t (.unaryOperand :: ctx) v x1 c1 h1
    rw [he]
    simp only [csExpr, csExpr, csExprList, csPairList, b1]
  | boolop op vs m =>
    obtain ⟨x1, c1, h1, he, hn⟩ := rcInv_boolop id_ (some cst) ro t ctx op vs m e' n h
    have b1 := rcExprListCSC id_ cst hc ro t (.boolopValue :: ctx) vs x1 c1 h1
    rw [he]
    simp only [csExpr, csExpr, csExprList, csPairList, b1]
  | compare op l r m =>
    obtain ⟨x1, c1, x2, c2, h1, h2, he, hn⟩ := rcInv_compare id_ (some cst) ro t ctx op l r m e' n h
    have b1 := rcExprCSC id_ cst hc ro t (.compareL :: ctx) l x1 c1 h1
    have b2 := rcExprCSC id_ cst hc ro t (.compareR :: ctx) r x2 c2 h2
    rw [he]
    simp only [csExpr, csExpr, csExprList, csPairList, b1, b2]
  | subscript v s m =>
    obtain ⟨x1, c1, x2, c2, h1, h2, he, hn⟩ := rcInv_subscript id_ (some cst) ro t ctx v s m e' n h
    have b1 := rcExprCSC id_ cst hc ro t (.subscriptValue :: ctx) v x1 c1 h1
    have b2 := rcExprCSC id_ cst hc ro t (.subscriptSlice :: ctx) s x2 c2 h2
    rw [he]
    simp only [csExpr, csExpr, csExprList, csPairList, b1, b2]
  | index v m =>
    obtain ⟨x1, c1, h1, he, hn⟩ := rcInv_index id_ (some cst) ro t ctx v m e' n h
    have b1 := rcExprCSC id_ cst hc ro t (.indexValue :: ctx) v x1 c1 h1
    rw [he]
    simp only [csExpr, csExpr, csExprList, csPairList, b1]

theorem rcExprListCSC (id_ : String) (cst : Expr) (hc : cst.isConstant = true) (ro : Bool)
    (t : Option TypeDesc) (ctx : List Frame) (es : ExprList)
    (es' : ExprList) (n : Nat)
    (h : rcExprList id_ (some cst) ro t ctx es = .ok (es', n)) :
    csExprList id_ ctx es' = 0 := by
  cases es with
  | nil =>
    simp only [rcExprList] at h
    cases h
    rfl
  | cons e rest =>
    obtain ⟨x1, c1, x2, c2, h1, h2, he, hn⟩ :=
      rcInv_consE id_ (some cst) ro t ctx e rest es' n h
    have b1 := rcExprCSC id_ cst hc ro t ctx e x1 c1 h1
    have b2 := rcExprListCSC id_ cst hc ro t ctx rest x2 c2 h2
    rw [he]
    simp only [csExprList, b1, b2]

theorem rcPairListCSC (id_ : String) (cst : Expr) (hc : cst.isConstant = true) (ro : Bool)
    (t : Option TypeDesc) (ctx : List Frame) (ps : PairList)
    (ps' : PairList) (n : Nat)
    (h : rcPairList id_ (some cst) ro t ctx ps = .ok (ps', n)) :
    csPairList id_ ctx ps' = 0 := by
  cases ps with
  | nil =>
    simp only [rcPairList] at h
    cases h
    rfl
  | cons k v rest =>
    obtain ⟨x1, c1, x2, c2, x3, c3, h1, h2, h3, he, hn⟩ :=
      rcInv_consP id_ (some cst) ro t ctx k v rest ps' n h
    have b1 := rcExprCSC id_ cst hc ro t (.dictKey :: ctx) k x1 c1 h1
    have b2 := rcExprCSC id_ cst hc ro t (.dictValue :: ctx) v x2 c2 h2
    have b3 := rcPairListCSC id_ cst hc ro t ctx rest x3 c3 h3
    rw [he]
    simp only [csPairList, b1, b2, b3]
end

mutual
theorem rcStmtCSC (id_ : String) (cst : Expr) (hc : cst.isConstant = true) (ro : Bool)
    (t : Option TypeDesc) (ctx : List Frame) (s : Stmt) (s' : Stmt) (n : Nat)
    (h : rcStmt id_ (some cst) ro t ctx s = .ok (s', n)) : csStmt id_ ctx s' = 0 := by
  cases s with
  | annAssign tgt ann val =>
    cases val with
    | none =>
      obtain ⟨x1, c1, x2, c2, h1, h2, he, hn⟩ :=
        rcInv_annAssignNone id_ (some cst) ro t ctx tgt ann s' n h
      have b1 := rcExprCSC id_ cst hc ro t (.annTarget :: ctx) tgt x1 c1 h1
      have b2 := rcExprCSC id_ cst hc ro t (.annAnn :: ctx) ann x2 c2 h2
      rw [he]
      simp only [csStmt, csExpr, csExprList, csPairList, b1, b2]
    | some v =>
      obtain ⟨x1, c1, x2, c2, x3, c3, h1, h2, h3, he, hn⟩ :=
        rcInv_annAssignSome id_ (some cst) ro t ctx tgt ann v s' n h
      have b1 := rcExprCSC id_ cst hc ro t (.annTarget :: ctx) tgt x1 c1 h1
      have b2 := rcExprCSC id_ cst hc ro t (.annAnn :: ctx) ann x2 c2 h2
      have b3 := rcExprCSC id_ cst hc ro t (.annValue :: ctx) v x3 c3 h3
      rw [he]
      simp only [csStmt, csExpr, csExprList, csPairList, b1, b2, b3]
  | assign tgt val =>
    obtain ⟨x1, c1, x2, c2, h1, h2, he, hn⟩ := rcInv_assign id_ (some cst) ro t ctx tgt val s' n h
    have b1 := rcExprCSC id_ cst hc ro t (.assignTarget :: ctx) tgt x1 c1 h1
    have b2 := rcExprCSC id_ cst hc ro t (.assignValue :: ctx) val x2 c2 h2
    rw [he]
    simp only [csStmt, csExpr, csExprList, csPairList, b1, b2]
  | augAssign tgt op val =>
    obtain ⟨x1, c1, x2, c2, h1, h2, he, hn⟩ := rcInv_augAssign id_ (some cst) ro t ctx tgt op val s' n h
    have b1 := rcExprCSC id_ cst hc ro t (.augTarget :: ctx) tgt x1 c1 h1
    have b2 := rcExprCSC id_ cst hc ro t (.augValue :: ctx) val x2 c2 h2
    rw [he]
    simp only [csStmt, csExpr, csExprList, csPairList, b1, b2]
  | exprStmt v =>
    obtain ⟨x1, c1, h1, he, hn⟩ := rcInv_exprStmt id_ (some cst) ro t ctx v s' n h
    have b1 := rcExprCSC id_ cst hc ro t (.exprStmtE :: ctx) v x1 c1 h1
    rw [he]
    simp only [csStmt, csExpr, csExprList, csPairList, b1]
  | fndef fname body =>
    obtain ⟨x1, c1, h1, he, hn⟩ := rcInv_fndef id_ (some cst) ro t ctx fname body s' n h
    have b1 := rcStmtListCSC id_ cst hc ro t (.fndefBody :: ctx) body x1 c1 h1
    rw [he]
    simp only [csStmt, csExpr, csExprList, csPairList, b1]

theorem rcStmtListCSC (id_ : String) (cst : Expr) (hc : cst.isConstant = true) (ro : Bool)
    (t : Option TypeDesc) (ctx : List Frame) (ss : StmtList)
    (ss' : StmtList) (n : Nat)
    (h : rcStmtList id_ (some cst) ro t ctx ss = .ok (ss', n)) :
    csStmtList id_ ctx ss' = 0 := by
  cases ss with
  | nil =>
    simp only [rcStmtList] at h
    cases h
    rfl
  | cons s rest =>
    obtain ⟨x1, c1, x2, c2, h1, h2, he, hn⟩ :=
      rcInv_consS id_ (some cst) ro t ctx s rest ss' n h
    have b1 := rcStmtCSC id_ cst hc ro t ctx s x1 c1 h1
    have b2 := rcStmtListCSC id_ cst hc ro t ctx rest x2 c2 h2
    rw [he]
    simp only [csStmtList, b1, b2]
end

theorem replaceConstant_CSC (vyper_module : ModuleNode) (id_ : String)
    (cst : Expr) (hc : cst.isConstant = true) (ro : Bool)
    (t : Option TypeDesc) (m' : ModuleNode) (n : Nat)
    (h : replaceConstant vyper_module id_ (some cst) ro t = .ok (m', n)) :
    csModule id_ m' = 0 := by
  simp only [replaceConstant] at h
  rw [exbind] at h
  obtain ⟨⟨body', c⟩, h1, h⟩ := h
  dsimp only at h
  cases h
  exact rcStmtListCSC id_ cst hc ro t [Frame.moduleBody]
    vyper_module.body body' _ h1

mutual
theorem rcExprNOOP (id_ : String) (repl : Option Expr) (ro : Bool)
    (t : Option TypeDesc) (ctx : List Frame) (e : Expr)
    (h0 : csExpr id_ ctx e = 0) :
    rcExpr id_ repl ro t ctx e = .ok (e, 0) := by
  cases e with
  | intL v m => rfl
  | decimalL v m => rfl
  | hexL s m => rfl
  | boolL b m => rfl
  | strL s m => rfl
  | bytesL s m => rfl
  | name s m =>
    by_cases hs : s = id_
    · by_cases hsk : skipName ctx = true
      · simp only [rcExpr, if_pos hs, if_pos hsk]
      · exfalso
        simp only [csExpr, if_pos hs, if_neg hsk] at h0
        exact one_ne_zero h0
    · simp only [rcExpr, if_neg hs]
  | listE es m =>
    simp only [csExpr, csExpr, csExprList, csPairList] at h0
    have b1 := rcExprListNOOP id_ repl ro t (.listElem :: ctx) es (by omega)
    simp only [rcExpr, b1, exbind_ok]
  | dictE ps m =>
    simp only [csExpr, csExpr, csExprList, csPairList] at h0
    have b1 := rcPairListNOOP id_ repl ro t ctx ps (by omega)
    simp only [rcExpr, b1, exbind_ok]
  | call f args m =>
    simp only [csExpr, csExpr, csExprList, csPairList] at h0
    have b1 := rcExprNOOP id_ repl ro t (.callFunc :: ctx) f (by omega)
    have b2 := rcExprListNOOP id_ repl ro t (.callArg :: ctx) args (by omega)
    simp only [rcExpr, b1, exbind_ok, b2, exbind_ok]
  | binop op l r m =>
    simp only [csExpr, csExpr, csExprList, csPairList] at h0
    have b1 := rcExprNOOP id_ repl ro t (.binopL :: ctx) l (by omega)
    have b2 := rcExprNOOP id_ repl ro t (.binopR :: ctx) r (by omega)
    simp only [rcExpr, b1, exbind_ok, b2, exbind_ok]
  | unaryop op v m =>
    simp only [csExpr, csExpr, csExprList, csPairList] at h0
    have b1 := rcExprNOOP id_ repl ro t (.unaryOperand :: ctx) v (by omega)
    simp only [rcExpr, b1, exbind_ok]
  | boolop op vs m =>
    simp only [csExpr, csExpr, csExprList, csPairList] at h0
    have b1 := rcExprListNOOP id_ repl ro t (.boolopValue :: ctx) vs (by omega)
    simp only [rcExpr, b1, exbind_ok]
  | compare op l r m =>
    simp only [csExpr, csExpr, csExprList, csPairList] at h0
    have b1 := rcExprNOOP id_ repl ro t (.compareL :: ctx) l (by omega)
    have b2 := rcExprNOOP id_ repl ro t (.compareR :: ctx) r (by omega)
    simp only [rcExpr, b1, exbind_ok, b2, exbind_ok]
  | subscript v s m =>
    simp only [csExpr, csExpr, csExprList, csPairList] at h0
    have b1 := rcExprNOOP id_ repl ro t (.subscriptValue :: ctx) v (by omega)
    have b2 := rcExprNOOP id_ repl ro t (.subscriptSlice :: ctx) s (by omega)
    simp only [rcExpr, b1, exbind_ok, b2, exbind_ok]
  | index v m =>
    simp only [csExpr, csExpr, csExprList, csPairList] at h0
    have b1 := rcExprNOOP id_ repl ro t (.indexValue :: ctx) v (by omega)
    simp only [rcExpr, b1, exbind_ok]

theorem rcExprListNOOP (id_ : String) (repl : Option Expr) (ro : Bool)
    (t : Option TypeDesc) (ctx : List Frame) (es : ExprList)
    (h0 : csExprList id_ ctx es = 0) :
    rcExprList id_ repl ro t ctx es = .ok (es, 0) := by
  cases es with
  | nil => rfl
  | cons e rest =>
    simp only [csExprList] at h0
    have b1 := rcExprNOOP id_ repl ro t ctx e (by omega)
    have b2 := rcExprListNOOP id_ repl ro t ctx rest (by omega)
    simp only [rcExprList, b1, exbind_ok, b2, exbind_ok]

theorem rcPairListNOOP (id_ : String) (repl : Option Expr) (ro : Bool)
    (t : Option TypeDesc) (ctx : List Frame) (ps : PairList)
    (h0 : csPairList id_ ctx ps = 0) :
    rcPairList id_ repl ro t ctx ps = .ok (ps, 0) := by
  cases ps with
  | nil => rfl
  | cons k v rest =>
    simp only [csPairList] at h0
    have b1 := rcExprNOOP id_ repl ro t (.dictKey :: ctx) k (by omega)
    have b2 := rcExprNOOP id_ repl ro t (.dictValue :: ctx) v (by omega)
    have b3 := rcPairListNOOP id_ repl ro t ctx rest (by omega)
    simp only [rcPairList, b1, exbind_ok, b2, exbind_ok, b3, exbind_ok]
end

mutual
theorem rcStmtNOOP (id_ : String) (repl : Option Expr) (ro : Bool)
    (t : Option TypeDesc) (ctx : List Frame) (s : Stmt)
    (h0 : csStmt id_ ctx s = 0) :
    rcStmt id_ repl ro t ctx s = .ok (s, 0) := by
  cases s with
  | annAssign tgt ann val =>
    cases val with
    | none =>
      simp only [csStmt] at h0
      have b1 := rcExprNOOP id_ repl ro t (.annTarget :: ctx) tgt (by omega)
      have b2 := rcExprNOOP id_ repl ro t (.annAnn :: ctx) ann (by omega)
      simp only [rcStmt, b1, exbind_ok, b2, exbind_ok]
    | some v =>
      simp only [csStmt] at h0
      have b1 := rcExprNOOP id_ repl ro t (.annTarget :: ctx) tgt (by omega)
      have b2 := rcExprNOOP id_ repl ro t (.annAnn :: ctx) ann (by omega)
      have b3 := rcExprNOOP id_ repl ro t (.annValue :: ctx) v (by omega)
      simp only [rcStmt, b1, exbind_ok, b2, exbind_ok, b3, exbind_ok]
  | assign tgt val =>
    simp only [csStmt, csExpr, csExprList, csPairList] at h0
    have b1 := rcExprNOOP id_ repl ro t (.assignTarget :: ctx) tgt (by omega)
    have b2 := rcExprNOOP id_ repl ro t (.assignValue :: ctx) val (by omega)
    simp only [rcStmt, b1, exbind_ok, b2, exbind_ok]
  | augAssign tgt op val =>
    simp only [csStmt, csExpr, csExprList, csPairList] at h0
    have b1 := rcExprNOOP id_ repl ro t (.augTarget :: ctx) tgt (by omega)
    have b2 := rcExprNOOP id_ repl ro t (.augValue :: ctx) val (by omega)
    simp only [rcStmt, b1, exbind_ok, b2, exbind_ok]
  | exprStmt v =>
    simp only [csStmt, csExpr, csExprList, csPairList] at h0
    have b1 := rcExprNOOP id_ repl ro t (.exprStmtE :: ctx) v (by omega)
    simp only [rcStmt, b1, exbind_ok]
  | fndef fname body =>
    simp only [csStmt, csExpr, csExprList, csPairList] at h0
    have b1 := rcStmtListNOOP id_ repl ro t (.fndefBody :: ctx) body (by omega)
    simp only [rcStmt, b1, exbind_ok]

theorem rcStmtListNOOP (id_ : String) (repl : Option Expr) (ro : Bool)
    (t : Option TypeDesc) (ctx : List Frame) (ss : StmtList)
    (h0 : csStmtList id_ ctx ss = 0) :
    rcStmtList id_ repl ro t ctx ss = .ok (ss, 0) := by
  cases ss with
  | nil => rfl
  | cons s rest =>
    simp only [csStmtList] at h0
    have b1 := rcStmtNOOP id_ repl ro t ctx s (by omega)
    have b2 := rcStmtListNOOP id_ repl ro t ctx rest (by omega)
    simp only [rcStmtList, b1, exbind_ok, b2, exbind_ok]
end

theorem replaceConstant_NOOP (vyper_module : ModuleNode) (id_ : String)
    (repl : Option Expr) (ro : Bool) (t : Option TypeDesc)
    (h0 : csModule id_ vyper_module = 0) :
    replaceConstant vyper_module id_ repl ro t = .ok (vyper_module, 0) := by
  have b1 := rcStmtListNOOP id_ repl ro t [Frame.moduleBody] vyper_module.body h0
  simp only [replaceConstant, b1, exbind_ok]

theorem evalOpNode_nf (e r : Expr) (h : evalOpNode e = some r) :
    nameFreeExpr r = true :=
  isLitExpr_nameFree r (evalOpNode_spec e r h).1

theorem evalSubscriptNode_nf (e r : Expr) (h : evalSubscriptNode e = some r) :
    nameFreeExpr r = true :=
  isLitExpr_nameFree r (evalSubscriptNode_spec e r h).1

theorem evalBuiltinCallNode_nf (d : DispatchTable) (e r : Expr)
    (h : evalBuiltinCallNode d e = some r) : nameFreeExpr r = true :=
  isLitExpr_nameFree r (evalBuiltinCallNode_spec d e r h).1

theorem replaceLiteralOps_MU (m : ModuleNode) :
    measureModule (replaceLiteralOps m).1 + (replaceLiteralOps m).2 ≤
      measureModule m :=
  buModuleMeas evalOpNode evalOpNode_spec m

theorem replaceLiteralOps_C0 (m : ModuleNode)
    (h : (replaceLiteralOps m).2 = 0) : (replaceLiteralOps m).1 = m :=
  buModuleC0 evalOpNode m h

theorem replaceLiteralOps_CS (i2 : String) (m : ModuleNode)
    (h : csModule i2 m = 0) : csModule i2 (replaceLiteralOps m).1 = 0 :=
  buModuleCS evalOpNode evalOpNode_nf i2 m h

theorem replaceSubscripts_MU (m : ModuleNode) :
    measureModule (replaceSubscripts m).1 + (replaceSubscripts m).2 ≤
      measureModule m :=
  buModuleMeas evalSubscriptNode evalSubscriptNode_spec m

theorem replaceSubscripts_C0 (m : ModuleNode)
    (h : (replaceSubscripts m).2 = 0) : (replaceSubscripts m).1 = m :=
  buModuleC0 evalSubscriptNode m h

theorem replaceSubscripts_CS (i2 : String) (m : ModuleNode)
    (h : csModule i2 m = 0) : csModule i2 (replaceSubscripts m).1 = 0 :=
  buModuleCS evalSubscriptNode evalSubscriptNode_nf i2 m h

theorem replaceBuiltinFunctions_MU (d : DispatchTable) (m : ModuleNode) :
    measureModule (replaceBuiltinFunctions d m).1 +
      (replaceBuiltinFunctions d m).2 ≤ measureModule m :=
  buModuleMeas (evalBuiltinCallNode d) (evalBuiltinCallNode_spec d) m

theorem replaceBuiltinFunctions_C0 (d : DispatchTable) (m : ModuleNode)
    (h : (replaceBuiltinFunctions d m).2 = 0) :
    (replaceBuiltinFunctions d m).1 = m :=
  buModuleC0 (evalBuiltinCallNode d) m h

theorem replaceBuiltinFunctions_CS (d : DispatchTable) (i2 : String)
    (m : ModuleNode) (h : csModule i2 m = 0) :
    csModule i2 (replaceBuiltinFunctions d m).1 = 0 :=
  buModuleCS (evalBuiltinCallNode d) (evalBuiltinCallNode_nf d) i2 m h

theorem rudcGo_MU (r : Resolver) :
    ∀ (fuel : Nat) (m : ModuleNode) (i : Nat) (m' : ModuleNode) (n : Nat),
      rudcGo r m i fuel = .ok (m', n) →
      measureModule m' + n ≤ measureModule m ∧ (n = 0 → m' = m) := by
  intro fuel
  induction fuel with
  | zero =>
    intro m i m' n h
    simp only [rudcGo] at h
    cases h
    exact ⟨by simp, fun _ => rfl⟩
  | succ f ih =>
    intro m i m' n h
    simp only [rudcGo] at h
    cases hg : m.body.get? i with
    | none =>
      rw [hg] at h
      cases h
      exact ⟨by simp, fun _ => rfl⟩
    | some s =>
      rw [hg] at h
      dsimp only at h
      cases hm : matchConstDecl s with
      | none =>
        rw [hm] at h
        exact ih m (i + 1) m' n h
      | some triple =>
        rw [hm] at h
        obtain ⟨x, args, v⟩ := triple
        cases args with
        | nil => dsimp only at h; cases h
        | cons a rest =>
          dsimp only at h
          cases hr : r a with
          | error u => rw [hr] at h; cases h
          | ok ty =>
            rw [hr] at h
            dsimp only at h
            rw [exbind] at h
            obtain ⟨⟨m1, c1⟩, h1, h⟩ := h
            dsimp only at h
            rw [exbind] at h
            obtain ⟨⟨m2, c2⟩, h2, h⟩ := h
            dsimp only at h
            cases h
            obtain ⟨a1, b1⟩ :=
              replaceConstant_MU m x v false (some ty) m1 c1 h1
            obtain ⟨a2, b2⟩ := ih m1 (i + 1) _ _ h2
            refine ⟨by omega, fun h0 => ?_⟩
            rw [b2 (by omega), b1 (by omega)]

theorem rudcGo_CSP (i2 : String) (r : Resolver) :
    ∀ (fuel : Nat) (m : ModuleNode) (i : Nat) (m' : ModuleNode) (n : Nat),
      rudcGo r m i fuel = .ok (m', n) → csModule i2 m = 0 →
      csModule i2 m' = 0 := by
  intro fuel
  induction fuel with
  | zero =>
    intro m i m' n h h0
    simp only [rudcGo] at h
    cases h
    exact h0
  | succ f ih =>
    intro m i m' n h h0
    simp only [rudcGo] at h
    cases hg : m.body.get? i with
    | none =>
      rw [hg] at h
      cases h
      exact h0
    | some s =>
      rw [hg] at h
      dsimp only at h
      cases hm : matchConstDecl s with
      | none =>
        rw [hm] at h
        exact ih m (i + 1) m' n h h0
      | some triple =>
        rw [hm] at h
        obtain ⟨x, args, v⟩ := triple
        cases args with
        | nil => dsimp only at h; cases h
        | cons a rest =>
          dsimp only at h
          cases hr : r a with
          | error u => rw [hr] at h; cases h
          | ok ty =>
            rw [hr] at h
            dsimp only at h
            rw [exbind] at h
            obtain ⟨⟨m1, c1⟩, h1, h⟩ := h
            dsimp only at h
            rw [exbind] at h
            obtain ⟨⟨m2, c2⟩, h2, h⟩ := h
            dsimp only at h
            cases h
            exact ih m1 (i + 1) _ _ h2
              (replaceConstant_CSP i2 m x v false (some ty) m1 c1 h1 h0)

theorem rudcGo_err (r : Resolver) :
    ∀ (fuel : Nat) (m : ModuleNode) (i : Nat) (e : FoldErr),
      rudcGo r m i fuel = .error e →
      e = .typeResolution ∨ e = .indexErr := by
  intro fuel
  induction fuel with
  | zero =>
    intro m i e h
    simp only [rudcGo] at h
    cases h
  | succ f ih =>
    intro m i e h
    simp only [rudcGo] at h
    cases hg : m.body.get? i with
    | none => rw [hg] at h; cases h
    | some s =>
      rw [hg] at h
      dsimp only at h
      cases hm : matchConstDecl s with
      | none =>
        rw [hm] at h
        exact ih m (i + 1) e h
      | some triple =>
        rw [hm] at h
        obtain ⟨x, args, v⟩ := triple
        cases args with
        | nil =>
          dsimp only at h
          cases h
          exact .inr rfl
        | cons a rest =>
          dsimp only at h
          cases hr : r a with
          | error u =>
            rw [hr] at h
            cases h
            exact .inl rfl
          | ok ty =>
            rw [hr] at h
            dsimp only at h
            obtain ⟨⟨m1, c1⟩, h1⟩ :=
              replaceConstant_OK m x v false (some ty) (.inl rfl)
            rw [h1, exbind_ok] at h
            dsimp only at h
            cases hk : rudcGo r m1 (i + 1) f with
            | error e2 =>
              rw [hk, exbind_err] at h
              cases h
              exact ih m1 (i + 1) _ hk
            | ok p =>
              obtain ⟨m2, c2⟩ := p
              rw [hk, exbind_ok] at h
              dsimp only at h
              cases h

theorem replaceUserDefinedConstants_MU (r : Resolver) (m : ModuleNode)
    (m' : ModuleNode) (n : Nat)
    (h : replaceUserDefinedConstants r m = .ok (m', n)) :
    measureModule m' + n ≤ measureModule m ∧ (n = 0 → m' = m) :=
  rudcGo_MU r m.body.length m 0 m' n h

theorem replaceUserDefinedConstants_CSP (i2 : String) (r : Resolver)
    (m : ModuleNode) (m' : ModuleNode) (n : Nat)
    (h : replaceUserDefinedConstants r m = .ok (m', n))
    (h0 : csModule i2 m = 0) : csModule i2 m' = 0 :=
  rudcGo_CSP i2 r m.body.length m 0 m' n h h0

theorem replaceUserDefinedConstants_err (r : Resolver) (m : ModuleNode)
    (e : FoldErr) (h : replaceUserDefinedConstants r m = .error e) :
    e = .typeResolution ∨ e = .indexErr :=
  rudcGo_err r m.body.length m 0 e h

theorem sweep_MU (d : DispatchTable) (r : Resolver) (m : ModuleNode)
    (m' : ModuleNode) (n : Nat) (h : sweep d r m = .ok (m', n)) :
    measureModule m' + n ≤ measureModule m ∧ (n = 0 → m' = m) := by
  simp only [sweep] at h
  rw [exbind] at h
  obtain ⟨⟨m1, n1⟩, h1, h⟩ := h
  dsimp only at h
  rcases hL : replaceLiteralOps m1 with ⟨m2, n2⟩
  rw [hL] at h
  dsimp only at h
  rcases hS : replaceSubscripts m2 with ⟨m3, n3⟩
  rw [hS] at h
  dsimp only at h
  rcases hB : replaceBuiltinFunctions d m3 with ⟨m4, n4⟩
  rw [hB] at h
  dsimp only at h
  cases h
  obtain ⟨a1, b1⟩ := replaceUserDefinedConstants_MU r m m1 n1 h1
  have a2 := replaceLiteralOps_MU m1
  have b2 := replaceLiteralOps_C0 m1
  rw [hL] at a2 b2
  have a3 := replaceSubscripts_MU m2
  have b3 := replaceSubscripts_C0 m2
  rw [hS] at a3 b3
  have a4 := replaceBuiltinFunctions_MU d m3
  have b4 := replaceBuiltinFunctions_C0 d m3
  rw [hB] at a4 b4
  dsimp only at a2 b2 a3 b3 a4 b4
  refine ⟨by omega, fun h0 => ?_⟩
  rw [b4 (by omega), b3 (by omega), b2 (by omega), b1 (by omega)]

theorem sweep_CSP (i2 : String) (d : DispatchTable) (r : Resolver)
    (m : ModuleNode) (m' : ModuleNode) (n : Nat)
    (h : sweep d r m = .ok (m', n)) (h0 : csModule i2 m = 0) :
    csModule i2 m' = 0 := by
  simp only [sweep] at h
  rw [exbind] at h
  obtain ⟨⟨m1, n1⟩, h1, h⟩ := h
  dsimp only at h
  rcases hL : replaceLiteralOps m1 with ⟨m2, n2⟩
  rw [hL] at h
  dsimp only at h
  rcases hS : replaceSubscripts m2 with ⟨m3, n3⟩
  rw [hS] at h
  dsimp only at h
  rcases hB : replaceBuiltinFunctions d m3 with ⟨m4, n4⟩
  rw [hB] at h
  dsimp only at h
  cases h
  have c1 := replaceUserDefinedConstants_CSP i2 r m m1 n1 h1 h0
  have c2 := replaceLiteralOps_CS i2 m1 c1
  rw [hL] at c2
  have c3 := replaceSubscripts_CS i2 m2 c2
  rw [hS] at c3
  have c4 := replaceBuiltinFunctions_CS d i2 m3 c3
  rw [hB] at c4
  exact c4

theorem sweep_err (d : DispatchTable) (r : Resolver) (m : ModuleNode)
    (e : FoldErr) (h : sweep d r m = .error e) :
    e = .typeResolution ∨ e = .indexErr := by
  simp only [sweep] at h
  cases hu : replaceUserDefinedConstants r m with
  | error e1 =>
    rw [hu, exbind_err] at h
    cases h
    exact replaceUserDefinedConstants_err r m _ hu
  | ok p =>
    obtain ⟨m1, n1⟩ := p
    rw [hu, exbind_ok] at h
    dsimp only at h
    rcases hL : replaceLiteralOps m1 with ⟨m2, n2⟩
    rw [hL] at h
    dsimp only at h
    rcases hS : replaceSubscripts m2 with ⟨m3, n3⟩
    rw [hS] at h
    dsimp only at h
    rcases hB : replaceBuiltinFunctions d m3 with ⟨m4, n4⟩
    rw [hB] at h
    dsimp only at h
    cases h

theorem foldLoopAux_ge (d : DispatchTable) (r : Resolver) :
    ∀ (fuel : Nat) (m : ModuleNode), measureModule m + 1 ≤ fuel →
      foldLoopAux d r fuel m = foldLoopAux d r (measureModule m + 1) m := by
  intro fuel
  induction fuel using Nat.strong_induction_on with
  | _ fuel ih =>
    intro m hf
    obtain ⟨f, rfl⟩ : ∃ f, fuel = f + 1 := ⟨fuel - 1, by omega⟩
    simp only [foldLoopAux]
    cases hs : sweep d r m with
    | error e => rfl
    | ok p =>
      obtain ⟨m', n⟩ := p
      simp only [exbind_ok]
      by_cases hn : n = 0
      · simp only [if_pos hn]
      · simp only [if_neg hn]
        obtain ⟨a1, _⟩ := sweep_MU d r m m' n hs
        have e1 : foldLoopAux d r f m' =
            foldLoopAux d r (measureModule m' + 1) m' :=
          ih f (by omega) m' (by omega)
        have e2 : foldLoopAux d r (measureModule m) m' =
            foldLoopAux d r (measureModule m' + 1) m' :=
          ih (measureModule m) (by omega) m' (by omega)
        rw [e1, e2]

theorem foldLoopAux_err (d : DispatchTable) (r : Resolver) :
    ∀ (fuel : Nat) (m : ModuleNode) (e : FoldErr),
      foldLoopAux d r fuel m = .error e →
      e = .typeResolution ∨ e = .indexErr := by
  intro fuel
  induction fuel with
  | zero => intro m e h; cases h
  | succ f ih =>
    intro m e h
    simp only [foldLoopAux] at h
    cases hs : sweep d r m with
    | error e1 =>
      rw [hs, exbind_err] at h
      cases h
      exact sweep_err d r m _ hs
    | ok p =>
      obtain ⟨m', n⟩ := p
      rw [hs, exbind_ok] at h
      dsimp only at h
      by_cases hn : n = 0
      · rw [if_pos hn] at h; cases h
      · rw [if_neg hn] at h
        exact ih m' e h

theorem foldLoopAux_last (d : DispatchTable) (r : Resolver) :
    ∀ (fuel : Nat) (m : ModuleNode) (mf : ModuleNode),
      measureModule m + 1 ≤ fuel → foldLoopAux d r fuel m = .ok mf →
      sweep d r mf = .ok (mf, 0) := by
  intro fuel
  induction fuel using Nat.strong_induction_on with
  | _ fuel ih =>
    intro m mf hf h
    obtain ⟨f, rfl⟩ : ∃ f, fuel = f + 1 := ⟨fuel - 1, by omega⟩
    simp only [foldLoopAux] at h
    cases hs : sweep d r m with
    | error e => rw [hs, exbind_err] at h; cases h
    | ok p =>
      obtain ⟨m', n⟩ := p
      rw [hs, exbind_ok] at h
      dsimp only at h
      by_cases hn : n = 0
      · rw [if_pos hn] at h
        cases h
        subst hn
        obtain ⟨_, b⟩ := sweep_MU d r m mf 0 hs
        rw [b rfl] at hs ⊢
        exact hs
      · rw [if_neg hn] at h
        obtain ⟨a1, _⟩ := sweep_MU d r m m' n hs
        exact ih f (by omega) m' mf (by omega) h

theorem foldLoopAux_CSP (i2 : String) (d : DispatchTable) (r : Resolver) :
    ∀ (fuel : Nat) (m : ModuleNode) (mf : ModuleNode),
      foldLoopAux d r fuel m = .ok mf → csModule i2 m = 0 →
      csModule i2 mf = 0 := by
  intro fuel
  induction fuel with
  | zero =>
    intro m mf h h0
    simp only [foldLoopAux] at h
    cases h
    exact h0
  | succ f ih =>
    intro m mf h h0
    simp only [foldLoopAux] at h
    cases hs : sweep d r m with
    | error e => rw [hs, exbind_err] at h; cases h
    | ok p =>
      obtain ⟨m', n⟩ := p
      rw [hs, exbind_ok] at h
      dsimp only at h
      have hcs := sweep_CSP i2 d r m m' n hs h0
      by_cases hn : n = 0
      · rw [if_pos hn] at h
        cases h
        exact hcs
      · rw [if_neg hn] at h
        exact ih m' mf h hcs

theorem foldLoopAux_iter (d : DispatchTable) (r : Resolver) :
    ∀ (fuel : Nat) (m : ModuleNode) (mf : ModuleNode),
      measureModule m + 1 ≤ fuel → foldLoopAux d r fuel m = .ok mf →
      ∃ k, (∀ j, j < k → ∃ p, sweepIter d r j m = .ok p ∧ p.2 ≠ 0) ∧
        sweepIter d r k m = .ok (mf, 0) := by
  intro fuel
  induction fuel using Nat.strong_induction_on with
  | _ fuel ih =>
    intro m mf hf h
    obtain ⟨f, rfl⟩ : ∃ f, fuel = f + 1 := ⟨fuel - 1, by omega⟩
    simp only [foldLoopAux] at h
    cases hs : sweep d r m with
    | error e => rw [hs, exbind_err] at h; cases h
    | ok p =>
      obtain ⟨m', n⟩ := p
      rw [hs, exbind_ok] at h
      dsimp only at h
      by_cases hn : n = 0
      · rw [if_pos hn] at h
        cases h
        subst hn
        exact ⟨0, fun j hj => absurd hj (by omega), by
          simp only [sweepIter, hs]⟩
      · rw [if_neg hn] at h
        obtain ⟨a1, _⟩ := sweep_MU d r m m' n hs
        obtain ⟨k, hprev, hlast⟩ := ih f (by omega) m' mf (by omega) h
        refine ⟨k + 1, fun j hj => ?_, by simp only [sweepIter, hs]; exact hlast⟩
        cases j with
        | zero => exact ⟨(m', n), by simp only [sweepIter, hs], hn⟩
        | succ j0 =>
          obtain ⟨p0, hp0, hp0n⟩ := hprev j0 (by omega)
          exact ⟨p0, by simp only [sweepIter, hs]; exact hp0, hp0n⟩

theorem builtin_constants_const :
    ∀ p ∈ BUILTIN_CONSTANTS, p.2.isConstant = true := by
  intro p hp
  simp only [BUILTIN_CONSTANTS, List.mem_cons, List.not_mem_nil,
    or_false] at hp
  rcases hp with h | h | h | h | h | h | h <;> subst h <;> rfl

theorem rbcList_ok :
    ∀ (L : List (String × Expr)) (m : ModuleNode),
      (∀ p ∈ L, p.2.isConstant = true) → ∃ m0, rbcList L m = .ok m0 := by
  intro L
  induction L with
  | nil => exact fun m _ => ⟨m, rfl⟩
  | cons p rest ih =>
    intro m hL
    obtain ⟨nm, c⟩ := p
    obtain ⟨⟨m1, c1⟩, h1⟩ := replaceConstant_OK m nm (some c) true none
      (.inr ⟨c, rfl, hL (nm, c) (by simp)⟩)
    obtain ⟨m0, h2⟩ := ih m1 (fun q hq => hL q (by simp [hq]))
    exact ⟨m0, by simp only [rbcList, h1, exbind_ok]; exact h2⟩

theorem rbcList_CSP (i2 : String) :
    ∀ (L : List (String × Expr)) (m : ModuleNode) (m0 : ModuleNode),
      rbcList L m = .ok m0 → csModule i2 m = 0 → csModule i2 m0 = 0 := by
  intro L
  induction L with
  | nil =>
    intro m m0 h h0
    simp only [rbcList] at h
    cases h
    exact h0
  | cons p rest ih =>
    intro m m0 h h0
    obtain ⟨nm, c⟩ := p
    simp only [rbcList] at h
    cases h1 : replaceConstant m nm (some c) true none with
    | error e => rw [h1, exbind_err] at h; cases h
    | ok q =>
      obtain ⟨m1, c1⟩ := q
      rw [h1, exbind_ok] at h
      dsimp only at h
      exact ih m1 m0 h (replaceConstant_CSP i2 m nm (some c) true none m1 c1 h1 h0)

theorem rbcList_CSC :
    ∀ (L : List (String × Expr)) (m : ModuleNode) (m0 : ModuleNode),
      rbcList L m = .ok m0 → (∀ p ∈ L, p.2.isConstant = true) →
      ∀ p ∈ L, csModule p.1 m0 = 0 := by
  intro L
  induction L with
  | nil => intro m m0 h hc p hp; cases hp
  | cons q rest ih =>
    intro m m0 h hc p hp
    obtain ⟨nm, c⟩ := q
    simp only [rbcList] at h
    cases h1 : replaceConstant m nm (some c) true none with
    | error e => rw [h1, exbind_err] at h; cases h
    | ok w =>
      obtain ⟨m1, c1⟩ := w
      rw [h1, exbind_ok] at h
      dsimp only at h
      rcases List.mem_cons.mp hp with hph | hpt
      · subst hph
        exact rbcList_CSP nm rest m1 m0 h
          (replaceConstant_CSC m nm c (hc (nm, c) (by simp)) true none m1 c1 h1)
      · exact ih m1 m0 h (fun w hw => hc w (by simp [hw])) p hpt

theorem rbcList_NOOP :
    ∀ (L : List (String × Expr)) (m : ModuleNode),
      (∀ p ∈ L, csModule p.1 m = 0) → rbcList L m = .ok m := by
  intro L
  induction L with
  | nil => intro m _; rfl
  | cons q rest ih =>
    intro m h0
    obtain ⟨nm, c⟩ := q
    have h1 := replaceConstant_NOOP m nm (some c) true none
      (h0 (nm, c) (by simp))
    simp only [rbcList, h1, exbind_ok]
    exact ih m (fun w hw => h0 w (by simp [hw]))

theorem replaceBuiltinConstants_ok (m : ModuleNode) :
    ∃ m0, replaceBuiltinConstants m = .ok m0 :=
  rbcList_ok BUILTIN_CONSTANTS m builtin_constants_const

theorem replaceBuiltinConstants_CSC (m : ModuleNode) (m0 : ModuleNode)
    (h : replaceBuiltinConstants m = .ok m0) :
    ∀ p ∈ BUILTIN_CONSTANTS, csModule p.1 m0 = 0 :=
  rbcList_CSC BUILTIN_CONSTANTS m m0 h builtin_constants_const

theorem replaceBuiltinConstants_NOOP (m : ModuleNode)
    (h0 : ∀ p ∈ BUILTIN_CONSTANTS, csModule p.1 m = 0) :
    replaceBuiltinConstants m = .ok m :=
  rbcList_NOOP BUILTIN_CONSTANTS m h0

theorem Expr.meta_withMeta (m : NodeMeta) (e : Expr) :
    (e.withMeta m).meta = m := by
  cases e <;> rfl

theorem Expr.pos_withMeta (m : NodeMeta) (e : Expr) :
    (e.withMeta m).pos = m.pos := by
  cases e <;> rfl

theorem Expr.isConstant_withMeta (m : NodeMeta) (e : Expr) :
    (e.withMeta m).isConstant = e.isConstant := by
  cases e <;> rfl

mutual
theorem replaceNodeSome_prov (old new : Expr) (t : Option TypeDesc)
    (r : Expr) (h : replaceNodeSome old new t = some r) :
    InheritsProv old.pos t r := by
  cases new with
  | listE es m =>
    simp only [replaceNodeSome, Expr.isConstant, Bool.false_eq_true,
      if_false] at h
    cases hl : replaceNodeList old es (t.bind TypeDesc.valueTypeOf) with
    | none => rw [hl] at h; cases h
    | some es' =>
      rw [hl] at h
      cases h
      exact .list es' t ⟨old.pos, t⟩ rfl rfl
        (replaceNodeList_prov old es (t.bind TypeDesc.valueTypeOf) es' hl)
  | intL v m =>
    simp only [replaceNodeSome, Expr.isConstant, if_true,
      Option.some.injEq] at h
    rw [← h]
    exact .const _ t (by rw [Expr.isConstant_withMeta]; rfl)
      (by rw [Expr.pos_withMeta]) (by rw [Expr.meta_withMeta])
  | decimalL v m =>
    simp only [replaceNodeSome, Expr.isConstant, if_true,
      Option.some.injEq] at h
    rw [← h]
    exact .const _ t (by rw [Expr.isConstant_withMeta]; rfl)
      (by rw [Expr.pos_withMeta]) (by rw [Expr.meta_withMeta])
  | hexL s m =>
    simp only [replaceNodeSome, Expr.isConstant, if_true,
      Option.some.injEq] at h
    rw [← h]
    exact .const _ t (by rw [Expr.isConstant_withMeta]; rfl)
      (by rw [Expr.pos_withMeta]) (by rw [Expr.meta_withMeta])
  | boolL b m =>
    simp only [replaceNodeSome, Expr.isConstant, if_true,
      Option.some.injEq] at h
    rw [← h]
    exact .const _ t (by rw [Expr.isConstant_withMeta]; rfl)
      (by rw [Expr.pos_withMeta]) (by rw [Expr.meta_withMeta])
  | strL s m =>
    simp only [replaceNodeSome, Expr.isConstant, if_true,
      Option.some.injEq] at h
    rw [← h]
    exact .const _ t (by rw [Expr.isConstant_withMeta]; rfl)
      (by rw [Expr.pos_withMeta]) (by rw [Expr.meta_withMeta])
  | bytesL s m =>
    simp only [replaceNodeSome, Expr.isConstant, if_true,
      Option.some.injEq] at h
    rw [← h]
    exact .const _ t (by rw [Expr.isConstant_withMeta]; rfl)
      (by rw [Expr.pos_withMeta]) (by rw [Expr.meta_withMeta])
  | name s m => simp [replaceNodeSome, Expr.isConstant] at h
  | dictE ps m => simp [replaceNodeSome, Expr.isConstant] at h
  | call f args m => simp [replaceNodeSome, Expr.isConstant] at h
  | binop op l rr m => simp [replaceNodeSome, Expr.isConstant] at h
  | unaryop op e m => simp [replaceNodeSome, Expr.isConstant] at h
  | boolop op vs m => simp [replaceNodeSome, Expr.isConstant] at h
  | compare op l rr m => simp [replaceNodeSome, Expr.isConstant] at h
  | subscript v s m => simp [replaceNodeSome, Expr.isConstant] at h
  | index v m => simp [replaceNodeSome, Expr.isConstant] at h

theorem replaceNodeList_prov (old : Expr) (es : ExprList)
    (t : Option TypeDesc) (es' : ExprList)
    (h : replaceNodeList old es t = some es') :
    InheritsProvList old.pos t es' := by
  cases es with
  | nil =>
    simp only [replaceNodeList, Option.some.injEq] at h
    rw [← h]
    exact .nil t
  | cons e rest =>
    simp only [replaceNodeList] at h
    cases he : replaceNodeSome old e t with
    | none => rw [he] at h; cases h
    | some e1 =>
      cases hr : replaceNodeList old rest t with
      | none => rw [he, hr] at h; cases h
      | some rest1 =>
        rw [he, hr] at h
        cases h
        exact .cons t e1 rest1 (replaceNodeSome_prov old e t e1 he)
          (replaceNodeList_prov old rest t rest1 hr)
end

/-- C7: every node `_replace` substitutes for a constant reference
inherits the replaced node's source-position metadata and carries the
resolved type descriptor in its type metadata slot when one was resolved;
when the constant's value is a list literal, the declared element type
(`value_type`) is set recursively on each produced element and the full
descriptor on the list node itself (the `InheritsProv` predicate,
written from the spec's words). -/
theorem claim_C7 (old : Expr) (new : Option Expr) (t : Option TypeDesc)
    (r : Expr) (h : replaceNode old new t = some r) :
    InheritsProv old.pos t r := by
  cases new with
  | none => cases h
  | some nn => exact replaceNodeSome_prov old nn t r h

theorem claim_C7_witness :
    InheritsProv 3 (some (.arr "int128[2]" (.base "int128")))
      (Expr.listE
        (.cons (.intL 1 ⟨3, some (.base "int128")⟩)
          (.cons (.intL 2 ⟨3, some (.base "int128")⟩) .nil))
        ⟨3, some (.arr "int128[2]" (.base "int128"))⟩) :=
  claim_C7 (.name "ARR" ⟨3, none⟩)
    (some (.listE
      (.cons (.intL 1 ⟨7, none⟩) (.cons (.intL 2 ⟨8, none⟩) .nil))
      ⟨9, none⟩))
    (some (.arr "int128[2]" (.base "int128"))) _ (by rfl)

/-- C10: `AddressPrimitive.from_literal` on a `Hex` literal returns an
`AddressDefinition` exactly when the hex string is 42 characters long and
equals its own checksum encoding; it raises the user-facing
`InvalidLiteral` when the length is not 42, and the internal
`CompilerPanic` when the length is 42 but the checksum mismatches. -/
theorem claim_C10 (checksum_encode : String → String) (addr : String) :
    (AddressPrimitive_from_literal checksum_encode addr =
        .addressDefinition ↔
      addr.length = 42 ∧ checksum_encode addr = addr) ∧
    (addr.length ≠ 42 →
      AddressPrimitive_from_literal checksum_encode addr =
        .invalidLiteral) ∧
    (addr.length = 42 → checksum_encode addr ≠ addr →
      AddressPrimitive_from_literal checksum_encode addr =
        .compilerPanic) := by
  unfold AddressPrimitive_from_literal
  by_cases h1 : addr.length = 42 <;>
    by_cases h2 : checksum_encode addr = addr <;>
      simp [h1, h2]

theorem claim_C10_witness :
    AddressPrimitive_from_literal (fun s => s)
      "0x0000000000000000000000000000000000000000" = .addressDefinition :=
  (claim_C10 (fun s => s)
    "0x0000000000000000000000000000000000000000").1.mpr ⟨by decide, rfl⟩

/-- C3, counterexample: a builtin constant used as a call target does not
raise a fatal internal error out of `fold` — `replace_builtin_constants`
silently skips it (the call-target guard `continue`s before `_replace` is
tried, so `raise_on_error=True` never fires) and `fold` returns the tree
with the call intact. -/
theorem claim_C3_counterexample :
    replaceBuiltinConstants
      ⟨.cons (.exprStmt (.call (.name "EMPTY_BYTES32" ⟨1, none⟩) .nil
        ⟨2, none⟩)) .nil⟩ =
      .ok ⟨.cons (.exprStmt (.call (.name "EMPTY_BYTES32" ⟨1, none⟩) .nil
        ⟨2, none⟩)) .nil⟩ ∧
    fold (fun _ => none) (fun _ => .ok (.base "int128"))
      ⟨.cons (.exprStmt (.call (.name "EMPTY_BYTES32" ⟨1, none⟩) .nil
        ⟨2, none⟩)) .nil⟩ =
      .ok ⟨.cons (.exprStmt (.call (.name "EMPTY_BYTES32" ⟨1, none⟩) .nil
        ⟨2, none⟩)) .nil⟩ := by
  constructor
  · rfl
  · rfl

/-- C3, amended: `replace_builtin_constants` substitutes every reference
to a builtin constant name in a value position — after the pass no
substitutable reference to any table entry remains — and it never raises:
a reference used as a call target is silently skipped, because the three
guards `continue` before `_replace` is tried and the builtin replacement
nodes are always `Constant`, so the `raise_on_error=True` path cannot
fire. -/
theorem claim_C3_amended (m : ModuleNode) :
    ∃ m0, replaceBuiltinConstants m = .ok m0 ∧
      ∀ p ∈ BUILTIN_CONSTANTS, csModule p.1 m0 = 0 := by
  obtain ⟨m0, h⟩ := replaceBuiltinConstants_ok m
  exact ⟨m0, h, replaceBuiltinConstants_CSC m m0 h⟩

/-- C4: no pass increases the count of non-literal evaluable nodes
(`measureModule`); each pass's changed-node count is bounded by the
measure decrease, so a sweep with a nonzero count strictly decreases the
measure, and the while-loop reaches its fixed point within
`measureModule m + 1` sweeps — any fuel at least that large yields the
same result, i.e. `fold` terminates on every finite tree. -/
theorem claim_C4 (d : DispatchTable) (r : Resolver) (m : ModuleNode) :
    (∀ m' n, replaceUserDefinedConstants r m = .ok (m', n) →
      measureModule m' + n ≤ measureModule m) ∧
    measureModule (replaceLiteralOps m).1 + (replaceLiteralOps m).2 ≤
      measureModule m ∧
    measureModule (replaceSubscripts m).1 + (replaceSubscripts m).2 ≤
      measureModule m ∧
    measureModule (replaceBuiltinFunctions d m).1 +
      (replaceBuiltinFunctions d m).2 ≤ measureModule m ∧
    (∀ m' n, sweep d r m = .ok (m', n) →
      measureModule m' + n ≤ measureModule m ∧
        (n ≠ 0 → measureModule m' < measureModule m)) ∧
    (∀ fuel, measureModule m + 1 ≤ fuel →
      foldLoopAux d r fuel m = foldLoopAux d r (measureModule m + 1) m) := by
  refine ⟨?_, replaceLiteralOps_MU m, replaceSubscripts_MU m,
    replaceBuiltinFunctions_MU d m, ?_, ?_⟩
  · intro m' n h
    exact (replaceUserDefinedConstants_MU r m m' n h).1
  · intro m' n h
    obtain ⟨a, _⟩ := sweep_MU d r m m' n h
    exact ⟨a, fun hn => by omega⟩
  · intro fuel hf
    exact foldLoopAux_ge d r fuel m hf

theorem claim_C4_witness :
    measureModule
      ⟨.cons (.exprStmt (.binop .add (.intL 1 ⟨1, none⟩)
        (.intL 2 ⟨2, none⟩) ⟨0, none⟩)) .nil⟩ = 1 ∧
    foldLoopAux (fun _ => none) (fun _ => .ok (.base "int128")) 7
      ⟨.cons (.exprStmt (.binop .add (.intL 1 ⟨1, none⟩)
        (.intL 2 ⟨2, none⟩) ⟨0, none⟩)) .nil⟩ =
      foldLoopAux (fun _ => none) (fun _ => .ok (.base "int128")) 2
      ⟨.cons (.exprStmt (.binop .add (.intL 1 ⟨1, none⟩)
        (.intL 2 ⟨2, none⟩) ⟨0, none⟩)) .nil⟩ :=
  ⟨by rfl,
    (claim_C4 (fun _ => none) (fun _ => .ok (.base "int128"))
      ⟨.cons (.exprStmt (.binop .add (.intL 1 ⟨1, none⟩)
        (.intL 2 ⟨2, none⟩) ⟨0, none⟩)) .nil⟩).2.2.2.2.2 7 (by decide)⟩

/-- C6: `UnfoldableNode` never propagates to the caller of `fold`: the
evaluate passes catch it per node (their evaluators return a skip), the
user-defined-constant pass calls the substitutor with
`raise_on_error=False` so it never contributes an `unfoldable` error, and
`fold`'s only possible errors are the fatal type-resolution and
index errors of the constant-declaration scan. -/
theorem claim_C6 (d : DispatchTable) (r : Resolver) (m : ModuleNode) :
    fold d r m ≠ .error .unfoldable ∧
    (∀ e, replaceUserDefinedConstants r m = .error e → e ≠ .unfoldable) ∧
    (∀ id_ repl t, ∃ p, replaceConstant m id_ repl false t = .ok p) := by
  refine ⟨?_, ?_, ?_⟩
  · intro hcon
    simp only [fold] at hcon
    obtain ⟨m0, hb⟩ := replaceBuiltinConstants_ok m
    rw [hb, exbind_ok] at hcon
    rcases foldLoopAux_err d r (measureModule m0 + 1) m0 .unfoldable hcon
      with h | h <;> cases h
  · intro e he
    rcases replaceUserDefinedConstants_err r m e he with h | h <;>
      (subst h; intro hcon; cases hcon)
  · intro id_ repl t
    exact replaceConstant_OK m id_ repl false t (.inl rfl)

theorem claim_C6_witness :
    fold (fun _ => none) (fun _ => .ok (.base "int128"))
      ⟨.cons (.annAssign (.name "x" ⟨1, none⟩)
        (.call (.name "constant" ⟨2, none⟩) .nil ⟨3, none⟩)
        (some (.intL 5 ⟨4, none⟩))) .nil⟩ ≠
      .error .unfoldable ∧
    FoldErr.indexErr ≠ FoldErr.unfoldable :=
  ⟨(claim_C6 (fun _ => none) (fun _ => .ok (.base "int128"))
      ⟨.cons (.annAssign (.name "x" ⟨1, none⟩)
        (.call (.name "constant" ⟨2, none⟩) .nil ⟨3, none⟩)
        (some (.intL 5 ⟨4, none⟩))) .nil⟩).1,
    (claim_C6 (fun _ => none) (fun _ => .ok (.base "int128"))
      ⟨.cons (.annAssign (.name "x" ⟨1, none⟩)
        (.call (.name "constant" ⟨2, none⟩) .nil ⟨3, none⟩)
        (some (.intL 5 ⟨4, none⟩))) .nil⟩).2.1 .indexErr (by rfl)⟩

/-- C1: on every successful run, `fold` first performs builtin-constant
substitution exactly once, then repeatedly runs the four-pass group
(user-defined-constant substitution, literal-operator evaluation,
subscript evaluation, builtin-call evaluation, in that fixed order,
summing their changed-node counts — the `sweep` function), stopping
exactly when one full group returns a summed count of zero: every earlier
group returned a nonzero count and the final group returns the result
module with count zero. -/
theorem claim_C1 (d : DispatchTable) (r : Resolver) (m mf : ModuleNode)
    (h : fold d r m = .ok mf) :
    ∃ m0, replaceBuiltinConstants m = .ok m0 ∧
      ∃ k, (∀ j, j < k → ∃ p, sweepIter d r j m0 = .ok p ∧ p.2 ≠ 0) ∧
        sweepIter d r k m0 = .ok (mf, 0) := by
  simp only [fold] at h
  cases hb : replaceBuiltinConstants m with
  | error e => rw [hb, exbind_err] at h; cases h
  | ok m0 =>
    rw [hb, exbind_ok] at h
    exact ⟨m0, rfl,
      foldLoopAux_iter d r (measureModule m0 + 1) m0 mf (le_refl _) h⟩

theorem claim_C1_witness :
    ∃ m0, replaceBuiltinConstants
        ⟨.cons (.exprStmt (.binop .add (.intL 1 ⟨1, none⟩)
          (.intL 2 ⟨2, none⟩) ⟨0, none⟩)) .nil⟩ = .ok m0 ∧
      ∃ k, (∀ j, j < k →
          ∃ p, sweepIter (fun _ => none)
            (fun _ => .ok (.base "int128")) j m0 = .ok p ∧ p.2 ≠ 0) ∧
        sweepIter (fun _ => none) (fun _ => .ok (.base "int128")) k m0 =
          .ok (⟨.cons (.exprStmt (.intL 3 ⟨0, none⟩)) .nil⟩, 0) :=
  claim_C1 (fun _ => none) (fun _ => .ok (.base "int128"))
    ⟨.cons (.exprStmt (.binop .add (.intL 1 ⟨1, none⟩)
      (.intL 2 ⟨2, none⟩) ⟨0, none⟩)) .nil⟩
    ⟨.cons (.exprStmt (.intL 3 ⟨0, none⟩)) .nil⟩ (by rfl)

/-- C5: `fold` is idempotent — if `fold` succeeds with result `mf`, then
one more sweep of the four passes on `mf` changes nothing (count zero and
the module unchanged), builtin-constant substitution on `mf` changes
nothing, and a second `fold` run returns `mf` unchanged. -/
theorem claim_C5 (d : DispatchTable) (r : Resolver) (m mf : ModuleNode)
    (h : fold d r m = .ok mf) :
    sweep d r mf = .ok (mf, 0) ∧
    replaceBuiltinConstants mf = .ok mf ∧
    fold d r mf = .ok mf := by
  simp only [fold] at h
  cases hb : replaceBuiltinConstants m with
  | error e => rw [hb, exbind_err] at h; cases h
  | ok m0 =>
    rw [hb, exbind_ok] at h
    have hlast := foldLoopAux_last d r (measureModule m0 + 1) m0 mf
      (le_refl _) h
    have hcs : ∀ p ∈ BUILTIN_CONSTANTS, csModule p.1 mf = 0 := by
      intro p hp
      exact foldLoopAux_CSP p.1 d r (measureModule m0 + 1) m0 mf h
        (replaceBuiltinConstants_CSC m m0 hb p hp)
    have hrbc := replaceBuiltinConstants_NOOP mf hcs
    refine ⟨hlast, hrbc, ?_⟩
    simp only [fold, hrbc, exbind_ok]
    simp only [foldLoopAux, hlast, exbind_ok]
    simp

theorem claim_C5_witness :
    sweep (fun _ => none) (fun _ => .ok (.base "int128"))
      ⟨.cons (.exprStmt (.intL 3 ⟨0, none⟩)) .nil⟩ =
      .ok (⟨.cons (.exprStmt (.intL 3 ⟨0, none⟩)) .nil⟩, 0) ∧
    replaceBuiltinConstants ⟨.cons (.exprStmt (.intL 3 ⟨0, none⟩)) .nil⟩ =
      .ok ⟨.cons (.exprStmt (.intL 3 ⟨0, none⟩)) .nil⟩ ∧
    fold (fun _ => none) (fun _ => .ok (.base "int128"))
      ⟨.cons (.exprStmt (.intL 3 ⟨0, none⟩)) .nil⟩ =
      .ok ⟨.cons (.exprStmt (.intL 3 ⟨0, none⟩)) .nil⟩ :=
  claim_C5 (fun _ => none) (fun _ => .ok (.base "int128"))
    ⟨.cons (.exprStmt (.binop .add (.intL 1 ⟨1, none⟩)
      (.intL 2 ⟨2, none⟩) ⟨0, none⟩)) .nil⟩
    ⟨.cons (.exprStmt (.intL 3 ⟨0, none⟩)) .nil⟩ (by rfl)

theorem skipName_callFunc (ctx : List Frame) :
    skipName (.callFunc :: ctx) = true := by
  simp [skipName]

theorem skipName_dictKey (ctx : List Frame) :
    skipName (.dictKey :: ctx) = true := by
  simp [skipName]

theorem skipName_indexValue (ctx : List Frame) :
    skipName (.indexValue :: ctx) = false := by
  simp [skipName, List.contains_cons]

theorem skipName_assignTarget (ctx : List Frame)
    (hno : ctx.contains Frame.indexValue = false) :
    skipName (.assignTarget :: ctx) = true := by
  have h2 : Frame.indexValue ∉ ctx := by simpa using hno
  simp [skipName, List.contains_cons, h2, List.find?, Frame.isAssignFrame,
    Frame.isTargetFrame]

theorem skipName_annTarget (ctx : List Frame)
    (hno : ctx.contains Frame.indexValue = false) :
    skipName (.annTarget :: ctx) = true := by
  have h2 : Frame.indexValue ∉ ctx := by simpa using hno
  simp [skipName, List.contains_cons, h2, List.find?, Frame.isAssignFrame,
    Frame.isTargetFrame]

theorem skipName_augTarget (ctx : List Frame)
    (hno : ctx.contains Frame.indexValue = false) :
    skipName (.augTarget :: ctx) = true := by
  have h2 : Frame.indexValue ∉ ctx := by simpa using hno
  simp [skipName, List.contains_cons, h2, List.find?, Frame.isAssignFrame,
    Frame.isTargetFrame]

theorem rcExpr_name_skip (id_ : String) (repl : Option Expr) (ro : Bool)
    (t : Option TypeDesc) (ctx : List Frame) (mn : NodeMeta)
    (hsk : skipName ctx = true) :
    rcExpr id_ repl ro t ctx (.name id_ mn) = .ok (.name id_ mn, 0) := by
  simp [rcExpr, hsk]

/-- C8: the builtin-call pass considers only `Call` nodes whose callee is
a plain `Name`: when the evaluator fires, the node was such a call, its
name was found in the dispatch table with an evaluate capability, and the
node is replaced by the node the evaluator returns; a callee that is not
a plain name, a name absent from the table, an entry without the
capability, or an evaluator raising `UnfoldableNode` all skip the node
without error; and a pass whose changed-node count is zero replaced
nothing (the count counts exactly the replaced nodes). -/
theorem claim_C8 (d : DispatchTable) :
    (∀ e r, evalBuiltinCallNode d e = some r →
      ∃ s mf args m ev lit, e = .call (.name s mf) args m ∧
        d s = some (some ev) ∧ ev e = some lit ∧ r = lit.toExpr m.pos) ∧
    (∀ f args m, (∀ s mf, f ≠ .name s mf) →
      evalBuiltinCallNode d (.call f args m) = none) ∧
    (∀ s mf args m, d s = none →
      evalBuiltinCallNode d (.call (.name s mf) args m) = none) ∧
    (∀ s mf args m, d s = some none →
      evalBuiltinCallNode d (.call (.name s mf) args m) = none) ∧
    (∀ s mf args m ev, d s = some (some ev) →
      ev (.call (.name s mf) args m) = none →
      evalBuiltinCallNode d (.call (.name s mf) args m) = none) ∧
    (∀ vyper_module : ModuleNode,
      (replaceBuiltinFunctions d vyper_module).2 = 0 →
      (replaceBuiltinFunctions d vyper_module).1 = vyper_module) := by
  refine ⟨?_, ?_, ?_, ?_, ?_, replaceBuiltinFunctions_C0 d⟩
  · intro e r h
    cases e with
    | call f args m =>
      cases f with
      | name s mf =>
        simp only [evalBuiltinCallNode] at h
        cases hd : d s with
        | none => rw [hd] at h; cases h
        | some cap =>
          rw [hd] at h
          cases cap with
          | none => dsimp only at h; cases h
          | some ev =>
            dsimp only at h
            cases hev : ev (.call (.name s mf) args m) with
            | none => rw [hev] at h; cases h
            | some lit =>
              rw [hev] at h
              dsimp only at h
              cases h
              exact ⟨s, mf, args, m, ev, lit, rfl, hd, hev, rfl⟩
      | intL v m2 => simp [evalBuiltinCallNode] at h
      | decimalL v m2 => simp [evalBuiltinCallNode] at h
      | hexL s m2 => simp [evalBuiltinCallNode] at h
      | boolL b m2 => simp [evalBuiltinCallNode] at h
      | strL s m2 => simp [evalBuiltinCallNode] at h
      | bytesL s m2 => simp [evalBuiltinCallNode] at h
      | listE es m2 => simp [evalBuiltinCallNode] at h
      | dictE ps m2 => simp [evalBuiltinCallNode] at h
      | call f2 args2 m2 => simp [evalBuiltinCallNode] at h
      | binop op l rr m2 => simp [evalBuiltinCallNode] at h
      | unaryop op v m2 => simp [evalBuiltinCallNode] at h
      | boolop op vs m2 => simp [evalBuiltinCallNode] at h
      | compare op l rr m2 => simp [evalBuiltinCallNode] at h
      | subscript v sl m2 => simp [evalBuiltinCallNode] at h
      | index v m2 => simp [evalBuiltinCallNode] at h
    | intL v m => cases h
    | decimalL v m => cases h
    | hexL s m => cases h
    | boolL b m => cases h
    | strL s m => cases h
    | bytesL s m => cases h
    | name s m => cases h
    | listE es m => cases h
    | dictE ps m => cases h
    | binop op l rr m => cases h
    | unaryop op v m => cases h
    | boolop op vs m => cases h
    | compare op l rr m => cases h
    | subscript v s m => cases h
    | index v m => cases h
  · intro f args m hf
    cases f with
    | name s mf => exact absurd rfl (hf s mf)
    | intL v m2 => rfl
    | decimalL v m2 => rfl
    | hexL s m2 => rfl
    | boolL b m2 => rfl
    | strL s m2 => rfl
    | bytesL s m2 => rfl
    | listE es m2 => rfl
    | dictE ps m2 => rfl
    | call f2 args2 m2 => rfl
    | binop op l rr m2 => rfl
    | unaryop op v m2 => rfl
    | boolop op vs m2 => rfl
    | compare op l rr m2 => rfl
    | subscript v sl m2 => rfl
    | index v m2 => rfl
  · intro s mf args m hd
    simp [evalBuiltinCallNode, hd]
  · intro s mf args m hd
    simp [evalBuiltinCallNode, hd]
  · intro s mf args m ev hd hev
    simp [evalBuiltinCallNode, hd, hev]

theorem claim_C8_witness :
    (∃ s mf args m ev lit,
      (Expr.call (.name "foo" ⟨1, none⟩) .nil ⟨2, none⟩ : Expr) =
        .call (.name s mf) args m ∧
      (fun s => if s = "foo"
        then some (some (fun _ => some (.intL 7))) else none : DispatchTable)
        s = some (some ev) ∧
      ev (.call (.name "foo" ⟨1, none⟩) .nil ⟨2, none⟩) = some lit ∧
      (Expr.intL 7 ⟨2, none⟩ : Expr) = lit.toExpr m.pos) ∧
    evalBuiltinCallNode
      (fun s => if s = "foo"
        then some (some (fun _ => some (.intL 7))) else none)
      (.call (.subscript (.name "foo" ⟨3, none⟩)
        (.index (.intL 0 ⟨4, none⟩) ⟨5, none⟩) ⟨6, none⟩) .nil ⟨7, none⟩) =
      none :=
  ⟨(claim_C8 (fun s => if s = "foo"
      then some (some (fun _ => some (.intL 7))) else none)).1
    (.call (.name "foo" ⟨1, none⟩) .nil ⟨2, none⟩)
    (.intL 7 ⟨2, none⟩) (by rfl),
   (claim_C8 (fun s => if s = "foo"
      then some (some (fun _ => some (.intL 7))) else none)).2.1
    (.subscript (.name "foo" ⟨3, none⟩)
      (.index (.intL 0 ⟨4, none⟩) ⟨5, none⟩) ⟨6, none⟩) .nil ⟨7, none⟩
    (fun s mf h => by cases h)⟩

/-- C9, counterexample: the claim says an empty annotation argument is
tolerated by using no type, but `node.get("annotation.args")[0]` raises
`IndexError` on a constant declaration `x: constant() = 5` — the pass
(and `fold`) fail with the index error instead of proceeding with no
type. -/
theorem claim_C9_counterexample :
    replaceUserDefinedConstants (fun _ => .ok (.base "int128"))
      ⟨.cons (.annAssign (.name "x" ⟨1, none⟩)
        (.call (.name "constant" ⟨2, none⟩) .nil ⟨3, none⟩)
        (some (.intL 5 ⟨4, none⟩))) .nil⟩ = .error .indexErr ∧
    fold (fun _ => none) (fun _ => .ok (.base "int128"))
      ⟨.cons (.annAssign (.name "x" ⟨1, none⟩)
        (.call (.name "constant" ⟨2, none⟩) .nil ⟨3, none⟩)
        (some (.intL 5 ⟨4, none⟩))) .nil⟩ = .error .indexErr := by
  constructor
  · rfl
  · rfl

/-- C9, amended: for a module-level `AnnAssign` whose target is a bare
`Name` and whose annotation is `constant(<type-expr>)`, the type resolver
is invoked on the first annotation argument and a resolution failure
propagates out of `fold` as a fatal error rather than being caught; an
annotation call with zero arguments raises a fatal index error (the
code's `if constant_annotation else None` fallback is unreachable because
AST nodes are always truthy). -/
theorem claim_C9_amended (r : Resolver) (x : String) (mx mc ma : NodeMeta)
    (a : Expr) (v : Option Expr) (rest : StmtList) :
    (∀ e, r a = .error e →
      replaceUserDefinedConstants r
        ⟨.cons (.annAssign (.name x mx)
          (.call (.name "constant" mc) (.cons a .nil) ma) v) rest⟩ =
        .error .typeResolution) ∧
    replaceUserDefinedConstants r
      ⟨.cons (.annAssign (.name x mx)
        (.call (.name "constant" mc) .nil ma) v) rest⟩ =
      .error .indexErr ∧
    fold (fun _ => none) (fun _ => .error ())
      ⟨.cons (.annAssign (.name "y" ⟨1, none⟩)
        (.call (.name "constant" ⟨2, none⟩)
          (.cons (.name "int128" ⟨3, none⟩) .nil) ⟨4, none⟩)
        (some (.intL 5 ⟨5, none⟩))) .nil⟩ = .error .typeResolution := by
  refine ⟨?_, ?_, by rfl⟩
  · intro e he
    simp only [replaceUserDefinedConstants, StmtList.length, rudcGo,
      StmtList.get?, matchConstDecl, he]
  · simp only [replaceUserDefinedConstants, StmtList.length, rudcGo,
      StmtList.get?, matchConstDecl]

theorem claim_C9_amended_witness :
    replaceUserDefinedConstants (fun _ => .error ())
      ⟨.cons (.annAssign (.name "x" ⟨1, none⟩)
        (.call (.name "constant" ⟨2, none⟩)
          (.cons (.name "int128" ⟨3, none⟩) .nil) ⟨4, none⟩)
        (some (.intL 5 ⟨5, none⟩))) .nil⟩ = .error .typeResolution :=
  (claim_C9_amended (fun _ => .error ()) "x" ⟨1, none⟩ ⟨2, none⟩ ⟨4, none⟩
    (.name "int128" ⟨3, none⟩) (some (.intL 5 ⟨5, none⟩)) .nil).1
    () (by rfl)

theorem skipName_targetCtx (ctx : List Frame)
    (hno : ctx.contains Frame.indexValue = false)
    (hfd : ∃ tf, ctx.find? Frame.isAssignFrame = some tf ∧
      tf.isTargetFrame = true) : skipName ctx = true := by
  obtain ⟨tf, h1, h2⟩ := hfd
  have hno2 : Frame.indexValue ∉ ctx := by simpa using hno
  simp [skipName, h1, h2, hno2]

theorem targetCtx_push (f : Frame) (ctx : List Frame)
    (hf1 : (Frame.indexValue == f) = false)
    (hf2 : f.isAssignFrame = false)
    (hno : ctx.contains Frame.indexValue = false)
    (hfd : ∃ tf, ctx.find? Frame.isAssignFrame = some tf ∧
      tf.isTargetFrame = true) :
    (f :: ctx).contains Frame.indexValue = false ∧
      ∃ tf, (f :: ctx).find? Frame.isAssignFrame = some tf ∧
        tf.isTargetFrame = true := by
  obtain ⟨tf, h1, h2⟩ := hfd
  have hno2 : Frame.indexValue ∉ ctx := by simpa using hno
  have hf12 : ¬Frame.indexValue = f := by simpa using hf1
  constructor
  · simp [List.contains_cons, hf12, hno2]
  · refine ⟨tf, ?_, h2⟩
    rw [List.find?_cons_of_neg _ (by simp [hf2])]
    exact h1

mutual
theorem rcExprEI (id_ : String) (repl : Option Expr) (ro : Bool)
    (t : Option TypeDesc) (ctx : List Frame)
    (hno : ctx.contains Frame.indexValue = false)
    (hfd : ∃ tf, ctx.find? Frame.isAssignFrame = some tf ∧
      tf.isTargetFrame = true) (e : Expr) (e' : Expr) (n : Nat)
    (h : rcExpr id_ repl ro t ctx e = .ok (e', n)) :
    eraseIndexExpr e' = eraseIndexExpr e := by
  cases e with
  | intL v m =>
    simp only [rcExpr] at h
    cases h
    rfl
  | decimalL v m =>
    simp only [rcExpr] at h
    cases h
    rfl
  | hexL s m =>
    simp only [rcExpr] at h
    cases h
    rfl
  | boolL b m =>
    simp only [rcExpr] at h
    cases h
    rfl
  | strL s m =>
    simp only [rcExpr] at h
    cases h
    rfl
  | bytesL s m =>
    simp only [rcExpr] at h
    cases h
    rfl
  | name s m =>
    rcases rcInv_name id_ repl ro t ctx s m e' n h with ⟨he, hn, hrest⟩ |
      ⟨hs, hsk, hrn, hn⟩
    · rw [he]
    · rw [skipName_targetCtx ctx hno hfd] at hsk
      cases hsk
  | index v m =>
    obtain ⟨x1, c1, h1, he, hn⟩ := rcInv_index id_ repl ro t ctx v m e' n h
    rw [he]
    simp only [eraseIndexExpr]
  | listE es m =>
    obtain ⟨x1, c1, h1, he, hn⟩ := rcInv_listE id_ repl ro t ctx es m e' n h
    obtain ⟨hno1, hfd1⟩ := targetCtx_push .listElem ctx (by decide)
      (by decide) hno hfd
    have b1 := rcExprListEI id_ repl ro t (.listElem :: ctx) hno1 hfd1 es x1 c1 h1
    rw [he]
    simp only [eraseIndexExpr, eraseIndexList, eraseIndexPairs, b1]
  | dictE ps m =>
    obtain ⟨x1, c1, h1, he, hn⟩ := rcInv_dictE id_ repl ro t ctx ps m e' n h
    have b1 := rcPairListEI id_ repl ro t ctx hno hfd ps x1 c1 h1
    rw [he]
    simp only [eraseIndexExpr, b1]
  | call f args m =>
    obtain ⟨x1, c1, x2, c2, h1, h2, he, hn⟩ := rcInv_call id_ repl ro t ctx f args m e' n h
    obtain ⟨hno1, hfd1⟩ := targetCtx_push .callFunc ctx (by decide)
      (by decide) hno hfd
    have b1 := rcExprEI id_ repl ro t (.callFunc :: ctx) hno1 hfd1 f x1 c1 h1
    obtain ⟨hno2, hfd2⟩ := targetCtx_push .callArg ctx (by decide)
      (by decide) hno hfd
    have b2 := rcExprListEI id_ repl ro t (.callArg :: ctx) hno2 hfd2 args x2 c2 h2
    rw [he]
    simp only [eraseIndexExpr, eraseIndexList, eraseIndexPairs, b1, b2]
  | binop op l r m =>
    obtain ⟨x1, c1, x2, c2, h1, h2, he, hn⟩ := rcInv_binop id_ repl ro t ctx op l r m e' n h
    obtain ⟨hno1, hfd1⟩ := targetCtx_push .binopL ctx (by decide)
      (by decide) hno hfd
    have b1 := rcExprEI id_ repl ro t (.binopL :: ctx) hno1 hfd1 l x1 c1 h1
    obtain ⟨hno2, hfd2⟩ := targetCtx_push .binopR ctx (by decide)
      (by decide) hno hfd
    have b2 := rcExprEI id_ repl ro t (.binopR :: ctx) hno2 hfd2 r x2 c2 h2
    rw [he]
    simp only [eraseIndexExpr, eraseIndexList, eraseIndexPairs, b1, b2]
  | unaryop op v m =>
    obtain ⟨x1, c1, h1, he, hn⟩ := rcInv_unaryop id_ repl ro t ctx op v m e' n h
    obtain ⟨hno1, hfd1⟩ := targetCtx_push .unaryOperand ctx (by decide)
      (by decide) hno hfd
    have b1 := rcExprEI id_ repl ro t (.unaryOperand :: ctx) hno1 hfd1 v x1 c1 h1
    rw [he]
    simp only [eraseIndexExpr, eraseIndexList, eraseIndexPairs, b1]
  | boolop op vs m =>
    obtain ⟨x1, c1, h1, he, hn⟩ := rcInv_boolop id_ repl ro t ctx op vs m e' n h
    obtain ⟨hno1, hfd1⟩ := targetCtx_push .boolopValue ctx (by decide)
      (by decide) hno hfd
    have b1 := rcExprListEI id_ repl ro t (.boolopValue :: ctx) hno1 hfd1 vs x1 c1 h1
    rw [he]
    simp only [eraseIndexExpr, eraseIndexList, eraseIndexPairs, b1]
  | compare op l r m =>
    obtain ⟨x1, c1, x2, c2, h1, h2, he, hn⟩ := rcInv_compare id_ repl ro t ctx op l r m e' n h
    obtain ⟨hno1, hfd1⟩ := targetCtx_push .compareL ctx (by decide)
      (by decide) hno hfd
    have b1 := rcExprEI id_ repl ro t (.compareL :: ctx) hno1 hfd1 l x1 c1 h1
    obtain ⟨hno2, hfd2⟩ := targetCtx_push .compareR ctx (by decide)
      (by decide) hno hfd
    have b2 := rcExprEI id_ repl ro t (.compareR :: ctx) hno2 hfd2 r x2 c2 h2
    rw [he]
    simp only [eraseIndexExpr, eraseIndexList, eraseIndexPairs, b1, b2]
  | subscript v s m =>
    obtain ⟨x1, c1, x2, c2, h1, h2, he, hn⟩ := rcInv_subscript id_ repl ro t ctx v s m e' n h
    obtain ⟨hno1, hfd1⟩ := targetCtx_push .subscriptValue ctx (by decide)
      (by decide) hno hfd
    have b1 := rcExprEI id_ repl ro t (.subscriptValue :: ctx) hno1 hfd1 v x1 c1 h1
    obtain ⟨hno2, hfd2⟩ := targetCtx_push .subscriptSlice ctx (by decide)
      (by decide) hno hfd
    have b2 := rcExprEI id_ repl ro t (.subscriptSlice :: ctx) hno2 hfd2 s x2 c2 h2
    rw [he]
    simp only [eraseIndexExpr, eraseIndexList, eraseIndexPairs, b1, b2]

theorem rcExprListEI (id_ : String) (repl : Option Expr) (ro : Bool)
    (t : Option TypeDesc) (ctx : List Frame)
    (hno : ctx.contains Frame.indexValue = false)
    (hfd : ∃ tf, ctx.find? Frame.isAssignFrame = some tf ∧
      tf.isTargetFrame = true) (es : ExprList) (es' : ExprList) (n : Nat)
    (h : rcExprList id_ repl ro t ctx es = .ok (es', n)) :
    eraseIndexList es' = eraseIndexList es := by
  cases es with
  | nil =>
    simp only [rcExprList] at h
    cases h
    rfl
  | cons e rest =>
    obtain ⟨x1, c1, x2, c2, h1, h2, he, hn⟩ :=
      rcInv_consE id_ repl ro t ctx e rest es' n h
    have b1 := rcExprEI id_ repl ro t ctx hno hfd e x1 c1 h1
    have b2 := rcExprListEI id_ repl ro t ctx hno hfd rest x2 c2 h2
    rw [he]
    simp only [eraseIndexList, b1, b2]

theorem rcPairListEI (id_ : String) (repl : Option Expr) (ro : Bool)
    (t : Option TypeDesc) (ctx : List Frame)
    (hno : ctx.contains Frame.indexValue = false)
    (hfd : ∃ tf, ctx.find? Frame.isAssignFrame = some tf ∧
      tf.isTargetFrame = true) (ps : PairList) (ps' : PairList) (n : Nat)
    (h : rcPairList id_ repl ro t ctx ps = .ok (ps', n)) :
    eraseIndexPairs ps' = eraseIndexPairs ps := by
  cases ps with
  | nil =>
    simp only [rcPairList] at h
    cases h
    rfl
  | cons k v rest =>
    obtain ⟨x1, c1, x2, c2, x3, c3, h1, h2, h3, he, hn⟩ :=
      rcInv_consP id_ repl ro t ctx k v rest ps' n h
    obtain ⟨hnoK, hfdK⟩ := targetCtx_push .dictKey ctx (by decide)
      (by decide) hno hfd
    obtain ⟨hnoV, hfdV⟩ := targetCtx_push .dictValue ctx (by decide)
      (by decide) hno hfd
    have b1 := rcExprEI id_ repl ro t (.dictKey :: ctx) hnoK hfdK k x1 c1 h1
    have b2 := rcExprEI id_ repl ro t (.dictValue :: ctx) hnoV hfdV v x2 c2 h2
    have b3 := rcPairListEI id_ repl ro t ctx hno hfd rest x3 c3 h3
    rw [he]
    simp only [eraseIndexPairs, b1, b2, b3]
end

theorem targetCtx_start (tf : Frame) (ctx : List Frame)
    (htf1 : tf.isTargetFrame = true) (htf2 : tf.isAssignFrame = true)
    (htf3 : (Frame.indexValue == tf) = false)
    (hno : ctx.contains Frame.indexValue = false) :
    (tf :: ctx).contains Frame.indexValue = false ∧
      ∃ tf2, (tf :: ctx).find? Frame.isAssignFrame = some tf2 ∧
        tf2.isTargetFrame = true := by
  constructor
  · have hno2 : Frame.indexValue ∉ ctx := by simpa using hno
    have h3 : ¬Frame.indexValue = tf := by simpa using htf3
    simp [List.contains_cons, h3, hno2]
  · exact ⟨tf, by rw [List.find?_cons_of_pos _ (by simp [htf2])], htf1⟩

/-- C2: the substitution exclusion rules of `replace_constant`, for any
replacement (builtin or user-defined): a `Name` that is a call target is
never replaced; a `Name` that is a dictionary-literal key is never
replaced; no `Name` lying anywhere in the target of a plain, annotated
or augmented assignment is replaced unless it sits inside an `Index`
context within the target — the rewritten target's `Index`-erasure
equals the original's, so names nested in compound targets outside
`Index` (such as the base of `x[0] = 2`) survive, and bare-`Name`
targets survive; but a name inside an `Index` context nested within the
target is still replaced (shown for a constant replacement, which
`_replace` accepts). -/
theorem claim_C2 (id_ : String) (repl : Option Expr) (ro : Bool)
    (t : Option TypeDesc) (ctx : List Frame) :
    (∀ (mf mc : NodeMeta) (args : ExprList) (e' : Expr) (n : Nat),
      rcExpr id_ repl ro t ctx (.call (.name id_ mf) args mc) =
        .ok (e', n) →
      ∃ args' n2,
        rcExprList id_ repl ro t (.callArg :: ctx) args = .ok (args', n2) ∧
        e' = .call (.name id_ mf) args' mc ∧ n = n2) ∧
    (∀ (mk : NodeMeta) (v : Expr) (rest : PairList) (ps' : PairList)
        (n : Nat),
      rcPairList id_ repl ro t ctx (.cons (.name id_ mk) v rest) =
        .ok (ps', n) →
      ∃ v' rest' n2 n3,
        rcExpr id_ repl ro t (.dictValue :: ctx) v = .ok (v', n2) ∧
        rcPairList id_ repl ro t ctx rest = .ok (rest', n3) ∧
        ps' = .cons (.name id_ mk) v' rest' ∧ n = n2 + n3) ∧
    (ctx.contains Frame.indexValue = false →
      (∀ (mt : NodeMeta) (val : Expr) (s' : Stmt) (n : Nat),
        rcStmt id_ repl ro t ctx (.assign (.name id_ mt) val) =
          .ok (s', n) →
        ∃ val' n2,
          rcExpr id_ repl ro t (.assignValue :: ctx) val = .ok (val', n2) ∧
          s' = .assign (.name id_ mt) val' ∧ n = n2) ∧
      (∀ (mt : NodeMeta) (ann v : Expr) (s' : Stmt) (n : Nat),
        rcStmt id_ repl ro t ctx
            (.annAssign (.name id_ mt) ann (some v)) = .ok (s', n) →
        ∃ ann' v' n2 n3,
          s' = .annAssign (.name id_ mt) ann' (some v') ∧ n = n2 + n3 ∧
          rcExpr id_ repl ro t (.annAnn :: ctx) ann = .ok (ann', n2) ∧
          rcExpr id_ repl ro t (.annValue :: ctx) v = .ok (v', n3)) ∧
      (∀ (mt : NodeMeta) (op : BinOpK) (val : Expr) (s' : Stmt) (n : Nat),
        rcStmt id_ repl ro t ctx (.augAssign (.name id_ mt) op val) =
          .ok (s', n) →
        ∃ val' n2,
          rcExpr id_ repl ro t (.augValue :: ctx) val = .ok (val', n2) ∧
          s' = .augAssign (.name id_ mt) op val' ∧ n = n2) ∧
      (∀ (tgt val : Expr) (s' : Stmt) (n : Nat),
        rcStmt id_ repl ro t ctx (.assign tgt val) = .ok (s', n) →
        ∃ tgt' val' n2 n3,
          s' = .assign tgt' val' ∧ n = n2 + n3 ∧
          eraseIndexExpr tgt' = eraseIndexExpr tgt ∧
          rcExpr id_ repl ro t (.assignTarget :: ctx) tgt = .ok (tgt', n2) ∧
          rcExpr id_ repl ro t (.assignValue :: ctx) val = .ok (val', n3)) ∧
      (∀ (tgt ann : Expr) (val : Option Expr) (s' : Stmt) (n : Nat),
        rcStmt id_ repl ro t ctx (.annAssign tgt ann val) = .ok (s', n) →
        ∃ tgt' ann' val', s' = .annAssign tgt' ann' val' ∧
          eraseIndexExpr tgt' = eraseIndexExpr tgt) ∧
      (∀ (tgt : Expr) (op : BinOpK) (val : Expr) (s' : Stmt) (n : Nat),
        rcStmt id_ repl ro t ctx (.augAssign tgt op val) = .ok (s', n) →
        ∃ tgt' val', s' = .augAssign tgt' op val' ∧
          eraseIndexExpr tgt' = eraseIndexExpr tgt) ∧
      (∀ (cst : Expr), cst.isConstant = true → repl = some cst →
        ∀ (b : Expr) (mi mI ms : NodeMeta) (val : Expr) (s' : Stmt)
          (n : Nat),
        rcStmt id_ repl ro t ctx
            (.assign (.subscript b (.index (.name id_ mi) mI) ms) val) =
          .ok (s', n) →
        ∃ b' val' n2 n3,
          s' = .assign
            (.subscript b' (.index (cst.withMeta ⟨mi.pos, t⟩) mI) ms)
            val' ∧
          n = n2 + 1 + n3 ∧
          rcExpr id_ repl ro t
            (.subscriptValue :: .assignTarget :: ctx) b = .ok (b', n2) ∧
          rcExpr id_ repl ro t (.assignValue :: ctx) val =
            .ok (val', n3))) := by
  refine ⟨?_, ?_, fun hno => ⟨?_, ?_, ?_, ?_, ?_, ?_, ?_⟩⟩
  · intro mf mc args e' n h
    obtain ⟨x1, c1, x2, c2, h1, h2, he, hn⟩ :=
      rcInv_call id_ repl ro t ctx (.name id_ mf) args mc e' n h
    rw [rcExpr_name_skip id_ repl ro t _ mf (skipName_callFunc ctx)] at h1
    cases h1
    exact ⟨x2, c2, h2, he, by omega⟩
  · intro mk v rest ps' n h
    obtain ⟨x1, c1, x2, c2, x3, c3, h1, h2, h3, he, hn⟩ :=
      rcInv_consP id_ repl ro t ctx (.name id_ mk) v rest ps' n h
    rw [rcExpr_name_skip id_ repl ro t _ mk (skipName_dictKey ctx)] at h1
    cases h1
    exact ⟨x2, x3, c2, c3, h2, h3, he, by omega⟩
  · intro mt val s' n h
    obtain ⟨x1, c1, x2, c2, h1, h2, he, hn⟩ :=
      rcInv_assign id_ repl ro t ctx (.name id_ mt) val s' n h
    rw [rcExpr_name_skip id_ repl ro t _ mt
      (skipName_assignTarget ctx hno)] at h1
    cases h1
    exact ⟨x2, c2, h2, he, by omega⟩
  · intro mt ann v s' n h
    obtain ⟨x1, c1, x2, c2, x3, c3, h1, h2, h3, he, hn⟩ :=
      rcInv_annAssignSome id_ repl ro t ctx (.name id_ mt) ann v s' n h
    rw [rcExpr_name_skip id_ repl ro t _ mt
      (skipName_annTarget ctx hno)] at h1
    cases h1
    exact ⟨x2, x3, c2, c3, he, by omega, h2, h3⟩
  · intro mt op val s' n h
    obtain ⟨x1, c1, x2, c2, h1, h2, he, hn⟩ :=
      rcInv_augAssign id_ repl ro t ctx (.name id_ mt) op val s' n h
    rw [rcExpr_name_skip id_ repl ro t _ mt
      (skipName_augTarget ctx hno)] at h1
    cases h1
    exact ⟨x2, c2, h2, he, by omega⟩
  · intro tgt val s' n h
    obtain ⟨x1, c1, x2, c2, h1, h2, he, hn⟩ :=
      rcInv_assign id_ repl ro t ctx tgt val s' n h
    obtain ⟨hnoT, hfdT⟩ := targetCtx_start .assignTarget ctx (by decide)
      (by decide) (by decide) hno
    exact ⟨x1, x2, c1, c2, he, hn,
      rcExprEI id_ repl ro t (.assignTarget :: ctx) hnoT hfdT
        tgt x1 c1 h1, h1, h2⟩
  · intro tgt ann val s' n h
    cases val with
    | none =>
      obtain ⟨x1, c1, x2, c2, h1, h2, he, hn⟩ :=
        rcInv_annAssignNone id_ repl ro t ctx tgt ann s' n h
      obtain ⟨hnoT, hfdT⟩ := targetCtx_start .annTarget ctx (by decide)
        (by decide) (by decide) hno
      exact ⟨x1, x2, none, he,
        rcExprEI id_ repl ro t (.annTarget :: ctx) hnoT hfdT
          tgt x1 c1 h1⟩
    | some v =>
      obtain ⟨x1, c1, x2, c2, x3, c3, h1, h2, h3, he, hn⟩ :=
        rcInv_annAssignSome id_ repl ro t ctx tgt ann v s' n h
      obtain ⟨hnoT, hfdT⟩ := targetCtx_start .annTarget ctx (by decide)
        (by decide) (by decide) hno
      exact ⟨x1, x2, some x3, he,
        rcExprEI id_ repl ro t (.annTarget :: ctx) hnoT hfdT
          tgt x1 c1 h1⟩
  · intro tgt op val s' n h
    obtain ⟨x1, c1, x2, c2, h1, h2, he, hn⟩ :=
      rcInv_augAssign id_ repl ro t ctx tgt op val s' n h
    obtain ⟨hnoT, hfdT⟩ := targetCtx_start .augTarget ctx (by decide)
      (by decide) (by decide) hno
    exact ⟨x1, x2, he,
      rcExprEI id_ repl ro t (.augTarget :: ctx) hnoT hfdT
        tgt x1 c1 h1⟩
  · intro cst hc hrepl b mi mI ms val s' n h
    subst hrepl
    obtain ⟨x1, c1, x2, c2, h1, h2, he, hn⟩ :=
      rcInv_assign id_ (some cst) ro t ctx
        (.subscript b (.index (.name id_ mi) mI) ms) val s' n h
    obtain ⟨y1, d1, y2, d2, g1, g2, ge, gn⟩ :=
      rcInv_subscript id_ (some cst) ro t (.assignTarget :: ctx) b
        (.index (.name id_ mi) mI) ms x1 c1 h1
    obtain ⟨z1, e1, k1, ke, kn⟩ :=
      rcInv_index id_ (some cst) ro t
        (.subscriptSlice :: .assignTarget :: ctx) (.name id_ mi) mI y2 d2 g2
    have hname : rcExpr id_ (some cst) ro t
        (.indexValue :: .subscriptSlice :: .assignTarget :: ctx)
        (.name id_ mi) = .ok (cst.withMeta ⟨mi.pos, t⟩, 1) := by
      simp [rcExpr, skipName_indexValue,
        replaceNode_const_some (.name id_ mi) cst hc t, Expr.pos]
    rw [hname] at k1
    cases k1
    subst ke kn ge gn he hn
    exact ⟨y1, x2, d1, c2, rfl, by omega, g1, h2⟩

theorem claim_C2_witness :
    (∃ args' n2,
      rcExprList "x" (some (.intL 5 ⟨0, none⟩)) false none
        (.callArg :: [Frame.exprStmtE, Frame.moduleBody]) .nil =
        .ok (args', n2) ∧
      (Expr.call (.name "x" ⟨1, none⟩) .nil ⟨2, none⟩ : Expr) =
        .call (.name "x" ⟨1, none⟩) args' ⟨2, none⟩ ∧ 0 = n2) ∧
    (∃ val' n2,
      rcExpr "x" (some (.intL 5 ⟨0, none⟩)) false none
        (.assignValue :: [Frame.moduleBody]) (.name "x" ⟨4, none⟩) =
        .ok (val', n2) ∧
      (Stmt.assign (.name "x" ⟨3, none⟩) (.intL 5 ⟨4, none⟩) : Stmt) =
        .assign (.name "x" ⟨3, none⟩) val' ∧ 1 = n2) ∧
    (∃ tgt' val' n2 n3,
      (Stmt.assign
        (.subscript (.name "x" ⟨10, none⟩)
          (.index (.intL 0 ⟨11, none⟩) ⟨12, none⟩) ⟨13, none⟩)
        (.intL 2 ⟨14, none⟩) : Stmt) = .assign tgt' val' ∧
      (0 : Nat) = n2 + n3 ∧
      eraseIndexExpr tgt' =
        eraseIndexExpr (.subscript (.name "x" ⟨10, none⟩)
          (.index (.intL 0 ⟨11, none⟩) ⟨12, none⟩) ⟨13, none⟩) ∧
      rcExpr "x" (some (.intL 5 ⟨0, none⟩)) false none
        (.assignTarget :: [Frame.moduleBody])
        (.subscript (.name "x" ⟨10, none⟩)
          (.index (.intL 0 ⟨11, none⟩) ⟨12, none⟩) ⟨13, none⟩) =
        .ok (tgt', n2) ∧
      rcExpr "x" (some (.intL 5 ⟨0, none⟩)) false none
        (.assignValue :: [Frame.moduleBody]) (.intL 2 ⟨14, none⟩) =
        .ok (val', n3)) ∧
    (∃ b' val' n2 n3,
      (Stmt.assign
        (.subscript (.name "arr" ⟨5, none⟩)
          (.index (.intL 5 ⟨6, none⟩) ⟨7, none⟩) ⟨8, none⟩)
        (.intL 2 ⟨9, none⟩) : Stmt) =
        .assign
          (.subscript b'
            (.index ((Expr.intL 5 ⟨0, none⟩).withMeta ⟨6, none⟩) ⟨7, none⟩)
            ⟨8, none⟩) val' ∧
      (1 : Nat) = n2 + 1 + n3 ∧
      rcExpr "x" (some (.intL 5 ⟨0, none⟩)) false none
        (.subscriptValue :: .assignTarget :: [Frame.moduleBody])
        (.name "arr" ⟨5, none⟩) = .ok (b', n2) ∧
      rcExpr "x" (some (.intL 5 ⟨0, none⟩)) false none
        (.assignValue :: [Frame.moduleBody]) (.intL 2 ⟨9, none⟩) =
        .ok (val', n3)) :=
  ⟨(claim_C2 "x" (some (.intL 5 ⟨0, none⟩)) false none
      [Frame.exprStmtE, Frame.moduleBody]).1
      ⟨1, none⟩ ⟨2, none⟩ .nil _ 0 (by rfl),
   ((claim_C2 "x" (some (.intL 5 ⟨0, none⟩)) false none
      [Frame.moduleBody]).2.2 (by rfl)).1
      ⟨3, none⟩ (.name "x" ⟨4, none⟩) _ 1 (by rfl),
   ((claim_C2 "x" (some (.intL 5 ⟨0, none⟩)) false none
      [Frame.moduleBody]).2.2 (by rfl)).2.2.2.1
      (.subscript (.name "x" ⟨10, none⟩)
        (.index (.intL 0 ⟨11, none⟩) ⟨12, none⟩) ⟨13, none⟩)
      (.intL 2 ⟨14, none⟩) _ 0 (by rfl),
   (((claim_C2 "x" (some (.intL 5 ⟨0, none⟩)) false none
      [Frame.moduleBody]).2.2 (by rfl)).2.2.2.2.2.2
      (.intL 5 ⟨0, none⟩) (by rfl) rfl (.name "arr" ⟨5, none⟩)
      ⟨6, none⟩ ⟨7, none⟩ ⟨8, none⟩ (.intL 2 ⟨9, none⟩) _ 1 (by rfl))⟩
